import Mathlib

/-!
STYLOBOX jukebox: a shallow embedding of the FSM layer.

The C sources under `common/src` and `port/stm32f4/src` are embedded as pure functions on an
explicit machine state `world`.

Conventions of the embedding.

* A C `char` is a natural number (its byte value); a character array is a `List Nat`; a C string
  passed around by pointer is the list of its bytes before the terminating NUL.
* `uint32_t` values are naturals, reduced modulo `2 ^ 32` where the C arithmetic can overflow.
* A finite `double` is the rational number it denotes; the sign of zero, the infinities and NaN
  are not represented. `atof` (libc) is a parameter of the functions that call it; its value is a
  `double`, as is the constant `0.1` of the command `speed` (`DOUBLE_0_1`).
* The objects the jukebox reaches through its pointers (`p_fsm_button`, `p_fsm_usart`,
  `p_fsm_buzzer`) and the globals of the port layer are fields of the single record `world`.
  The device arrays `buttons_arr`, `usart_arr` have one element (identifier 0).
* The library slots are only written by `fsm_jukebox_init`, so a `melody_t *` into the library is
  represented by the value of the slot it points to, and `NULL` by `none`.
* Code whose behaviour the C standard leaves undefined (reading an array past its end, passing a
  null pointer to `%s`) returns `none`.
* Automatic arrays that C leaves uninitialised (`char msg[...]`) start from an arbitrary content
  `garbage : Nat → Nat` (index to byte).
* `printf` writes to the ITM debug console, which is not part of `world`.
* The timer registers written by `port_buzzer.c` are not part of `world`; the calls that the
  buzzer FSM makes to the port layer are recorded, in order, in `world.buzzer_calls`.
* Of the USART peripheral, `world` holds the two interrupt-enable bits of `CR1` and the bytes
  written to the data register; the byte read from the data register is an argument of
  `port_usart_store_data`, and the status register is not part of `world`.
* An array of a fixed size is a list of that length; `memset` and `memcpy` over a whole array
  replace the list.
* The interrupt handlers of `interr.c` take as arguments the status flags, pin level and data
  register content that they read from the peripherals; a run of the machine is a sequence of
  fires of the four FSMs and of such interrupts.
* The one operation on doubles whose result is computed is `(double)duration / player_speed` of
  `_start_note`: the quotient is rounded as the binary64 division of IEEE 754 rounds it (to
  nearest, ties to even) and converted to `uint32_t` by discarding the fraction. Where C gives
  the conversion no result (division by zero, a quotient of `2 ^ 32` or more, or of `-1` or less)
  the duration handed to the port layer is `none`; the port layer uses it for timer registers
  only.
-/

namespace Stylobox

/-! ## Constants (`fsm_usart.h`, `port_usart.h`, `fsm_jukebox.h`) -/

abbrev USART_INPUT_BUFFER_LENGTH : Nat := 10
abbrev USART_OUTPUT_BUFFER_LENGTH : Nat := 100
abbrev EMPTY_BUFFER_CONSTANT : Nat := 0
abbrev END_CHAR_CONSTANT : Nat := 10
abbrev MELODIES_MEMORY_SIZE : Nat := 10
/-- The space character, the delimiter given to `strtok`. -/
abbrev SPACE : Nat := 32
/-- The constant `0.1` of type `double`: the binary64 number nearest to one tenth, which is
`3602879701896397 / 2 ^ 55`, a little more than one tenth. -/
def DOUBLE_0_1 : ℚ := mkRat 3602879701896397 36028797018963968

/-! ## Enumerations -/

/-- States of the button FSM (`enum FSM_BUTTON`). -/
inductive FSM_BUTTON where
  | BUTTON_RELEASED
  | BUTTON_RELEASED_WAIT
  | BUTTON_PRESSED
  | BUTTON_PRESSED_WAIT
deriving DecidableEq

/-- States of the USART FSM (`enum FSM_USART`). -/
inductive FSM_USART where
  | WAIT_DATA
  | SEND_DATA
deriving DecidableEq

/-- States of the buzzer FSM (`enum FSM_BUZZER`). -/
inductive FSM_BUZZER where
  | WAIT_START
  | WAIT_NOTE
  | PLAY_NOTE
  | WAIT_MELODY
  | PAUSE_NOTE
deriving DecidableEq

/-- Actions requested on the player (`enum USER_ACTIONS`). -/
inductive USER_ACTIONS where
  | STOP
  | PLAY
  | PAUSE
deriving DecidableEq

/-- States of the jukebox FSM (`enum FSM_JUKEBOX`). -/
inductive FSM_JUKEBOX where
  | OFF
  | START_UP
  | WAIT_COMMAND
  | SLEEP_WHILE_OFF
  | SLEEP_WHILE_ON
deriving DecidableEq

/-! ## Records -/

/-- Modelled from the spec: `melody_t` of `melodies.h`, which is not among the sources. The fields
are the ones the sources read: notes, durations, the note count and the display name
(`none` is a null `p_name`, as in a slot cleared by `memset`). -/
structure melody_t where
  p_notes : List ℚ
  p_durations : List Nat
  melody_length : Nat
  p_name : Option (List Nat)
deriving DecidableEq

/-- The record `fsm_button_t`; `current_state` is the field of the embedded `fsm_t`. -/
structure fsm_button_t where
  current_state : FSM_BUTTON
  debounce_time : Nat
  next_timeout : Nat
  tick_pressed : Nat
  duration : Nat
  button_id : Nat
deriving DecidableEq

/-- The record `fsm_usart_t`. -/
structure fsm_usart_t where
  current_state : FSM_USART
  data_received : Bool
  in_data : List Nat
  out_data : List Nat
  usart_id : Nat
deriving DecidableEq

/-- The record `fsm_buzzer_t`. -/
structure fsm_buzzer_t where
  current_state : FSM_BUZZER
  p_melody : Option melody_t
  note_index : Nat
  buzzer_id : Nat
  user_action : USER_ACTIONS
  player_speed : ℚ
deriving DecidableEq

/-- The fields of `fsm_jukebox_t` other than the three pointers to the sub-FSMs, whose targets are
fields of `world`. -/
structure fsm_jukebox_t where
  current_state : FSM_JUKEBOX
  melodies : Fin MELODIES_MEMORY_SIZE → melody_t
  melody_idx : Nat
  p_melody : Option (List Nat)
  on_off_press_time_ms : Nat
  next_song_press_time_ms : Nat
  speed : ℚ

/-- The fields of `port_button_hw_t` that the FSM layer reads. -/
structure port_button_hw_t where
  flag_pressed : Bool
deriving DecidableEq

/-- The fields of `port_usart_hw_t` that the sources read or write, with the two interrupt-enable
bits of the peripheral's `CR1` register and, in `DR_written`, the bytes written so far to its data
register `DR`, in order. -/
structure port_usart_hw_t where
  input_buffer : List Nat
  i_idx : Nat
  read_complete : Bool
  output_buffer : List Nat
  o_idx : Nat
  write_complete : Bool
  CR1_RXNEIE : Bool
  CR1_TXEIE : Bool
  DR_written : List Nat
deriving DecidableEq

/-- The field of `port_buzzer_hw_t` that the FSM layer reads: `note_end`, set by the handler of
the note-duration timer. -/
structure port_buzzer_hw_t where
  note_end : Bool
deriving DecidableEq

/-- A call from the buzzer FSM to the port layer, with its arguments. The duration is `none` when
the conversion to `uint32_t` that computes it has no result in C. -/
inductive port_buzzer_call where
  | set_note_duration (buzzer_id : Nat) (duration_ms : Option Nat)
  | set_note_frequency (buzzer_id : Nat) (frequency_hz : ℚ)
  | stop (buzzer_id : Nat)
deriving DecidableEq

/-- The machine state: port-layer globals and the four FSM objects. `msTicks` is the millisecond
counter, `tickint` the SysTick interrupt-enable bit, `wfi_count` the number of `__WFI()`
instructions executed so far, `buzzer_calls` the calls made so far to the buzzer port. -/
structure world where
  msTicks : Nat
  tickint : Bool
  wfi_count : Nat
  buttons_arr : port_button_hw_t
  usart_arr : port_usart_hw_t
  buzzers_arr : port_buzzer_hw_t
  buzzer_calls : List port_buzzer_call
  button : fsm_button_t
  usart : fsm_usart_t
  buzzer : fsm_buzzer_t
  jukebox : fsm_jukebox_t

/-! ## The FSM engine -/

/-- One row of a transition table (`fsm_trans_t`): origin state, guard (`in`), destination state
and optional action (`out`, `none` for `NULL`). Guards and actions are partial: `none` stands for
undefined behaviour of the C body. -/
structure fsm_trans_t (S W : Type) where
  orig_state : S
  guard : W → Option Bool
  dest_state : S
  action : Option (W → Option W)

/-- Modelled from the spec: `fsm_fire` of the generic engine (`fsm.c` is not among the sources).
The table is scanned in declaration order; the guard of a row is evaluated only when the row's
origin is the current state; for the first row whose guard holds the action is run if present,
then the current state is set to the destination, and the scan stops. With no such row the
machine is returned as it is. `get` and `set` read and write the `current_state` of the FSM
object inside the machine state. -/
def fsm_fire {S W : Type} [DecidableEq S] (get : W → S) (set : S → W → W) :
    List (fsm_trans_t S W) → W → Option W
  | [], w => some w
  | t :: ts, w =>
    if t.orig_state = get w then
      match t.guard w with
      | none => none
      | some true =>
        match t.action with
        | none => some (set t.dest_state w)
        | some a => (a w).map (set t.dest_state)
      | some false => fsm_fire get set ts w
    else fsm_fire get set ts w

/-! ## C strings and the libc functions used by the command parser -/

/-- Bytes of the literal "play". -/
def str_play : List Nat := [112, 108, 97, 121]
/-- Bytes of the literal "stop". -/
def str_stop : List Nat := [115, 116, 111, 112]
/-- Bytes of the literal "pause". -/
def str_pause : List Nat := [112, 97, 117, 115, 101]
/-- Bytes of the literal "speed". -/
def str_speed : List Nat := [115, 112, 101, 101, 100]
/-- Bytes of the literal "next". -/
def str_next : List Nat := [110, 101, 120, 116]
/-- Bytes of the literal "select". -/
def str_select : List Nat := [115, 101, 108, 101, 99, 116]
/-- Bytes of the literal "info". -/
def str_info : List Nat := [105, 110, 102, 111]
/-- Bytes of the literal "Error: Melody not found\n". -/
def str_melody_not_found : List Nat :=
  [69, 114, 114, 111, 114, 58, 32, 77, 101, 108, 111, 100, 121, 32, 110, 111, 116, 32,
   102, 111, 117, 110, 100, 10]
/-- Bytes of the literal "Error: Command not found\n". -/
def str_command_not_found : List Nat :=
  [69, 114, 114, 111, 114, 58, 32, 67, 111, 109, 109, 97, 110, 100, 32, 110, 111, 116, 32,
   102, 111, 117, 110, 100, 10]
/-- Bytes of the literal "Playing: ". -/
def str_playing : List Nat := [80, 108, 97, 121, 105, 110, 103, 58, 32]

/-- The leading delimiters that `strtok` skips: the position of the first byte that is not a
space. -/
def strtok_skip : List Nat → List Nat
  | [] => []
  | c :: r => if c = SPACE then strtok_skip r else c :: r

/-- The token scan of `strtok` from a position inside an array: the bytes before the next space
or NUL, and the position saved for the next call (behind the space, which is overwritten by NUL,
or at the NUL). The scan is undefined when it reaches the end of the array. -/
def strtok_scan : List Nat → Option (List Nat × List Nat)
  | [] => none
  | c :: r =>
    if c = 0 then some ([], c :: r)
    else if c = SPACE then some ([], r)
    else (strtok_scan r).map (fun p => (c :: p.1, p.2))

/-- The call `strtok(s, " ")` on the bytes from position `s` to the end of the array holding it
(and `strtok(NULL, " ")` when `s` is the saved position). `some none` is the result `NULL`,
`some (some (token, saved))` a token; `none` when no NUL is found inside the array. -/
def strtok (s : List Nat) : Option (Option (List Nat × List Nat)) :=
  match strtok_skip s with
  | [] => none
  | c :: r => if c = 0 then some none else (strtok_scan (c :: r)).map some

/-- The call `strcpy(dst, src)` into an array of `cap` bytes: the string with its NUL has to fit. -/
def strcpy (cap : Nat) (src : List Nat) : Option (List Nat) :=
  if src.length < cap then some src else none

/-- White space in the sense of `isspace` in the C locale. -/
def isspace (c : Nat) : Bool := c = 32 || (9 ≤ c && c ≤ 13)

/-- The value of the longest prefix of decimal digits, accumulated from `acc`. -/
def atoi_digits : Nat → List Nat → Nat
  | acc, [] => acc
  | acc, c :: r => if 48 ≤ c ∧ c ≤ 57 then atoi_digits (acc * 10 + (c - 48)) r else acc

/-- The libc function `atoi`: skip white space, read an optional sign and the decimal digits that
follow; 0 when there is no digit. -/
def atoi (s : List Nat) : Int :=
  match s.dropWhile isspace with
  | [] => 0
  | c :: r =>
    if c = 45 then - (atoi_digits 0 r : Int)
    else if c = 43 then (atoi_digits 0 r : Int)
    else (atoi_digits 0 (c :: r) : Int)

/-- The macro `MAX(a, b)`, namely `((a) > (b) ? (a) : (b))`. -/
def MAX (a b : ℚ) : ℚ := if a > b then a else b

/-- The call `sprintf(msg, ...)` producing the text `s` in an uninitialised array of
`USART_OUTPUT_BUFFER_LENGTH` bytes: the text, its NUL, and the former content of the rest of the
array. Undefined when the text with its NUL does not fit. -/
def sprintf (garbage : Nat → Nat) (s : List Nat) : Option (List Nat) :=
  if s.length < USART_OUTPUT_BUFFER_LENGTH then
    some (s ++ 0 :: (List.range' (s.length + 1) (USART_OUTPUT_BUFFER_LENGTH - (s.length + 1))).map
      garbage)
  else none

/-- The message in an output buffer as the transmit path sees it: the bytes up to and including
the first newline. -/
def upto_newline : List Nat → List Nat
  | [] => []
  | c :: r => if c = END_CHAR_CONSTANT then [c] else c :: upto_newline r

/-! ## Public functions of the button, USART and buzzer FSMs used by the jukebox -/

/-- Function `fsm_button_get_duration`. -/
def fsm_button_get_duration (b : fsm_button_t) : Nat := b.duration

/-- Function `fsm_button_reset_duration`. -/
def fsm_button_reset_duration (b : fsm_button_t) : fsm_button_t := { b with duration := 0 }

/-- Function `fsm_button_check_activity`. -/
def fsm_button_check_activity (b : fsm_button_t) : Bool :=
  b.current_state != FSM_BUTTON.BUTTON_RELEASED

/-- Function `fsm_usart_check_data_received`. -/
def fsm_usart_check_data_received (u : fsm_usart_t) : Bool := u.data_received

/-- Function `fsm_usart_get_in_data`: the copy of the whole array `in_data`. -/
def fsm_usart_get_in_data (u : fsm_usart_t) : List Nat := u.in_data

/-- Function `fsm_usart_set_out_data`: `out_data` is cleared, then `USART_OUTPUT_BUFFER_LENGTH` bytes are
copied from the array `p_data`. -/
def fsm_usart_set_out_data (u : fsm_usart_t) (p_data : List Nat) : fsm_usart_t :=
  { u with out_data := p_data.take USART_OUTPUT_BUFFER_LENGTH }

/-- Function `fsm_usart_reset_input_data`. -/
def fsm_usart_reset_input_data (u : fsm_usart_t) : fsm_usart_t :=
  { u with in_data := List.replicate USART_INPUT_BUFFER_LENGTH EMPTY_BUFFER_CONSTANT,
           data_received := false }

/-- Function `fsm_usart_check_activity`. -/
def fsm_usart_check_activity (u : fsm_usart_t) : Bool :=
  (u.current_state == FSM_USART.SEND_DATA) || u.data_received

/-- Function `port_usart_disable_rx_interrupt`. -/
def port_usart_disable_rx_interrupt (h : port_usart_hw_t) : port_usart_hw_t :=
  { h with CR1_RXNEIE := false }

/-- Function `port_usart_disable_tx_interrupt`. -/
def port_usart_disable_tx_interrupt (h : port_usart_hw_t) : port_usart_hw_t :=
  { h with CR1_TXEIE := false }

/-- Function `port_usart_enable_rx_interrupt`. -/
def port_usart_enable_rx_interrupt (h : port_usart_hw_t) : port_usart_hw_t :=
  { h with CR1_RXNEIE := true }

/-- Function `port_usart_enable_tx_interrupt`. -/
def port_usart_enable_tx_interrupt (h : port_usart_hw_t) : port_usart_hw_t :=
  { h with CR1_TXEIE := true }

/-- Function `fsm_buzzer_set_melody`. -/
def fsm_buzzer_set_melody (b : fsm_buzzer_t) (p_melody : Option melody_t) : fsm_buzzer_t :=
  { b with p_melody := p_melody }

/-- Function `fsm_buzzer_set_speed`. -/
def fsm_buzzer_set_speed (b : fsm_buzzer_t) (speed : ℚ) : fsm_buzzer_t :=
  { b with player_speed := speed }

/-- Function `fsm_buzzer_set_action`. -/
def fsm_buzzer_set_action (b : fsm_buzzer_t) (action : USER_ACTIONS) : fsm_buzzer_t :=
  if action = USER_ACTIONS.STOP then { b with user_action := action, note_index := 0 }
  else { b with user_action := action }

/-- Function `fsm_buzzer_get_action`. -/
def fsm_buzzer_get_action (b : fsm_buzzer_t) : USER_ACTIONS := b.user_action

/-- Function `fsm_buzzer_check_activity`. -/
def fsm_buzzer_check_activity (b : fsm_buzzer_t) : Bool :=
  (b.user_action == USER_ACTIONS.PLAY) || (b.user_action == USER_ACTIONS.PAUSE)

/-- Function `port_system_sleep`: the SysTick interrupt is suspended and the core waits for an
interrupt. -/
def port_system_sleep (w : world) : world :=
  { w with tickint := false, wfi_count := w.wfi_count + 1 }

/-! ## The jukebox FSM (`fsm_jukebox.c`) -/

/-- Function `_parse_message` on the array `p_message`. `some none` is the result `false`;
`some (some (command, param))` is the result `true` with the strings left in `p_command` and
`p_param`, both arrays of `USART_INPUT_BUFFER_LENGTH` bytes. Without a second token the string
copied to `p_param` is the one-space literal. -/
def _parse_message (p_message : List Nat) : Option (Option (List Nat × List Nat)) :=
  match strtok p_message with
  | none => none
  | some none => some none
  | some (some (tok, saved)) =>
    match strcpy USART_INPUT_BUFFER_LENGTH tok with
    | none => none
    | some p_command =>
      match strtok saved with
      | none => none
      | some none => some (some (p_command, [SPACE]))
      | some (some (tok2, _)) =>
        (strcpy USART_INPUT_BUFFER_LENGTH tok2).map (fun p_param => some (p_command, p_param))

/-- The first slot of the library, `melodies[0]`. -/
def slot0 : Fin MELODIES_MEMORY_SIZE := ⟨0, by decide⟩

/-- The slot index chosen by `_set_next_song`: the successor modulo the library size, or 0 when
that slot has no notes. -/
def next_song_idx (j : fsm_jukebox_t) : Fin MELODIES_MEMORY_SIZE :=
  let idx : Fin MELODIES_MEMORY_SIZE :=
    ⟨(j.melody_idx + 1) % MELODIES_MEMORY_SIZE, Nat.mod_lt _ (by decide)⟩
  if (j.melodies idx).melody_length ≤ 0 then slot0 else idx

/-- Function `_set_next_song`. -/
def _set_next_song (w : world) : world :=
  let b1 := fsm_buzzer_set_action w.buzzer USER_ACTIONS.STOP
  let idx := next_song_idx w.jukebox
  let j1 := { w.jukebox with melody_idx := idx.val, p_melody := (w.jukebox.melodies idx).p_name }
  let b2 := fsm_buzzer_set_melody b1 (some (w.jukebox.melodies idx))
  { w with jukebox := j1, buzzer := fsm_buzzer_set_action b2 USER_ACTIONS.PLAY }

/-- The value of `uint32_t melody_selected = atoi(p_param)`. -/
def melody_selected (p_param : List Nat) : Nat := (atoi p_param % (2 : Int) ^ 32).toNat

/-- Function `_execute_command`. The array `msg` of the error and info branches starts from `garbage`.
Reading `melodies[melody_selected]` is undefined outside the library; the assignment to the
`uint8_t` field `melody_idx` truncates. -/
def _execute_command (atof : List Nat → ℚ) (garbage : Nat → Nat) (w : world)
    (p_command p_param : List Nat) : Option world :=
  if p_command = str_play then
    some { w with buzzer := fsm_buzzer_set_action w.buzzer USER_ACTIONS.PLAY }
  else if p_command = str_stop then
    some { w with buzzer := fsm_buzzer_set_action w.buzzer USER_ACTIONS.STOP }
  else if p_command = str_pause then
    some { w with buzzer := fsm_buzzer_set_action w.buzzer USER_ACTIONS.PAUSE }
  else if p_command = str_speed then
    some { w with buzzer := fsm_buzzer_set_speed w.buzzer (MAX (atof p_param) DOUBLE_0_1) }
  else if p_command = str_next then
    some (_set_next_song w)
  else if p_command = str_select then
    if h : melody_selected p_param < MELODIES_MEMORY_SIZE then
      let slot := w.jukebox.melodies ⟨melody_selected p_param, h⟩
      if slot.melody_length ≠ 0 then
        let b1 := fsm_buzzer_set_action w.buzzer USER_ACTIONS.STOP
        let j1 := { w.jukebox with melody_idx := melody_selected p_param % 256 }
        let b2 := fsm_buzzer_set_melody b1 (some slot)
        let j2 := { j1 with p_melody := slot.p_name }
        some { w with jukebox := j2, buzzer := fsm_buzzer_set_action b2 USER_ACTIONS.PLAY }
      else
        (sprintf garbage str_melody_not_found).map
          (fun msg => { w with usart := fsm_usart_set_out_data w.usart msg })
    else none
  else if p_command = str_info then
    match w.jukebox.p_melody with
    | none => none
    | some name =>
      (sprintf garbage (str_playing ++ name ++ [END_CHAR_CONSTANT])).map
        (fun msg => { w with usart := fsm_usart_set_out_data w.usart msg })
  else
    (sprintf garbage str_command_not_found).map
      (fun msg => { w with usart := fsm_usart_set_out_data w.usart msg })

/-- Guard `check_on`. -/
def check_on (w : world) : Bool :=
  decide (fsm_button_get_duration w.button > 0) &&
    decide (fsm_button_get_duration w.button > w.jukebox.on_off_press_time_ms)

/-- Guard `check_off`. -/
def check_off (w : world) : Bool := check_on w

/-- Guard `check_melody_finished`. -/
def check_melody_finished (w : world) : Bool :=
  USER_ACTIONS.STOP == fsm_buzzer_get_action w.buzzer

/-- Guard `check_command_received`. -/
def check_command_received (w : world) : Bool := fsm_usart_check_data_received w.usart

/-- Guard `check_next_song_button`. -/
def check_next_song_button (w : world) : Bool :=
  let valor := fsm_button_get_duration w.button
  decide (valor > 0) && decide (valor > w.jukebox.next_song_press_time_ms) &&
    decide (valor < w.jukebox.on_off_press_time_ms)

/-- Guard `check_activity` of the jukebox. -/
def check_activity (w : world) : Bool :=
  fsm_button_check_activity w.button || fsm_buzzer_check_activity w.buzzer ||
    fsm_usart_check_activity w.usart

/-- Guard `check_no_activity`. -/
def check_no_activity (w : world) : Bool := !check_activity w

/-- Action `do_start_up`. -/
def do_start_up (w : world) : world :=
  let w1 := { w with button := fsm_button_reset_duration w.button }
  let w2 := { w1 with usart_arr := port_usart_enable_rx_interrupt w1.usart_arr }
  let w3 := { w2 with buzzer := fsm_buzzer_set_speed w2.buzzer 1 }
  let melodia := w3.jukebox.melodies slot0
  let w4 := { w3 with buzzer := fsm_buzzer_set_melody w3.buzzer (some melodia) }
  { w4 with buzzer := fsm_buzzer_set_action w4.buzzer USER_ACTIONS.PLAY }

/-- Action `do_start_jukebox`. -/
def do_start_jukebox (w : world) : world :=
  let j1 := { w.jukebox with melody_idx := 0 }
  { w with jukebox := { j1 with p_melody := (j1.melodies slot0).p_name } }

/-- Action `do_stop_jukebox`. -/
def do_stop_jukebox (w : world) : world :=
  let w1 := { w with button := fsm_button_reset_duration w.button }
  let w2 := { w1 with usart_arr := port_usart_disable_rx_interrupt w1.usart_arr }
  let w3 := { w2 with usart_arr := port_usart_disable_tx_interrupt w2.usart_arr }
  { w3 with buzzer := fsm_buzzer_set_action w3.buzzer USER_ACTIONS.STOP }

/-- Action `do_load_next_song`. -/
def do_load_next_song (w : world) : world :=
  let w1 := _set_next_song w
  { w1 with button := fsm_button_reset_duration w1.button }

/-- Action `do_read_command`: the input array is copied, parsed and, when there is a command,
executed; then the input data of the USART FSM are reset. -/
def do_read_command (atof : List Nat → ℚ) (garbage : Nat → Nat) (w : world) : Option world :=
  let p_message := fsm_usart_get_in_data w.usart
  match _parse_message p_message with
  | none => none
  | some none => some { w with usart := fsm_usart_reset_input_data w.usart }
  | some (some (p_command, p_param)) =>
    (_execute_command atof garbage w p_command p_param).map
      (fun w1 => { w1 with usart := fsm_usart_reset_input_data w1.usart })

/-- Actions `do_sleep_off`, `do_sleep_wait_command`, `do_sleep_while_off`, `do_sleep_while_on`:
each is one call of `port_system_sleep`. -/
def do_sleep (w : world) : world := port_system_sleep w

/-- The table `fms_trans_jukebox`, without its sentinel row. -/
def fms_trans_jukebox (atof : List Nat → ℚ) (garbage : Nat → Nat) :
    List (fsm_trans_t FSM_JUKEBOX world) :=
  [ ⟨.OFF, fun w => some (check_on w), .START_UP, some (fun w => some (do_start_up w))⟩,
    ⟨.START_UP, fun w => some (check_melody_finished w), .WAIT_COMMAND,
      some (fun w => some (do_start_jukebox w))⟩,
    ⟨.WAIT_COMMAND, fun w => some (check_off w), .OFF, some (fun w => some (do_stop_jukebox w))⟩,
    ⟨.WAIT_COMMAND, fun w => some (check_next_song_button w), .WAIT_COMMAND,
      some (fun w => some (do_load_next_song w))⟩,
    ⟨.WAIT_COMMAND, fun w => some (check_command_received w), .WAIT_COMMAND,
      some (do_read_command atof garbage)⟩,
    ⟨.WAIT_COMMAND, fun w => some (check_no_activity w), .SLEEP_WHILE_ON,
      some (fun w => some (do_sleep w))⟩,
    ⟨.SLEEP_WHILE_ON, fun w => some (check_no_activity w), .SLEEP_WHILE_ON,
      some (fun w => some (do_sleep w))⟩,
    ⟨.SLEEP_WHILE_ON, fun w => some (check_activity w), .WAIT_COMMAND, none⟩,
    ⟨.OFF, fun w => some (check_no_activity w), .SLEEP_WHILE_OFF,
      some (fun w => some (do_sleep w))⟩,
    ⟨.SLEEP_WHILE_OFF, fun w => some (check_no_activity w), .SLEEP_WHILE_OFF,
      some (fun w => some (do_sleep w))⟩,
    ⟨.SLEEP_WHILE_OFF, fun w => some (check_activity w), .OFF, none⟩ ]

/-- Writing the `current_state` of the jukebox object. -/
def jukebox_set_state (s : FSM_JUKEBOX) (w : world) : world :=
  { w with jukebox := { w.jukebox with current_state := s } }

/-- The call `fsm_fire(p_fsm_jukebox)`. -/
def fsm_jukebox_fire (atof : List Nat → ℚ) (garbage : Nat → Nat) (w : world) : Option world :=
  fsm_fire (fun w => w.jukebox.current_state) jukebox_set_state (fms_trans_jukebox atof garbage) w

/-- A library slot after `memset(p_fsm->melodies, EMPTY_BUFFER_CONSTANT, ...)`: every field is
zero. -/
def empty_slot : melody_t := ⟨[], [], 0, none⟩

/-- The library built by `fsm_jukebox_init`: the three melodies of `melodies.c` (not among the
sources, hence parameters) in slots 0, 1 and 2, the other slots cleared. -/
def default_melodies (scale_melody happy_birthday_melody tetris_melody : melody_t) :
    Fin MELODIES_MEMORY_SIZE → melody_t :=
  fun i =>
    if i.val = 0 then scale_melody
    else if i.val = 1 then happy_birthday_melody
    else if i.val = 2 then tetris_melody
    else empty_slot

/-- Function `fsm_jukebox_init`. The fields `p_melody` and `speed` are not assigned by the function and
keep what the allocation left there (`p_melody0`, `speed0`). The current state is the origin of
the first row of the table, where `fsm_init` (not among the sources) leaves it. -/
def fsm_jukebox_init (p_melody0 : Option (List Nat)) (speed0 : ℚ)
    (scale_melody happy_birthday_melody tetris_melody : melody_t)
    (on_off_press_time_ms next_song_press_time_ms : Nat) : fsm_jukebox_t :=
  { current_state := FSM_JUKEBOX.OFF
    melodies := default_melodies scale_melody happy_birthday_melody tetris_melody
    melody_idx := 0
    p_melody := p_melody0
    on_off_press_time_ms := on_off_press_time_ms
    next_song_press_time_ms := next_song_press_time_ms
    speed := speed0 }

/-! ## The button FSM (`fsm_button.c`) -/

/-- The modulus of `uint32_t` arithmetic. -/
abbrev UINT32_MOD : Nat := 4294967296

/-- Guard `check_button_pressed`. -/
def check_button_pressed (w : world) : Bool := w.buttons_arr.flag_pressed

/-- Guard `check_timeout`. -/
def check_timeout (w : world) : Bool := decide (w.msTicks > w.button.next_timeout)

/-- Guard `check_button_released`. -/
def check_button_released (w : world) : Bool := !w.buttons_arr.flag_pressed

/-- Action `do_store_tick_pressed`. -/
def do_store_tick_pressed (w : world) : world :=
  let tick := w.msTicks
  let b1 := { w.button with tick_pressed := tick }
  { w with button := { b1 with next_timeout := (tick + b1.debounce_time) % UINT32_MOD } }

/-- Action `do_set_duration`; the subtraction is the one of `uint32_t`. -/
def do_set_duration (w : world) : world :=
  let tick := w.msTicks
  let tickp := w.button.tick_pressed
  let b1 := { w.button with duration := (((tick : Int) - (tickp : Int)) % (UINT32_MOD : Int)).toNat }
  { w with button := { b1 with next_timeout := (tick + b1.debounce_time) % UINT32_MOD } }

/-- The table `fsm_trans_button`, without its sentinel row. -/
def fsm_trans_button : List (fsm_trans_t FSM_BUTTON world) :=
  [ ⟨.BUTTON_RELEASED, fun w => some (check_button_pressed w), .BUTTON_PRESSED_WAIT,
      some (fun w => some (do_store_tick_pressed w))⟩,
    ⟨.BUTTON_PRESSED_WAIT, fun w => some (check_timeout w), .BUTTON_PRESSED, none⟩,
    ⟨.BUTTON_PRESSED, fun w => some (check_button_released w), .BUTTON_RELEASED_WAIT,
      some (fun w => some (do_set_duration w))⟩,
    ⟨.BUTTON_RELEASED_WAIT, fun w => some (check_timeout w), .BUTTON_RELEASED, none⟩ ]

/-- Writing the `current_state` of the button object. -/
def button_set_state (s : FSM_BUTTON) (w : world) : world :=
  { w with button := { w.button with current_state := s } }

/-- The call `fsm_fire(p_fsm_button)`. -/
def fsm_button_fire (w : world) : Option world :=
  fsm_fire (fun w => w.button.current_state) button_set_state fsm_trans_button w

/-- Function `fsm_button_init`. The field `next_timeout` is not assigned and keeps what the allocation
left there (`next_timeout0`). The current state is the origin of the first row of the table,
where `fsm_init` (not among the sources) leaves it. -/
def fsm_button_init (next_timeout0 debounce_time button_id : Nat) : fsm_button_t :=
  { current_state := FSM_BUTTON.BUTTON_RELEASED
    debounce_time := debounce_time
    next_timeout := next_timeout0
    tick_pressed := 0
    duration := 0
    button_id := button_id }

/-! ## Observations used to state the properties -/

/-- A row can be taken in machine state `w`: its origin is the current state and its guard
holds. -/
def row_enabled {S W : Type} (get : W → S) (t : fsm_trans_t S W) (w : W) : Prop :=
  t.orig_state = get w ∧ t.guard w = some true

/-- A row is passed over in machine state `w`: its origin is another state, or its guard is
false. -/
def row_rejected {S W : Type} (get : W → S) (t : fsm_trans_t S W) (w : W) : Prop :=
  t.orig_state ≠ get w ∨ (t.orig_state = get w ∧ t.guard w = some false)

/-- The effect of taking row `t`: its action, if any, then the destination state. -/
def row_effect {S W : Type} (set : S → W → W) (t : fsm_trans_t S W) (w : W) : Option W :=
  match t.action with
  | none => some (set t.dest_state w)
  | some a => (a w).map (set t.dest_state)

/-- The first token of a line, in the words of the protocol: the line is split at spaces; the
first token is the maximal run of bytes other than space that follows the leading spaces, and
there is none when the line has only spaces. -/
def first_token (line : List Nat) : Option (List Nat) :=
  match line.dropWhile (fun c => c == SPACE) with
  | [] => none
  | c :: r => some ((c :: r).takeWhile (fun c => c != SPACE))

/-- The seven command words of the protocol. -/
def command_words : List (List Nat) :=
  [str_play, str_stop, str_pause, str_speed, str_next, str_select, str_info]

/-- The environment between two fires of the button FSM: the SysTick handler has brought the
millisecond counter to `tick` and the EXTI handler has left `pressed` in `flag_pressed`. -/
def env_button (tick : Nat) (pressed : Bool) (w : world) : world :=
  { w with msTicks := tick, buttons_arr := { w.buttons_arr with flag_pressed := pressed } }

/-- The button FSM fired once at each of the instants `tick 0, tick 1, ..., tick k` while the
button is held down. -/
def button_held_run (tick : Nat → Nat) (w : world) : Nat → Option world
  | 0 => fsm_button_fire (env_button (tick 0) true w)
  | k + 1 =>
    (button_held_run tick w k).bind (fun w1 => fsm_button_fire (env_button (tick (k + 1)) true w1))

/-! ## The buzzer FSM (`fsm_buzzer.c`, with the calls of `port_buzzer.c`) -/

/-- The identifier of the only buzzer, index of the only element of `buzzers_arr`. -/
abbrev BUZZER_0_ID : Nat := 0

/-- Function `port_buzzer_set_note_duration`: the call is recorded; for buzzer 0 the duration
timer is restarted and `note_end` is cleared. -/
def port_buzzer_set_note_duration (buzzer_id : Nat) (duration_ms : Option Nat) (w : world) :
    world :=
  let w1 := { w with buzzer_calls :=
    w.buzzer_calls ++ [port_buzzer_call.set_note_duration buzzer_id duration_ms] }
  if buzzer_id = BUZZER_0_ID then { w1 with buzzers_arr := { w1.buzzers_arr with note_end := false } }
  else w1

/-- Function `port_buzzer_set_note_frequency`: the call is recorded; it writes timer registers
only. -/
def port_buzzer_set_note_frequency (buzzer_id : Nat) (frequency_hz : ℚ) (w : world) : world :=
  { w with buzzer_calls :=
    w.buzzer_calls ++ [port_buzzer_call.set_note_frequency buzzer_id frequency_hz] }

/-- Function `port_buzzer_stop`: the call is recorded; it writes timer registers only. -/
def port_buzzer_stop (buzzer_id : Nat) (w : world) : world :=
  { w with buzzer_calls := w.buzzer_calls ++ [port_buzzer_call.stop buzzer_id] }

/-- Function `port_buzzer_get_note_timeout`: the field `note_end` of `buzzers_arr[buzzer_id]`;
the array has one element. -/
def port_buzzer_get_note_timeout (buzzer_id : Nat) (w : world) : Option Bool :=
  if buzzer_id = BUZZER_0_ID then some w.buzzers_arr.note_end else none

/-- The integer nearest to `n / d` (for `d > 0`), and the even one of the two nearest when `n / d`
lies half-way between them: round to nearest, ties to even. -/
def round_half_even (n d : Nat) : Nat :=
  if 2 * (n % d) < d then n / d
  else if d < 2 * (n % d) then n / d + 1
  else n / d + (n / d) % 2

/-- The number of binary digits of `n` (0 for 0), found by halving at most `fuel` times. -/
def bit_length_upto : Nat → Nat → Nat
  | 0, _ => 0
  | fuel + 1, n => if n = 0 then 0 else bit_length_upto fuel (n / 2) + 1

/-- The number of binary digits of `n`. -/
def bit_length (n : Nat) : Nat := bit_length_upto n n

/-- For positive `n` and `d`, the integer `k` with `2 ^ k ≤ n / d < 2 ^ (k + 1)`: the difference
of the bit lengths, or one less. -/
def quotient_log2 (n d : Nat) : Int :=
  let k : Int := (bit_length n : Int) - (bit_length d : Int)
  if (if 0 ≤ k then d * 2 ^ k.toNat ≤ n else d ≤ n * 2 ^ (-k).toNat) then k else k - 1

/-- The binary64 number nearest to the quotient `n / d` of two positive integers, ties to even,
as the pair `(m, e)` that stands for `m * 2 ^ e`. The significand `m` has 53 binary digits
(`e = k - 52` for a quotient between `2 ^ k` and `2 ^ (k + 1)`), fewer below `2 ^ (-1022)`, where
the exponent stays at `-1074` (subnormal numbers). A result of `2 ^ 1024` or more stands for
infinity. -/
def double_quotient (n d : Nat) : Nat × Int :=
  let e : Int := max (quotient_log2 n d - 52) (-1074)
  (if 0 ≤ e then round_half_even n (d * 2 ^ e.toNat) else round_half_even (n * 2 ^ (-e).toNat) d, e)

/-- The integer part of `m * 2 ^ e`. -/
def double_integer_part (x : Nat × Int) : Nat :=
  if 0 ≤ x.2 then x.1 * 2 ^ x.2.toNat else x.1 / 2 ^ (-x.2).toNat

/-- The C expression `(uint32_t)((double)duration / player_speed)` of `_start_note`. A `uint32_t`
converts to `double` exactly; the quotient is the binary64 number nearest to the quotient of the
two numbers; the conversion to `uint32_t` discards the fraction and has a result only for a
value above `-1` and below `2 ^ 32`. The result is `none` where C has none: for a speed of zero
(the quotient is an infinity or NaN), for a quotient of `2 ^ 32` or more and for a quotient of
`-1` or less. -/
def scaled_duration (duration : Nat) (player_speed : ℚ) : Option Nat :=
  if player_speed.num = 0 then none
  else if duration = 0 then some 0
  else
    let t := double_integer_part
      (double_quotient (duration * player_speed.den) player_speed.num.natAbs)
    if player_speed.num < 0 then (if t = 0 then some 0 else none)
    else if t < 2 ^ 32 then some t else none

/-- Function `_start_note`: the duration divided by the player speed, converted to `uint32_t`,
goes to the duration timer, then the frequency to the PWM timer. -/
def _start_note (freq : ℚ) (duration : Nat) (w : world) : world :=
  let nuevaDuracion := scaled_duration duration w.buzzer.player_speed
  let w1 := port_buzzer_set_note_duration w.buzzer.buzzer_id nuevaDuracion w
  port_buzzer_set_note_frequency w1.buzzer.buzzer_id freq w1

/-- Guard `check_melody_start`. -/
def check_melody_start (w : world) : Bool :=
  w.buzzer.p_melody.isSome && (w.buzzer.user_action == USER_ACTIONS.PLAY)

/-- Guard `check_player_start`. -/
def check_player_start (w : world) : Bool := check_melody_start w

/-- Guard `check_end_melody`; it reads the melody through `p_melody`. -/
def check_end_melody (w : world) : Option Bool :=
  match w.buzzer.p_melody with
  | none => none
  | some m => some (decide (w.buzzer.note_index ≥ m.melody_length))

/-- Guard `check_pause`. -/
def check_pause (w : world) : Bool := w.buzzer.user_action == USER_ACTIONS.PAUSE

/-- Guard `check_resume`. -/
def check_resume (w : world) : Bool := w.buzzer.user_action == USER_ACTIONS.PLAY

/-- Guard `check_player_stop`. -/
def check_player_stop (w : world) : Bool := w.buzzer.user_action == USER_ACTIONS.STOP

/-- Guard `check_play_note`; the melody is read before the action is compared. -/
def check_play_note (w : world) : Option Bool :=
  match w.buzzer.p_melody with
  | none => none
  | some m =>
    some (decide (w.buzzer.note_index < m.melody_length) &&
      (w.buzzer.user_action == USER_ACTIONS.PLAY))

/-- Guard `check_note_end`. -/
def check_note_end (w : world) : Option Bool :=
  port_buzzer_get_note_timeout w.buzzer.buzzer_id w

/-- Action `do_melody_start`: note 0 of the melody is read, `note_index` is incremented, the note
is started. -/
def do_melody_start (w : world) : Option world :=
  match w.buzzer.p_melody with
  | none => none
  | some m =>
    match m.p_notes[0]?, m.p_durations[0]? with
    | some frecuencia, some duracion =>
      let b1 := { w.buzzer with note_index := (w.buzzer.note_index + 1) % UINT32_MOD }
      some (_start_note frecuencia duracion { w with buzzer := b1 })
    | _, _ => none

/-- Action `do_player_start`. -/
def do_player_start (w : world) : Option world := do_melody_start w

/-- Action `do_end_melody`. -/
def do_end_melody (w : world) : world :=
  let w1 := port_buzzer_stop w.buzzer.buzzer_id w
  let b1 := { w1.buzzer with note_index := 0 }
  { w1 with buzzer := { b1 with user_action := USER_ACTIONS.STOP } }

/-- Action `do_pause`. -/
def do_pause (w : world) : world := port_buzzer_stop w.buzzer.buzzer_id w

/-- Action `do_player_stop`. -/
def do_player_stop (w : world) : world :=
  let w1 := port_buzzer_stop w.buzzer.buzzer_id w
  { w1 with buzzer := { w1.buzzer with note_index := 0 } }

/-- Action `do_play_note`: the note at `note_index` is read, `note_index` is incremented, the
note is started. -/
def do_play_note (w : world) : Option world :=
  match w.buzzer.p_melody with
  | none => none
  | some m =>
    match m.p_notes[w.buzzer.note_index]?, m.p_durations[w.buzzer.note_index]? with
    | some frecuencia, some duracion =>
      let b1 := { w.buzzer with note_index := (w.buzzer.note_index + 1) % UINT32_MOD }
      some (_start_note frecuencia duracion { w with buzzer := b1 })
    | _, _ => none

/-- Action `do_note_end`. -/
def do_note_end (w : world) : world := port_buzzer_stop w.buzzer.buzzer_id w

/-- The table `fsm_trans_buzzer`, without its sentinel row. -/
def fsm_trans_buzzer : List (fsm_trans_t FSM_BUZZER world) :=
  [ ⟨.WAIT_START, fun w => some (check_player_start w), .WAIT_NOTE, some do_player_start⟩,
    ⟨.WAIT_NOTE, check_note_end, .PLAY_NOTE, some (fun w => some (do_note_end w))⟩,
    ⟨.PLAY_NOTE, check_play_note, .WAIT_NOTE, some do_play_note⟩,
    ⟨.PLAY_NOTE, check_end_melody, .WAIT_MELODY, some (fun w => some (do_end_melody w))⟩,
    ⟨.WAIT_MELODY, fun w => some (check_melody_start w), .WAIT_NOTE, some do_melody_start⟩,
    ⟨.PLAY_NOTE, fun w => some (check_player_stop w), .WAIT_START,
      some (fun w => some (do_player_stop w))⟩,
    ⟨.PLAY_NOTE, fun w => some (check_pause w), .PAUSE_NOTE, some (fun w => some (do_pause w))⟩,
    ⟨.PAUSE_NOTE, fun w => some (check_resume w), .PLAY_NOTE, none⟩ ]

/-- Writing the `current_state` of the buzzer object. -/
def buzzer_set_state (s : FSM_BUZZER) (w : world) : world :=
  { w with buzzer := { w.buzzer with current_state := s } }

/-- The call `fsm_fire(p_fsm_buzzer)`. -/
def fsm_buzzer_fire (w : world) : Option world :=
  fsm_fire (fun w => w.buzzer.current_state) buzzer_set_state fsm_trans_buzzer w

/-- Function `fsm_buzzer_init`; the identifier is stored in a `uint8_t` field. The current state
is the origin of the first row of the table, where `fsm_init` (not among the sources) leaves
it. -/
def fsm_buzzer_init (buzzer_id : Nat) : fsm_buzzer_t :=
  { current_state := FSM_BUZZER.WAIT_START
    p_melody := none
    note_index := 0
    buzzer_id := buzzer_id % 256
    user_action := USER_ACTIONS.STOP
    player_speed := 1 }

/-! ## Runs used to state the properties of the button and buzzer FSMs -/

/-- The button FSM fired once at each of the instants `tick 0, tick 1, ..., tick k`, the
`i`-th fire finding `pressed i` in `flag_pressed`. -/
def button_run (tick : Nat → Nat) (pressed : Nat → Bool) (w : world) : Nat → Option world
  | 0 => fsm_button_fire (env_button (tick 0) (pressed 0) w)
  | k + 1 =>
    (button_run tick pressed w k).bind
      (fun w1 => fsm_button_fire (env_button (tick (k + 1)) (pressed (k + 1)) w1))

/-- The handler `TIM2_IRQHandler` of the note-duration timer: the note has ended. -/
def TIM2_IRQHandler (w : world) : world :=
  { w with buzzers_arr := { w.buzzers_arr with note_end := true } }

/-- One note period of the player: the note timer elapses, then the buzzer FSM is fired twice
(the first fire ends the note, the second starts the next note or ends the melody). -/
def buzzer_note_round (w : world) : Option world :=
  (fsm_buzzer_fire (TIM2_IRQHandler w)).bind fsm_buzzer_fire

/-- The note period repeated `k` times. -/
def buzzer_rounds : Nat → world → Option world
  | 0, w => some w
  | k + 1, w => (buzzer_rounds k w).bind buzzer_note_round

/-- A melody played through: one fire of the buzzer FSM, then `n` note periods. -/
def buzzer_play (n : Nat) (w : world) : Option world :=
  (fsm_buzzer_fire w).bind (buzzer_rounds n)

/-- The port calls that note `i` of melody `m` gives rise to at speed `s` on buzzer `id`: its
scaled duration, its frequency, and the stop at the end of the note. -/
def note_calls (m : melody_t) (s : ℚ) (id : Nat) (i : Nat) : List port_buzzer_call :=
  [ port_buzzer_call.set_note_duration id (scaled_duration (m.p_durations.getD i 0) s),
    port_buzzer_call.set_note_frequency id (m.p_notes.getD i 0),
    port_buzzer_call.stop id ]

/-- The durations passed by the `set_note_duration` calls of a log, in order. -/
def duration_calls : List port_buzzer_call → List (Option Nat)
  | [] => []
  | port_buzzer_call.set_note_duration _ d :: r => d :: duration_calls r
  | _ :: r => duration_calls r

/-- A melody record whose arrays have `melody_length` elements, the count being a `uint32_t`. -/
def melody_wf (m : melody_t) : Prop :=
  m.p_notes.length = m.melody_length ∧ m.p_durations.length = m.melody_length ∧
    m.melody_length < UINT32_MOD

/-- What can happen to the buzzer FSM: a fire, a call of one of its three public setters, or the
interrupt of the note timer. -/
inductive buzzer_event where
  | fire
  | set_melody (p_melody : Option melody_t)
  | set_speed (speed : ℚ)
  | set_action (action : USER_ACTIONS)
  | timer_elapsed

/-- The effect of one event on the machine state. -/
def buzzer_apply (e : buzzer_event) (w : world) : Option world :=
  match e with
  | .fire => fsm_buzzer_fire w
  | .set_melody p => some { w with buzzer := fsm_buzzer_set_melody w.buzzer p }
  | .set_speed s => some { w with buzzer := fsm_buzzer_set_speed w.buzzer s }
  | .set_action a => some { w with buzzer := fsm_buzzer_set_action w.buzzer a }
  | .timer_elapsed => some (TIM2_IRQHandler w)

/-- The effect of a sequence of events, first event first. -/
def buzzer_events_run : List buzzer_event → world → Option world
  | [], w => some w
  | e :: es, w => (buzzer_apply e w).bind (buzzer_events_run es)

/-! ## The USART FSM (`fsm_usart.c`, with the calls of `port_usart.c`) -/

/-- Function `_reset_buffer` on a whole array of `length` bytes. -/
def _reset_buffer (length : Nat) : List Nat := List.replicate length EMPTY_BUFFER_CONSTANT

/-- Function `port_usart_get_from_input_buffer`: the `USART_INPUT_BUFFER_LENGTH` bytes copied to
`p_buffer`. -/
def port_usart_get_from_input_buffer (h : port_usart_hw_t) : List Nat :=
  h.input_buffer.take USART_INPUT_BUFFER_LENGTH

/-- Function `port_usart_copy_to_output_buffer`, called with the length of the whole output
buffer. -/
def port_usart_copy_to_output_buffer (h : port_usart_hw_t) (p_data : List Nat) (length : Nat) :
    port_usart_hw_t :=
  { h with output_buffer := p_data.take length }

/-- Function `port_usart_reset_input_buffer`. -/
def port_usart_reset_input_buffer (h : port_usart_hw_t) : port_usart_hw_t :=
  { h with input_buffer := _reset_buffer USART_INPUT_BUFFER_LENGTH, read_complete := false }

/-- Function `port_usart_reset_output_buffer`. -/
def port_usart_reset_output_buffer (h : port_usart_hw_t) : port_usart_hw_t :=
  { h with output_buffer := _reset_buffer USART_OUTPUT_BUFFER_LENGTH, write_complete := false }

/-- Function `port_usart_rx_done`. -/
def port_usart_rx_done (h : port_usart_hw_t) : Bool := h.read_complete

/-- Function `port_usart_tx_done`. -/
def port_usart_tx_done (h : port_usart_hw_t) : Bool := h.write_complete

/-- Function `port_usart_store_data`, with the value `DR` read from the data register; `char data`
keeps its low eight bits. The byte is written at the index read on entry, also when that index
is past the end of the input buffer, which is undefined; `i_idx` is a `uint8_t`. -/
def port_usart_store_data (DR : Nat) (h : port_usart_hw_t) : Option port_usart_hw_t :=
  let data := DR % 256
  if data ≠ END_CHAR_CONSTANT then
    let idx := h.i_idx
    let h1 := if idx ≥ USART_INPUT_BUFFER_LENGTH then { h with i_idx := 0 } else h
    if idx < USART_INPUT_BUFFER_LENGTH then
      some { h1 with input_buffer := h1.input_buffer.set idx data, i_idx := (h1.i_idx + 1) % 256 }
    else none
  else some { h with read_complete := true, i_idx := 0 }

/-- Function `port_usart_write_data`. Reading the output buffer past its end is undefined; `o_idx` is
a `uint8_t`. -/
def port_usart_write_data (h : port_usart_hw_t) : Option port_usart_hw_t :=
  let idx := h.o_idx
  if idx < USART_OUTPUT_BUFFER_LENGTH then
    let data := h.output_buffer.getD idx 0
    if idx = USART_OUTPUT_BUFFER_LENGTH - 1 ∨ data = END_CHAR_CONSTANT then
      let h1 := { h with DR_written := h.DR_written ++ [data] }
      let h2 := port_usart_disable_tx_interrupt h1
      some { h2 with o_idx := 0, write_complete := true }
    else if data ≠ EMPTY_BUFFER_CONSTANT then
      some { h with DR_written := h.DR_written ++ [data], o_idx := (idx + 1) % 256 }
    else some h
  else none

/-- Function `port_usart_init`: of the state kept here, both interrupts are disabled and the two buffers are
cleared with `_reset_buffer`; the indices and the completion flags are not written. -/
def port_usart_init (h : port_usart_hw_t) : port_usart_hw_t :=
  let h1 := port_usart_disable_rx_interrupt h
  let h2 := port_usart_disable_tx_interrupt h1
  { h2 with input_buffer := _reset_buffer USART_INPUT_BUFFER_LENGTH,
            output_buffer := _reset_buffer USART_OUTPUT_BUFFER_LENGTH }

/-- Guard `check_data_rx`. -/
def check_data_rx (w : world) : Bool := port_usart_rx_done w.usart_arr

/-- Guard `check_data_tx`. -/
def check_data_tx (w : world) : Bool :=
  EMPTY_BUFFER_CONSTANT != w.usart.out_data.getD 0 EMPTY_BUFFER_CONSTANT

/-- Guard `check_tx_end`. -/
def check_tx_end (w : world) : Bool := port_usart_tx_done w.usart_arr

/-- Action `do_get_data_rx`. -/
def do_get_data_rx (w : world) : world :=
  let w1 := { w with usart :=
    { w.usart with in_data := port_usart_get_from_input_buffer w.usart_arr } }
  let w2 := { w1 with usart_arr := port_usart_reset_input_buffer w1.usart_arr }
  { w2 with usart := { w2.usart with data_received := true } }

/-- Action `do_set_data_tx`. The loop that waits for the `TXE` flag of the status register changes
nothing in `world`; the action is described from the point where the wait has ended. -/
def do_set_data_tx (w : world) : Option world :=
  let h1 := port_usart_reset_output_buffer w.usart_arr
  let h2 := port_usart_copy_to_output_buffer h1 w.usart.out_data USART_OUTPUT_BUFFER_LENGTH
  (port_usart_write_data h2).map
    (fun h3 => { w with usart_arr := port_usart_enable_tx_interrupt h3 })

/-- Action `do_tx_end`. -/
def do_tx_end (w : world) : world :=
  let w1 := { w with usart_arr := port_usart_reset_output_buffer w.usart_arr }
  { w1 with usart :=
    { w1.usart with out_data := List.replicate USART_OUTPUT_BUFFER_LENGTH EMPTY_BUFFER_CONSTANT } }

/-- The table `fms_trans_usart`, without its sentinel row. -/
def fms_trans_usart : List (fsm_trans_t FSM_USART world) :=
  [ ⟨.WAIT_DATA, fun w => some (check_data_tx w), .SEND_DATA, some do_set_data_tx⟩,
    ⟨.WAIT_DATA, fun w => some (check_data_rx w), .WAIT_DATA,
      some (fun w => some (do_get_data_rx w))⟩,
    ⟨.SEND_DATA, fun w => some (check_tx_end w), .WAIT_DATA, some (fun w => some (do_tx_end w))⟩ ]

/-- Writing the `current_state` of the USART FSM object. -/
def usart_set_state (s : FSM_USART) (w : world) : world :=
  { w with usart := { w.usart with current_state := s } }

/-- The call `fsm_fire(p_fsm_usart)`. -/
def fsm_usart_fire (w : world) : Option world :=
  fsm_fire (fun w => w.usart.current_state) usart_set_state fms_trans_usart w

/-- Function `fsm_usart_init`, the FSM object it leaves. The current state is the origin of the first
row of the table, where `fsm_init` (not among the sources) leaves it. -/
def fsm_usart_init (usart_id : Nat) : fsm_usart_t :=
  { current_state := FSM_USART.WAIT_DATA
    data_received := false
    in_data := List.replicate USART_INPUT_BUFFER_LENGTH EMPTY_BUFFER_CONSTANT
    out_data := List.replicate USART_OUTPUT_BUFFER_LENGTH EMPTY_BUFFER_CONSTANT
    usart_id := usart_id }

/-- The bytes of `bytes` delivered in order, one call of `port_usart_store_data` each. -/
def port_usart_store_bytes : List Nat → port_usart_hw_t → Option port_usart_hw_t
  | [], h => some h
  | b :: bs, h => (port_usart_store_data b h).bind (port_usart_store_bytes bs)

/-- What can happen to the USART FSM object and its port between two observations: a fire of
the FSM, the receive interrupt storing the byte of the data register, the transmit interrupt
writing the next byte, and the calls of the public functions that write the object. -/
inductive usart_event where
  | fire
  | rx_interrupt (DR : Nat)
  | tx_interrupt
  | set_out_data (p_data : List Nat)
  | reset_input_data
deriving DecidableEq

/-- The effect of one `usart_event`. -/
def usart_apply (e : usart_event) (w : world) : Option world :=
  match e with
  | .fire => fsm_usart_fire w
  | .rx_interrupt DR =>
    (port_usart_store_data DR w.usart_arr).map (fun h => { w with usart_arr := h })
  | .tx_interrupt => (port_usart_write_data w.usart_arr).map (fun h => { w with usart_arr := h })
  | .set_out_data p_data => some { w with usart := fsm_usart_set_out_data w.usart p_data }
  | .reset_input_data => some { w with usart := fsm_usart_reset_input_data w.usart }

/-- A sequence of events, applied in order. -/
def usart_events_run : List usart_event → world → Option world
  | [], w => some w
  | e :: es, w => (usart_apply e w).bind (usart_events_run es)

/-- Function `fsm_fire` called `n` times in a row on the same FSM object. -/
def fsm_fire_n {W : Type} (fire : W → Option W) : Nat → W → Option W
  | 0, w => some w
  | n + 1, w => (fire w).bind (fsm_fire_n fire n)

/-- The origin states of a transition table, in declaration order. -/
def fsm_origins {S W : Type} (tt : List (fsm_trans_t S W)) : List S :=
  tt.map (fun t => t.orig_state)

/-- Function `port_usart_write_data` called `n` times in a row. -/
def port_usart_write_n : Nat → port_usart_hw_t → Option port_usart_hw_t
  | 0, h => some h
  | n + 1, h => (port_usart_write_n n h).bind port_usart_write_data

/-- The index of `input_buffer` that a call of `port_usart_store_data` writes, when it writes: the
value `idx` read from `i_idx` on entry. -/
def port_usart_store_data_index (DR : Nat) (h : port_usart_hw_t) : Option Nat :=
  if DR % 256 ≠ END_CHAR_CONSTANT then some h.i_idx else none

/-- The rest of a line behind its first token and the delimiter that ends the token. -/
def after_first_token (line : List Nat) : List Nat :=
  ((line.dropWhile (fun c => c == SPACE)).dropWhile (fun c => c != SPACE)).tail

/-- The second token of a line, in the words of the protocol: the first token of what follows
the first token. -/
def second_token (line : List Nat) : Option (List Nat) := first_token (after_first_token line)

/-- The result of `_parse_message` in the words of its documentation: `false` without a token;
otherwise the first token as command and the second token, or the empty string when there is
none, as parameter. -/
def parse_message_documented (line : List Nat) : Option (List Nat × List Nat) :=
  (first_token line).map (fun c => (c, (second_token line).getD []))

/-! ## The whole machine: the fires of the main loop and the interrupt handlers -/

/-- Handler `SysTick_Handler`: the millisecond counter, a `uint32_t`, is incremented. -/
def SysTick_Handler (w : world) : world := { w with msTicks := (w.msTicks + 1) % UINT32_MOD }

/-- Handler `EXTI15_10_IRQHandler` when the line of the button is pending: the SysTick interrupt is
resumed and `flag_pressed` records whether the pin reads `LOW` (`low`). -/
def EXTI15_10_IRQHandler (low : Bool) (w : world) : world :=
  { w with tickint := true, buttons_arr := { w.buttons_arr with flag_pressed := low } }

/-- Handler `USART3_IRQHandler`, with the flags `RXNE` and `TXE` of the status register and the
content `DR` of the data register: the SysTick interrupt is resumed, a byte is stored when `RXNE`
is set and the receive interrupt enabled, then a byte is written when `TXE` is set and the
transmit interrupt enabled. -/
def USART3_IRQHandler (RXNE : Bool) (DR : Nat) (TXE : Bool) (w : world) : Option world :=
  let w1 := { w with tickint := true }
  let rx := if RXNE && w1.usart_arr.CR1_RXNEIE then port_usart_store_data DR w1.usart_arr
    else some w1.usart_arr
  rx.bind (fun h1 =>
    (if TXE && h1.CR1_TXEIE then port_usart_write_data h1 else some h1).map
      (fun h2 => { w1 with usart_arr := h2 }))

/-- What can happen to the machine: one of the four fires of the main loop, or one of the
interrupts. -/
inductive system_event where
  | fire_button
  | fire_usart
  | fire_buzzer
  | fire_jukebox
  | systick
  | exti (low : Bool)
  | usart3 (RXNE : Bool) (DR : Nat) (TXE : Bool)
  | tim2
deriving DecidableEq

/-- The effect of one `system_event`. -/
def system_apply (atof : List Nat → ℚ) (garbage : Nat → Nat) (e : system_event) (w : world) :
    Option world :=
  match e with
  | .fire_button => fsm_button_fire w
  | .fire_usart => fsm_usart_fire w
  | .fire_buzzer => fsm_buzzer_fire w
  | .fire_jukebox => fsm_jukebox_fire atof garbage w
  | .systick => some (SysTick_Handler w)
  | .exti low => some (EXTI15_10_IRQHandler low w)
  | .usart3 RXNE DR TXE => USART3_IRQHandler RXNE DR TXE w
  | .tim2 => some (TIM2_IRQHandler w)

/-- A sequence of events, applied in order. -/
def system_run (atof : List Nat → ℚ) (garbage : Nat → Nat) :
    List system_event → world → Option world
  | [], w => some w
  | e :: es, w => (system_apply atof garbage e w).bind (system_run atof garbage es)

/-- The library slot `melodies[i]` of a jukebox, for an index inside the library. -/
def melody_at (j : fsm_jukebox_t) (i : Nat) : Option melody_t :=
  if h : i < MELODIES_MEMORY_SIZE then some (j.melodies ⟨i, h⟩) else none

/-- The selection is shown and played: the selected index is inside the library, the displayed
name is the name of the selected slot and the melody of the buzzer is that slot. -/
def selection_shown (w : world) : Prop :=
  ∃ m, melody_at w.jukebox w.jukebox.melody_idx = some m ∧
    w.jukebox.p_melody = m.p_name ∧ w.buzzer.p_melody = some m

/-- The selected index is inside the library and its slot has notes, and the melody of the
buzzer, if any, is a library slot that has notes. -/
def selection_filled (w : world) : Prop :=
  (∃ m, melody_at w.jukebox w.jukebox.melody_idx = some m ∧ m.melody_length ≠ 0) ∧
  ∀ m, w.buzzer.p_melody = some m → m.melody_length ≠ 0 ∧ ∃ i, m = w.jukebox.melodies i

/-- The properties of the selection that every event keeps, for a library `lib` whose slot 0 has
notes: the library is `lib`, the selection is filled, in `START_UP` the buzzer holds slot 0, and
in `WAIT_COMMAND` and `SLEEP_WHILE_ON` the selection is shown and played. -/
def selection_invariant (lib : Fin MELODIES_MEMORY_SIZE → melody_t) (w : world) : Prop :=
  w.jukebox.melodies = lib ∧ selection_filled w ∧
  (w.jukebox.current_state = FSM_JUKEBOX.START_UP → w.buzzer.p_melody = some (lib slot0)) ∧
  (w.jukebox.current_state = FSM_JUKEBOX.WAIT_COMMAND ∨
    w.jukebox.current_state = FSM_JUKEBOX.SLEEP_WHILE_ON → selection_shown w)

/-! ## Sample data for the closed instances -/

/-- A sample three-note melody named "Scale". -/
def demo_scale : melody_t := ⟨[262, 294, 330], [200, 200, 400], 3, some [83, 99, 97, 108, 101]⟩

/-- A sample two-note melody named "Happy". -/
def demo_happy : melody_t := ⟨[262, 262], [300, 100], 2, some [72, 97, 112, 112, 121]⟩

/-- A sample two-note melody named "Tetris". -/
def demo_tetris : melody_t := ⟨[659, 494], [400, 200], 2, some [84, 101, 116, 114, 105, 115]⟩

/-- A sample machine state: every FSM as its init function leaves it, thresholds of `main.c`
(debounce 150 ms, on/off 1001 ms, next song 501 ms), the sample library, the jukebox in
`WAIT_COMMAND`. -/
def demo_world : world :=
  { msTicks := 0
    tickint := true
    wfi_count := 0
    buttons_arr := ⟨false⟩
    usart_arr := ⟨List.replicate 10 0, 0, false, List.replicate 100 0, 0, false, true, false, []⟩
    buzzers_arr := ⟨false⟩
    buzzer_calls := []
    button := fsm_button_init 0 150 0
    usart := ⟨.WAIT_DATA, false, List.replicate 10 0, List.replicate 100 0, 0⟩
    buzzer := ⟨.WAIT_START, none, 0, 0, .STOP, 1⟩
    jukebox := { fsm_jukebox_init none 0 demo_scale demo_happy demo_tetris 1001 501 with
                   current_state := .WAIT_COMMAND } }

/-- The sample machine state with the received line `line` in the input array of the USART
FSM. -/
def demo_received (line : List Nat) : world :=
  { demo_world with usart := { demo_world.usart with in_data := line, data_received := true } }

/-- A sample `atof`, constant 0. -/
def demo_atof : List Nat → ℚ := fun _ => 0

/-- A sample content of uninitialised arrays, the byte 0x55 everywhere. -/
def demo_garbage : Nat → Nat := fun _ => 85

/-- The sample port while the message "ok\n" is being sent: "ok" has been written to the data
register and the newline is next, at `o_idx` 2. -/
def demo_port_sending : port_usart_hw_t :=
  ⟨List.replicate 10 0, 0, false, [111, 107, 10] ++ List.replicate 97 0, 2, false, true, true,
    [111, 107]⟩

/-- The sample machine state while the message "ok\n" is being sent: the USART FSM is in
`SEND_DATA` with the message in `out_data`. -/
def demo_sending : world :=
  { demo_world with
    usart := ⟨.SEND_DATA, false, List.replicate 10 0, [111, 107, 10] ++ List.replicate 97 0, 0⟩
    usart_arr := demo_port_sending }

/-- The sample machine just initialised: the jukebox and the buzzer as their init functions
leave them, with the sample library, and a press of 1500 ms already stored by the button. -/
def demo_init : world :=
  { demo_world with
    jukebox := fsm_jukebox_init none 0 demo_scale demo_happy demo_tetris 1001 501
    buzzer := fsm_buzzer_init 0
    button := { fsm_button_init 0 150 0 with duration := 1500 } }

/-- The events that switch the sample machine on: the fire of the jukebox that sees the long
press, the three notes of the intro melody played to its end by the buzzer, and the fire of the
jukebox that ends the start-up. -/
def demo_power_on : List system_event :=
  [ .fire_jukebox, .fire_buzzer, .tim2, .fire_buzzer, .fire_buzzer, .tim2, .fire_buzzer,
    .fire_buzzer, .tim2, .fire_buzzer, .fire_buzzer, .fire_jukebox ]

/-- The events of a received line: one receive interrupt for each byte and for the newline, the
fire of the USART FSM that delivers the line and the fire of the jukebox that reads it. -/
def demo_line (line : List Nat) : List system_event :=
  (line ++ [END_CHAR_CONSTANT]).map (fun b => system_event.usart3 true b false) ++
    [ .fire_usart, .fire_jukebox ]

/-- The speed `2 ^ (-40)`. -/
def demo_speed_tiny : ℚ := mkRat 1 1099511627776

/-- The binary64 number nearest to 0.2, which is the value of the text "0.2". -/
def demo_speed_fifth : ℚ := mkRat 3602879701896397 18014398509481984

/-- The binary64 number nearest to 1.1, which is the value of the text "1.1". -/
def demo_speed_1_1 : ℚ := mkRat 2476979795053773 2251799813685248

/-! ## The FSM engine: first match wins -/

theorem fsm_fire_skip_rejected {S W : Type} [DecidableEq S] (get : W → S) (set : S → W → W)
    (pre tt : List (fsm_trans_t S W)) (w : W) (h : ∀ u ∈ pre, row_rejected get u w) :
    fsm_fire get set (pre ++ tt) w = fsm_fire get set tt w := by
  induction pre with
  | nil => rfl
  | cons u us ih =>
    have hu : row_rejected get u w := h u (List.mem_cons_self u us)
    have hus : ∀ v ∈ us, row_rejected get v w := fun v hv => h v (List.mem_cons_of_mem u hv)
    rcases hu with hne | ⟨heq, hg⟩
    · simp [fsm_fire, hne, ih hus]
    · simp [fsm_fire, heq, hg, ih hus]

theorem fsm_fire_enabled {S W : Type} [DecidableEq S] (get : W → S) (set : S → W → W)
    (t : fsm_trans_t S W) (post : List (fsm_trans_t S W)) (w : W) (h : row_enabled get t w) :
    fsm_fire get set (t :: post) w = row_effect set t w := by
  obtain ⟨heq, hg⟩ := h
  simp [fsm_fire, heq, hg, row_effect]

/-- C1: one fire takes the first row, in declaration order, whose origin is the current state and
whose guard holds, runs its action if it has one and then sets the destination state; when every
row is passed over the machine is left exactly as it was. -/
theorem fsm_fire_first_match {S W : Type} [DecidableEq S] (get : W → S) (set : S → W → W)
    (tt : List (fsm_trans_t S W)) (w : W) :
    ((∀ t ∈ tt, row_rejected get t w) → fsm_fire get set tt w = some w) ∧
    (∀ pre t post, tt = pre ++ t :: post → (∀ u ∈ pre, row_rejected get u w) →
      row_enabled get t w → fsm_fire get set tt w = row_effect set t w) := by
  constructor
  · intro h
    have := fsm_fire_skip_rejected get set tt [] w h
    simpa [fsm_fire] using this
  · intro pre t post htt hpre ht
    rw [htt, fsm_fire_skip_rejected get set pre (t :: post) w hpre]
    exact fsm_fire_enabled get set t post w ht

/-- C1, closed instance: in the sample state with a received line and no button press, the rows
of the jukebox table before the command row are passed over and the command row is taken. -/
theorem fsm_fire_first_match_witness :
    fsm_jukebox_fire demo_atof demo_garbage (demo_received [110, 101, 120, 116, 0, 0, 0, 0, 0, 0]) =
      row_effect jukebox_set_state
        ⟨.WAIT_COMMAND, fun w => some (check_command_received w), .WAIT_COMMAND,
          some (do_read_command demo_atof demo_garbage)⟩
        (demo_received [110, 101, 120, 116, 0, 0, 0, 0, 0, 0]) :=
  (fsm_fire_first_match (fun w : world => w.jukebox.current_state) jukebox_set_state
    (fms_trans_jukebox demo_atof demo_garbage)
    (demo_received [110, 101, 120, 116, 0, 0, 0, 0, 0, 0])).2
    ((fms_trans_jukebox demo_atof demo_garbage).take 4) _
    ((fms_trans_jukebox demo_atof demo_garbage).drop 5) rfl
    (by
      intro u hu
      simp [fms_trans_jukebox] at hu
      rcases hu with rfl | rfl | rfl | rfl <;> simp [row_rejected, demo_received, demo_world,
        fsm_jukebox_init, check_off, check_on, check_next_song_button, fsm_button_get_duration,
        fsm_button_init])
    (by simp [row_enabled, demo_received, demo_world, fsm_jukebox_init, check_command_received,
        fsm_usart_check_data_received])

/-! ## The jukebox in `WAIT_COMMAND` -/

/-- C2: the rows of the jukebox table leaving `WAIT_COMMAND` are, in this order, power-off,
next-song-button, command-received and sleep; and in `WAIT_COMMAND` with a button duration above
`on_off_press_time_ms` and `data_received` set, one fire runs the power-off action alone and
moves to `OFF`: the USART FSM (with `data_received`, `in_data` and `out_data`) and the jukebox
selection are as before. -/
theorem wait_command_power_off_first (atof : List Nat → ℚ) (garbage : Nat → Nat) (w : world)
    (hs : w.jukebox.current_state = FSM_JUKEBOX.WAIT_COMMAND)
    (hd : w.button.duration > w.jukebox.on_off_press_time_ms)
    (hr : w.usart.data_received = true) :
    (fms_trans_jukebox atof garbage).filter
        (fun t => decide (t.orig_state = FSM_JUKEBOX.WAIT_COMMAND)) =
      [ ⟨.WAIT_COMMAND, fun w => some (check_off w), .OFF,
          some (fun w => some (do_stop_jukebox w))⟩,
        ⟨.WAIT_COMMAND, fun w => some (check_next_song_button w), .WAIT_COMMAND,
          some (fun w => some (do_load_next_song w))⟩,
        ⟨.WAIT_COMMAND, fun w => some (check_command_received w), .WAIT_COMMAND,
          some (do_read_command atof garbage)⟩,
        ⟨.WAIT_COMMAND, fun w => some (check_no_activity w), .SLEEP_WHILE_ON,
          some (fun w => some (do_sleep w))⟩ ] ∧
    check_command_received w = true ∧
    ∃ w1, fsm_jukebox_fire atof garbage w = some w1 ∧
      w1 = jukebox_set_state FSM_JUKEBOX.OFF (do_stop_jukebox w) ∧
      w1.jukebox.current_state = FSM_JUKEBOX.OFF ∧
      w1.usart = w.usart ∧
      w1.usart.data_received = true ∧
      w1.usart.in_data = w.usart.in_data ∧
      w1.jukebox.melody_idx = w.jukebox.melody_idx ∧
      w1.jukebox.p_melody = w.jukebox.p_melody ∧
      w1.buzzer = fsm_buzzer_set_action w.buzzer USER_ACTIONS.STOP ∧
      w1.buzzer.p_melody = w.buzzer.p_melody ∧
      w1.buzzer.player_speed = w.buzzer.player_speed ∧
      w1.button = fsm_button_reset_duration w.button := by
  have hpos : w.button.duration > 0 := by omega
  refine ⟨by simp [fms_trans_jukebox], by simp [check_command_received,
    fsm_usart_check_data_received, hr], _, ?_, rfl, rfl, rfl, hr, rfl, rfl, rfl, rfl, ?_, ?_, rfl⟩
  · simp [fsm_jukebox_fire, fms_trans_jukebox, fsm_fire, hs, check_off, check_on,
      fsm_button_get_duration, hd, hpos]
  · simp [jukebox_set_state, do_stop_jukebox, fsm_buzzer_set_action]
  · simp [jukebox_set_state, do_stop_jukebox, fsm_buzzer_set_action]

/-- C2, closed instance: the sample state with a 1500 ms press and the line "next" pending. -/
theorem wait_command_power_off_first_witness :
    ∃ w1, fsm_jukebox_fire demo_atof demo_garbage
        { demo_received [110, 101, 120, 116, 0, 0, 0, 0, 0, 0] with
          button := { demo_world.button with duration := 1500 } } = some w1 ∧
      w1.jukebox.current_state = FSM_JUKEBOX.OFF ∧
      w1.usart.data_received = true ∧
      w1.usart.in_data = [110, 101, 120, 116, 0, 0, 0, 0, 0, 0] :=
  have h := (wait_command_power_off_first demo_atof demo_garbage
    { demo_received [110, 101, 120, 116, 0, 0, 0, 0, 0, 0] with
      button := { demo_world.button with duration := 1500 } } rfl (by decide) rfl).2.2
  h.elim fun w1 hw => ⟨w1, hw.1, hw.2.2.1, hw.2.2.2.2.1, hw.2.2.2.2.2.1⟩

/-! ## The command parser on a terminated line -/

theorem strtok_scan_terminated (junk : List Nat) (l : List Nat) (h0 : 0 ∉ l) :
    ∃ l1, strtok_scan (l ++ 0 :: junk) =
        some (l.takeWhile (fun c => c != SPACE), l1 ++ 0 :: junk) ∧
      0 ∉ l1 ∧ l1.length ≤ l.length := by
  induction l with
  | nil => exact ⟨[], by simp [strtok_scan], by simp, by simp⟩
  | cons a l ih =>
    have ha : a ≠ 0 := fun h => h0 (by simp [h])
    have hl : 0 ∉ l := fun h => h0 (List.mem_cons_of_mem a h)
    by_cases hs : a = SPACE
    · exact ⟨l, by simp [strtok_scan, hs], hl, by simp⟩
    · obtain ⟨l1, h1, h2, h3⟩ := ih hl
      refine ⟨l1, ?_, h2, by simp; omega⟩
      have hs1 : (a != SPACE) = true := by simpa using hs
      have hk : strtok_scan (a :: (l ++ 0 :: junk)) =
          (strtok_scan (l ++ 0 :: junk)).map (fun p => (a :: p.1, p.2)) := by
        rw [strtok_scan]
        simp [ha, hs]
      rw [List.cons_append, hk, h1]
      simp [List.takeWhile_cons, hs1]

theorem first_token_cons_space (l : List Nat) : first_token (SPACE :: l) = first_token l := by
  simp [first_token, List.dropWhile_cons]

theorem first_token_cons_other (a : Nat) (l : List Nat) (hs : a ≠ SPACE) :
    first_token (a :: l) = some ((a :: l).takeWhile (fun c => c != SPACE)) := by
  have hs1 : (a == SPACE) = false := by simpa using hs
  simp [first_token, List.dropWhile_cons, hs1]

theorem strtok_terminated (junk : List Nat) (l : List Nat) (h0 : 0 ∉ l) :
    (first_token l = none → strtok (l ++ 0 :: junk) = some none) ∧
    (∀ c, first_token l = some c → c.length ≤ l.length ∧
      ∃ l1, strtok (l ++ 0 :: junk) = some (some (c, l1 ++ 0 :: junk)) ∧
        0 ∉ l1 ∧ l1.length ≤ l.length) := by
  induction l with
  | nil => simp [first_token, strtok, strtok_skip]
  | cons a l ih =>
    have ha : a ≠ 0 := fun h => h0 (by simp [h])
    have hl : 0 ∉ l := fun h => h0 (List.mem_cons_of_mem a h)
    by_cases hs : a = SPACE
    · subst hs
      have hk : strtok (SPACE :: l ++ 0 :: junk) = strtok (l ++ 0 :: junk) := by
        simp [strtok, strtok_skip]
      rw [first_token_cons_space, hk]
      refine ⟨(ih hl).1, fun c hc => ?_⟩
      obtain ⟨h1, l1, h2, h3, h4⟩ := (ih hl).2 c hc
      exact ⟨by simp; omega, l1, h2, h3, by simp; omega⟩
    · rw [first_token_cons_other a l hs]
      refine ⟨by simp, fun c hc => ?_⟩
      obtain ⟨l1, h1, h2, h3⟩ := strtok_scan_terminated junk (a :: l) h0
      have hc1 : (a :: l).takeWhile (fun c => c != SPACE) = c := by simpa using hc
      refine ⟨by rw [← hc1]; exact (List.takeWhile_sublist _).length_le, l1, ?_, h2, h3⟩
      have hk : strtok (a :: l ++ 0 :: junk) = (strtok_scan (a :: l ++ 0 :: junk)).map some := by
        simp [strtok, strtok_skip, hs, ha]
      rw [hk, h1, hc1]
      rfl

theorem parse_message_terminated (junk : List Nat) (line : List Nat) (h0 : 0 ∉ line)
    (hlen : line.length < USART_INPUT_BUFFER_LENGTH) :
    (first_token line = none → _parse_message (line ++ 0 :: junk) = some none) ∧
    (∀ c, first_token line = some c →
      ∃ p, _parse_message (line ++ 0 :: junk) = some (some (c, p))) := by
  obtain ⟨hnone, hsome⟩ := strtok_terminated junk line h0
  refine ⟨fun h => by simp [_parse_message, hnone h], fun c hc => ?_⟩
  obtain ⟨hclen, l1, h1, h2, h3⟩ := hsome c hc
  have hcpy : strcpy USART_INPUT_BUFFER_LENGTH c = some c := by
    have : c.length < USART_INPUT_BUFFER_LENGTH := by omega
    simp [strcpy, this]
  obtain ⟨hnone1, hsome1⟩ := strtok_terminated junk l1 h2
  cases hft : first_token l1 with
  | none => exact ⟨[SPACE], by simp [_parse_message, h1, hcpy, hnone1 hft]⟩
  | some c2 =>
    obtain ⟨hc2len, l2, h4, _, _⟩ := hsome1 c2 hft
    have hcpy2 : strcpy USART_INPUT_BUFFER_LENGTH c2 = some c2 := by
      have : c2.length < USART_INPUT_BUFFER_LENGTH := by omega
      simp [strcpy, this]
    exact ⟨c2, by simp [_parse_message, h1, hcpy, h4, hcpy2]⟩

theorem do_read_command_parsed (atof : List Nat → ℚ) (garbage : Nat → Nat) (w : world)
    (c p : List Nat) (h : _parse_message w.usart.in_data = some (some (c, p))) :
    do_read_command atof garbage w =
      (_execute_command atof garbage w c p).map
        (fun w1 => { w1 with usart := fsm_usart_reset_input_data w1.usart }) := by
  simp [do_read_command, fsm_usart_get_in_data, h]

theorem sprintf_fits (garbage : Nat → Nat) (s : List Nat)
    (h : s.length < USART_OUTPUT_BUFFER_LENGTH) :
    ∃ rest, sprintf garbage s = some (s ++ 0 :: rest) ∧
      (s ++ 0 :: rest).take USART_OUTPUT_BUFFER_LENGTH = s ++ 0 :: rest := by
  have h1 : s.length < 100 := h
  refine ⟨(List.range' (s.length + 1) (USART_OUTPUT_BUFFER_LENGTH - (s.length + 1))).map garbage,
    by simp [sprintf, h1], ?_⟩
  apply List.take_of_length_le
  simp
  omega

theorem parse_select_digit (d : Nat) (junk : List Nat) (h0 : d ≠ 0) (hs : d ≠ SPACE) :
    _parse_message (str_select ++ SPACE :: d :: 0 :: junk) = some (some (str_select, [d])) := by
  have hs1 : d ≠ 32 := hs
  simp [_parse_message, str_select, strtok, strtok_skip, strtok_scan, strcpy, h0, hs1, SPACE,
    USART_INPUT_BUFFER_LENGTH]

theorem melody_selected_digit (i : Nat) (hi : i < MELODIES_MEMORY_SIZE) :
    melody_selected [48 + i] = i := by
  interval_cases i <;> decide

/-! ## The commands of the protocol -/

/-- C3: for a slot `i` of the library with a non-zero note count, the received line "select i"
leaves the buzzer with action `PLAY`, melody slot `i` and note index 0, the jukebox with selected
index `i` and the name of slot `i`, and the output array of the USART FSM as it was. -/
theorem select_filled_slot (atof : List Nat → ℚ) (garbage : Nat → Nat) (w : world)
    (i : Fin MELODIES_MEMORY_SIZE) (junk : List Nat)
    (hin : w.usart.in_data = str_select ++ SPACE :: (48 + i.val) :: 0 :: junk)
    (hlen : (w.jukebox.melodies i).melody_length ≠ 0) :
    ∃ w1, do_read_command atof garbage w = some w1 ∧
      w1.buzzer.user_action = USER_ACTIONS.PLAY ∧
      w1.buzzer.p_melody = some (w.jukebox.melodies i) ∧
      w1.buzzer.note_index = 0 ∧
      w1.jukebox.melody_idx = i.val ∧
      w1.jukebox.p_melody = (w.jukebox.melodies i).p_name ∧
      w1.usart.out_data = w.usart.out_data := by
  have hp : _parse_message w.usart.in_data = some (some (str_select, [48 + i.val])) := by
    rw [hin]
    exact parse_select_digit _ junk (by omega) (by simp only [SPACE]; omega)
  have hsel : melody_selected [48 + i.val] = i.val := melody_selected_digit i.val i.isLt
  have hlt : melody_selected [48 + i.val] < MELODIES_MEMORY_SIZE := by rw [hsel]; exact i.isLt
  have hfin : (⟨melody_selected [48 + i.val], hlt⟩ : Fin MELODIES_MEMORY_SIZE) = i :=
    Fin.ext hsel
  have hi : i.val < 10 := i.isLt
  have hmod : i.val % 256 = i.val := Nat.mod_eq_of_lt (by omega)
  rw [do_read_command_parsed atof garbage w _ _ hp]
  simp [_execute_command, str_select, str_play, str_stop, str_pause, str_speed, str_next]
  simp [hlt, hfin, hlen, hsel, hmod, fsm_buzzer_set_action, fsm_buzzer_set_melody,
    fsm_usart_reset_input_data]

/-- C3, closed instance: "select 1" in the sample state. -/
theorem select_filled_slot_witness :
    ∃ w1, do_read_command demo_atof demo_garbage
        (demo_received [115, 101, 108, 101, 99, 116, 32, 49, 0, 0]) = some w1 ∧
      w1.buzzer.user_action = USER_ACTIONS.PLAY ∧
      w1.buzzer.p_melody = some demo_happy ∧
      w1.buzzer.note_index = 0 ∧
      w1.jukebox.melody_idx = 1 ∧
      w1.jukebox.p_melody = some [72, 97, 112, 112, 121] ∧
      w1.usart.out_data = List.replicate 100 0 :=
  select_filled_slot demo_atof demo_garbage
    (demo_received [115, 101, 108, 101, 99, 116, 32, 49, 0, 0]) ⟨1, by decide⟩ [0] rfl
    (by decide)

theorem upto_newline_melody_not_found (rest : List Nat) :
    upto_newline (str_melody_not_found ++ rest) = str_melody_not_found := by
  simp [str_melody_not_found, upto_newline]

theorem upto_newline_command_not_found (rest : List Nat) :
    upto_newline (str_command_not_found ++ rest) = str_command_not_found := by
  simp [str_command_not_found, upto_newline]

/-- C4: for a slot `i` of the library with note count 0, the received line "select i" leaves the
buzzer, the selected index and the displayed name as they were, and the message in the output
array of the USART FSM, up to and including its first newline, is "Error: Melody not found\n". -/
theorem select_empty_slot (atof : List Nat → ℚ) (garbage : Nat → Nat) (w : world)
    (i : Fin MELODIES_MEMORY_SIZE) (junk : List Nat)
    (hin : w.usart.in_data = str_select ++ SPACE :: (48 + i.val) :: 0 :: junk)
    (hlen : (w.jukebox.melodies i).melody_length = 0) :
    ∃ w1, do_read_command atof garbage w = some w1 ∧
      w1.buzzer = w.buzzer ∧
      w1.jukebox.melody_idx = w.jukebox.melody_idx ∧
      w1.jukebox.p_melody = w.jukebox.p_melody ∧
      upto_newline w1.usart.out_data = str_melody_not_found := by
  have hp : _parse_message w.usart.in_data = some (some (str_select, [48 + i.val])) := by
    rw [hin]
    exact parse_select_digit _ junk (by omega) (by simp only [SPACE]; omega)
  have hsel : melody_selected [48 + i.val] = i.val := melody_selected_digit i.val i.isLt
  have hlt : melody_selected [48 + i.val] < MELODIES_MEMORY_SIZE := by rw [hsel]; exact i.isLt
  have hfin : (⟨melody_selected [48 + i.val], hlt⟩ : Fin MELODIES_MEMORY_SIZE) = i :=
    Fin.ext hsel
  obtain ⟨rest, hfmt, htake⟩ := sprintf_fits garbage str_melody_not_found (by decide)
  rw [do_read_command_parsed atof garbage w _ _ hp]
  simp [_execute_command, str_select, str_play, str_stop, str_pause, str_speed, str_next]
  simp only [← str_select.eq_1] at hlt hfin hsel ⊢
  simp [hlt, hfin, hlen, hfmt, fsm_usart_set_out_data, fsm_usart_reset_input_data, htake,
    upto_newline_melody_not_found]

/-- C4, closed instance: "select 9" in the sample state, whose library has three melodies. -/
theorem select_empty_slot_witness :
    ∃ w1, do_read_command demo_atof demo_garbage
        (demo_received [115, 101, 108, 101, 99, 116, 32, 57, 0, 0]) = some w1 ∧
      w1.buzzer = demo_world.buzzer ∧
      w1.jukebox.melody_idx = 0 ∧
      w1.jukebox.p_melody = none ∧
      upto_newline w1.usart.out_data = str_melody_not_found :=
  select_empty_slot demo_atof demo_garbage
    (demo_received [115, 101, 108, 101, 99, 116, 32, 57, 0, 0]) ⟨9, by decide⟩ [0] rfl
    (by decide)

/-- Unrecognised commands on terminated lines: a command token that is none of the seven command
words (compared byte by byte, hence case-sensitively) makes `_execute_command` leave "Error:
Command not found\n" as the message of the output array and change nothing in the buzzer or the
jukebox, whatever the parameter; and so does the command-received action for every received line,
held as a terminated string in the input array, whose first token is such a token. -/
theorem unknown_command_reports_error (atof : List Nat → ℚ) (garbage : Nat → Nat) (w : world) :
    (∀ c p : List Nat, c ∉ command_words →
      ∃ w1, _execute_command atof garbage w c p = some w1 ∧
        upto_newline w1.usart.out_data = str_command_not_found ∧
        w1.buzzer = w.buzzer ∧ w1.jukebox = w.jukebox) ∧
    (∀ line junk c : List Nat,
      w.usart.in_data = line ++ 0 :: junk →
      w.usart.in_data.length = USART_INPUT_BUFFER_LENGTH →
      0 ∉ line →
      first_token line = some c →
      c ∉ command_words →
      ∃ w1, do_read_command atof garbage w = some w1 ∧
        upto_newline w1.usart.out_data = str_command_not_found ∧
        w1.buzzer = w.buzzer ∧
        w1.jukebox.melody_idx = w.jukebox.melody_idx ∧
        w1.jukebox.p_melody = w.jukebox.p_melody) := by
  obtain ⟨rest, hfmt, htake⟩ := sprintf_fits garbage str_command_not_found (by decide)
  have hexec : ∀ c p : List Nat, c ∉ command_words →
      _execute_command atof garbage w c p =
        some { w with usart := fsm_usart_set_out_data w.usart (str_command_not_found ++ 0 :: rest) } := by
    intro c p hc
    simp only [command_words, List.mem_cons, List.mem_singleton, not_or, List.not_mem_nil,
      or_false] at hc
    obtain ⟨h1, h2, h3, h4, h5, h6, h7⟩ := hc
    simp [_execute_command, h1, h2, h3, h4, h5, h6, h7, hfmt]
  constructor
  · intro c p hc
    refine ⟨_, hexec c p hc, ?_, rfl, rfl⟩
    simp [fsm_usart_set_out_data, htake, upto_newline_command_not_found]
  · intro line junk c hin hlen h0 htok hc
    have hl : line.length < USART_INPUT_BUFFER_LENGTH := by
      rw [hin] at hlen
      simp at hlen
      omega
    obtain ⟨p, hp⟩ := (parse_message_terminated junk line h0 hl).2 c htok
    rw [← hin] at hp
    rw [do_read_command_parsed atof garbage w _ _ hp, hexec c p hc]
    simp [fsm_usart_set_out_data, fsm_usart_reset_input_data, htake,
      upto_newline_command_not_found]

/-- Unrecognised commands, closed instance: the lines "PLAY" and "foo" in the sample state. -/
theorem unknown_command_reports_error_witness :
    (∃ w1, do_read_command demo_atof demo_garbage
        (demo_received [80, 76, 65, 89, 0, 0, 0, 0, 0, 0]) = some w1 ∧
      upto_newline w1.usart.out_data = str_command_not_found ∧
      w1.buzzer = demo_world.buzzer ∧
      w1.jukebox.melody_idx = 0 ∧
      w1.jukebox.p_melody = none) ∧
    (∃ w1, do_read_command demo_atof demo_garbage
        (demo_received [102, 111, 111, 0, 0, 0, 0, 0, 0, 0]) = some w1 ∧
      upto_newline w1.usart.out_data = str_command_not_found ∧
      w1.buzzer = demo_world.buzzer ∧
      w1.jukebox.melody_idx = 0 ∧
      w1.jukebox.p_melody = none) :=
  ⟨(unknown_command_reports_error demo_atof demo_garbage
      (demo_received [80, 76, 65, 89, 0, 0, 0, 0, 0, 0])).2 [80, 76, 65, 89] [0, 0, 0, 0, 0]
      [80, 76, 65, 89] rfl rfl (by decide) rfl (by decide),
   (unknown_command_reports_error demo_atof demo_garbage
      (demo_received [102, 111, 111, 0, 0, 0, 0, 0, 0, 0])).2 [102, 111, 111] [0, 0, 0, 0, 0, 0]
      [102, 111, 111] rfl rfl (by decide) rfl (by decide)⟩

/-- Lines without token: when the received line, held as a terminated string in the input array,
has no token (it is empty or made of spaces only), the command-received action parses no command
and only resets the input data: the output array, the buzzer and the jukebox are as they were. -/
theorem empty_line_is_ignored (atof : List Nat → ℚ) (garbage : Nat → Nat) (w : world)
    (line junk : List Nat)
    (hin : w.usart.in_data = line ++ 0 :: junk)
    (hlen : w.usart.in_data.length = USART_INPUT_BUFFER_LENGTH)
    (h0 : 0 ∉ line)
    (htok : first_token line = none) :
    _parse_message w.usart.in_data = some none ∧
    ∃ w1, do_read_command atof garbage w = some w1 ∧
      w1.usart.out_data = w.usart.out_data ∧
      upto_newline w1.usart.out_data = upto_newline w.usart.out_data ∧
      w1.buzzer = w.buzzer ∧
      w1.jukebox.melody_idx = w.jukebox.melody_idx ∧
      w1.jukebox.p_melody = w.jukebox.p_melody := by
  have hl : line.length < USART_INPUT_BUFFER_LENGTH := by
    rw [hin] at hlen
    simp at hlen
    omega
  have hp := (parse_message_terminated junk line h0 hl).1 htok
  rw [← hin] at hp
  refine ⟨hp, ?_⟩
  simp [do_read_command, fsm_usart_get_in_data, hp, fsm_usart_reset_input_data]

/-- Lines without token, closed instance: a line of three spaces in the sample state, whose
output array is clear. -/
theorem empty_line_is_ignored_witness :
    _parse_message (demo_received [32, 32, 32, 0, 0, 0, 0, 0, 0, 0]).usart.in_data = some none ∧
    ∃ w1, do_read_command demo_atof demo_garbage
        (demo_received [32, 32, 32, 0, 0, 0, 0, 0, 0, 0]) = some w1 ∧
      w1.usart.out_data = List.replicate 100 0 ∧
      upto_newline w1.usart.out_data = upto_newline (List.replicate 100 0) ∧
      w1.buzzer = demo_world.buzzer ∧
      w1.jukebox.melody_idx = 0 ∧
      w1.jukebox.p_melody = none :=
  empty_line_is_ignored demo_atof demo_garbage
    (demo_received [32, 32, 32, 0, 0, 0, 0, 0, 0, 0]) [32, 32, 32] [0, 0, 0, 0, 0, 0]
    rfl rfl (by decide) rfl

/-- C7: the command "speed" with parameter text `p` leaves the buzzer speed at the larger of
`atof p` and 0.1, hence at 0.1 or more; but the ten-byte line "speed 0.01" fills the input array
without a terminator, the second `strtok` of `_parse_message` runs past the end of the copy, and
the command-received action has no defined result. -/
theorem speed_command_full_line_undefined (atof : List Nat → ℚ) (garbage : Nat → Nat)
    (w : world) :
    (∀ p, ∃ w1, _execute_command atof garbage w str_speed p = some w1 ∧
      w1.buzzer.player_speed = max (atof p) DOUBLE_0_1 ∧
      (1 : ℚ) / 10 ≤ w1.buzzer.player_speed) ∧
    (str_speed ++ [32, 48, 46, 48, 49]).length = USART_INPUT_BUFFER_LENGTH ∧
    _parse_message (str_speed ++ [32, 48, 46, 48, 49]) = none ∧
    do_read_command atof garbage
      { w with usart := { w.usart with in_data := str_speed ++ [32, 48, 46, 48, 49] } } = none := by
  have hexec : ∀ p, _execute_command atof garbage w str_speed p =
      some { w with buzzer := fsm_buzzer_set_speed w.buzzer (MAX (atof p) DOUBLE_0_1) } := by
    intro p
    simp [_execute_command, str_speed, str_play, str_stop, str_pause]
  have hmax : ∀ a : ℚ, MAX a DOUBLE_0_1 = max a DOUBLE_0_1 := by
    intro a
    unfold MAX
    split
    · rw [max_eq_left (le_of_lt (by assumption))]
    · rw [max_eq_right (not_lt.mp (by assumption))]
  refine ⟨fun p => ⟨_, hexec p, ?_, ?_⟩, by decide, by decide, ?_⟩
  · exact hmax (atof p)
  · show (1 : ℚ) / 10 ≤ MAX (atof p) DOUBLE_0_1
    rw [hmax]
    exact le_trans (by norm_num [DOUBLE_0_1]) (le_max_right _ _)
  · have hp : _parse_message (str_speed ++ [32, 48, 46, 48, 49]) = none := by decide
    simp [do_read_command, fsm_usart_get_in_data, hp]

/-- C8: the command "next", whatever its parameter, moves the selection to the slot after the
selected one modulo 10 when that slot has notes and to slot 0 otherwise, shows the name of the new
slot, hands the new slot to the buzzer, and leaves the buzzer with note index 0 and action
`PLAY`; with the library of `fsm_jukebox_init` (slots 0, 1, 2 filled) and a selected index among
0, 1, 2, three such commands in a row bring the selected index back to where it started. -/
theorem next_command_advances (atof : List Nat → ℚ) (garbage : Nat → Nat) (w : world)
    (p : List Nat) :
    (∃ w1 k, _execute_command atof garbage w str_next p = some w1 ∧
      k.val = (if (w.jukebox.melodies ⟨(w.jukebox.melody_idx + 1) % MELODIES_MEMORY_SIZE,
                    Nat.mod_lt _ (by decide)⟩).melody_length ≠ 0
                then (w.jukebox.melody_idx + 1) % MELODIES_MEMORY_SIZE else 0) ∧
      w1.jukebox.melody_idx = k.val ∧
      w1.jukebox.p_melody = (w.jukebox.melodies k).p_name ∧
      w1.buzzer.p_melody = some (w.jukebox.melodies k) ∧
      w1.buzzer.note_index = 0 ∧
      w1.buzzer.user_action = USER_ACTIONS.PLAY ∧
      w1.jukebox.melodies = w.jukebox.melodies) ∧
    (∀ scale_melody happy_birthday_melody tetris_melody : melody_t,
      scale_melody.melody_length ≠ 0 → happy_birthday_melody.melody_length ≠ 0 →
      tetris_melody.melody_length ≠ 0 →
      w.jukebox.melodies = default_melodies scale_melody happy_birthday_melody tetris_melody →
      w.jukebox.melody_idx ≤ 2 →
      (((_execute_command atof garbage w str_next p).bind
          (fun w1 => _execute_command atof garbage w1 str_next p)).bind
          (fun w2 => _execute_command atof garbage w2 str_next p)).map
        (fun w3 => w3.jukebox.melody_idx) = some w.jukebox.melody_idx) := by
  have hexec : ∀ v : world, _execute_command atof garbage v str_next p =
      some (_set_next_song v) := by
    intro v
    simp [_execute_command, str_next, str_play, str_stop, str_pause, str_speed]
  constructor
  · refine ⟨_, next_song_idx w.jukebox, hexec w, ?_, rfl, rfl, ?_, ?_, ?_, rfl⟩
    · simp only [next_song_idx]
      split <;> rename_i h
      · have h1 : (w.jukebox.melodies ⟨(w.jukebox.melody_idx + 1) % MELODIES_MEMORY_SIZE,
            Nat.mod_lt _ (by decide)⟩).melody_length = 0 := by omega
        simp [h1, slot0]
      · have h1 : (w.jukebox.melodies ⟨(w.jukebox.melody_idx + 1) % MELODIES_MEMORY_SIZE,
            Nat.mod_lt _ (by decide)⟩).melody_length ≠ 0 := by omega
        simp [h1]
    · simp [_set_next_song, fsm_buzzer_set_action, fsm_buzzer_set_melody]
    · simp [_set_next_song, fsm_buzzer_set_action, fsm_buzzer_set_melody]
    · simp [_set_next_song, fsm_buzzer_set_action, fsm_buzzer_set_melody]
  · intro s h t hs hh ht hlib hidx
    have hstep : ∀ v : world, v.jukebox.melodies = default_melodies s h t →
        v.jukebox.melody_idx ≤ 2 →
        (_set_next_song v).jukebox.melodies = default_melodies s h t ∧
        (_set_next_song v).jukebox.melody_idx = (v.jukebox.melody_idx + 1) % 3 := by
      intro v hv hi
      refine ⟨hv, ?_⟩
      have hcases : v.jukebox.melody_idx = 0 ∨ v.jukebox.melody_idx = 1 ∨
          v.jukebox.melody_idx = 2 := by omega
      have e3 : ((3 : Fin 10) : Nat) = 3 := rfl
      rcases hcases with h0 | h0 | h0 <;>
        simp [_set_next_song, e3, next_song_idx, hv, h0, default_melodies, hs, hh, ht, empty_slot,
          slot0, MELODIES_MEMORY_SIZE]
    obtain ⟨l1, i1⟩ := hstep w hlib hidx
    have b1 : (_set_next_song w).jukebox.melody_idx ≤ 2 := by omega
    obtain ⟨l2, i2⟩ := hstep _ l1 b1
    have b2 : (_set_next_song (_set_next_song w)).jukebox.melody_idx ≤ 2 := by omega
    obtain ⟨_, i3⟩ := hstep _ l2 b2
    simp only [hexec, Option.some_bind, Option.map_some', Option.some.injEq]
    omega

/-- C8, closed instance: three "next" commands in the sample state, which starts at slot 0. -/
theorem next_command_advances_witness :
    (((_execute_command demo_atof demo_garbage demo_world str_next [SPACE]).bind
        (fun w1 => _execute_command demo_atof demo_garbage w1 str_next [SPACE])).bind
        (fun w2 => _execute_command demo_atof demo_garbage w2 str_next [SPACE])).map
      (fun w3 => w3.jukebox.melody_idx) = some 0 :=
  (next_command_advances demo_atof demo_garbage demo_world [SPACE]).2
    demo_scale demo_happy demo_tetris (by decide) (by decide) (by decide) rfl (by decide)

/-- C9: the commands "play", "stop" and "pause", whatever their parameter, set the requested
action of the buzzer to `PLAY`, `STOP` and `PAUSE` respectively, and leave the USART FSM (with
its output array), the melody and speed of the buzzer and the whole jukebox record as they
were. -/
theorem play_stop_pause_commands (atof : List Nat → ℚ) (garbage : Nat → Nat) (w : world)
    (p : List Nat) :
    (∃ w1, _execute_command atof garbage w str_play p = some w1 ∧
      w1.buzzer.user_action = USER_ACTIONS.PLAY ∧ w1.usart = w.usart ∧
      w1.buzzer.p_melody = w.buzzer.p_melody ∧ w1.buzzer.player_speed = w.buzzer.player_speed ∧
      w1.jukebox = w.jukebox) ∧
    (∃ w1, _execute_command atof garbage w str_stop p = some w1 ∧
      w1.buzzer.user_action = USER_ACTIONS.STOP ∧ w1.usart = w.usart ∧
      w1.buzzer.p_melody = w.buzzer.p_melody ∧ w1.buzzer.player_speed = w.buzzer.player_speed ∧
      w1.jukebox = w.jukebox) ∧
    (∃ w1, _execute_command atof garbage w str_pause p = some w1 ∧
      w1.buzzer.user_action = USER_ACTIONS.PAUSE ∧ w1.usart = w.usart ∧
      w1.buzzer.p_melody = w.buzzer.p_melody ∧ w1.buzzer.player_speed = w.buzzer.player_speed ∧
      w1.jukebox = w.jukebox) := by
  refine ⟨⟨{ w with buzzer := fsm_buzzer_set_action w.buzzer USER_ACTIONS.PLAY }, ?_, ?_⟩,
    ⟨{ w with buzzer := fsm_buzzer_set_action w.buzzer USER_ACTIONS.STOP }, ?_, ?_⟩,
    ⟨{ w with buzzer := fsm_buzzer_set_action w.buzzer USER_ACTIONS.PAUSE }, ?_, ?_⟩⟩
  · simp [_execute_command, str_play]
  · simp [fsm_buzzer_set_action]
  · simp [_execute_command, str_play, str_stop]
  · simp [fsm_buzzer_set_action]
  · simp [_execute_command, str_play, str_stop, str_pause]
  · simp [fsm_buzzer_set_action]

/-! ## The button FSM while the button is held -/

theorem button_fire_released_pressed (w : world) (t : Nat)
    (hs : w.button.current_state = FSM_BUTTON.BUTTON_RELEASED) :
    fsm_button_fire (env_button t true w) =
      some (button_set_state FSM_BUTTON.BUTTON_PRESSED_WAIT
        (do_store_tick_pressed (env_button t true w))) := by
  simp [fsm_button_fire, fsm_trans_button, fsm_fire, env_button, hs, check_button_pressed]

theorem button_fire_pressed_wait (w : world) (t : Nat)
    (hs : w.button.current_state = FSM_BUTTON.BUTTON_PRESSED_WAIT) :
    fsm_button_fire (env_button t true w) =
      some (if t > w.button.next_timeout
        then button_set_state FSM_BUTTON.BUTTON_PRESSED (env_button t true w)
        else env_button t true w) := by
  by_cases h : t > w.button.next_timeout <;>
    simp [fsm_button_fire, fsm_trans_button, fsm_fire, env_button, hs, check_timeout, h]

theorem button_fire_pressed_held (w : world) (t : Nat)
    (hs : w.button.current_state = FSM_BUTTON.BUTTON_PRESSED) :
    fsm_button_fire (env_button t true w) = some (env_button t true w) := by
  simp [fsm_button_fire, fsm_trans_button, fsm_fire, env_button, hs, check_button_released]

theorem button_held_run_invariant (tick : Nat → Nat) (w : world)
    (next_timeout0 debounce_time button_id : Nat)
    (hinit : w.button = fsm_button_init next_timeout0 debounce_time button_id)
    (hmono : ∀ k, tick k ≤ tick (k + 1))
    (hwrap : tick 0 + debounce_time < UINT32_MOD) (k : Nat) :
    ∃ wk, button_held_run tick w k = some wk ∧
      wk.button.duration = 0 ∧
      wk.button.next_timeout = tick 0 + debounce_time ∧
      wk.button.current_state =
        (if tick k > tick 0 + debounce_time then FSM_BUTTON.BUTTON_PRESSED
         else FSM_BUTTON.BUTTON_PRESSED_WAIT) := by
  induction k with
  | zero =>
    have hs : w.button.current_state = FSM_BUTTON.BUTTON_RELEASED := by
      rw [hinit]; rfl
    refine ⟨_, button_fire_released_pressed w (tick 0) hs, ?_, ?_, ?_⟩
    · simp [button_set_state, do_store_tick_pressed, env_button, hinit, fsm_button_init]
    · simp only [button_set_state, do_store_tick_pressed, env_button, hinit, fsm_button_init]
      exact Nat.mod_eq_of_lt hwrap
    · simp [button_set_state]
  | succ k ih =>
    obtain ⟨wk, hrun, hdur, hnt, hst⟩ := ih
    have hle := hmono k
    by_cases hk : tick k > tick 0 + debounce_time
    · have hs : wk.button.current_state = FSM_BUTTON.BUTTON_PRESSED := by
        rw [hst]; simp [hk]
      have hk1 : tick (k + 1) > tick 0 + debounce_time := by omega
      refine ⟨env_button (tick (k + 1)) true wk, ?_, ?_, ?_, ?_⟩
      · simp [button_held_run, hrun, button_fire_pressed_held wk _ hs]
      · simpa [env_button] using hdur
      · simpa [env_button] using hnt
      · simp [env_button, hs, hk1]
    · have hs : wk.button.current_state = FSM_BUTTON.BUTTON_PRESSED_WAIT := by
        rw [hst]; simp [hk]
      by_cases hk1 : tick (k + 1) > tick 0 + debounce_time
      · have hk2 : tick (k + 1) > wk.button.next_timeout := by omega
        refine ⟨button_set_state FSM_BUTTON.BUTTON_PRESSED (env_button (tick (k + 1)) true wk),
          ?_, ?_, ?_, ?_⟩
        · simp [button_held_run, hrun, button_fire_pressed_wait wk _ hs, hk2]
        · simpa [env_button, button_set_state] using hdur
        · simpa [env_button, button_set_state] using hnt
        · simp [button_set_state, hk1]
      · have hk2 : ¬ tick (k + 1) > wk.button.next_timeout := by omega
        refine ⟨env_button (tick (k + 1)) true wk, ?_, ?_, ?_, ?_⟩
        · simp [button_held_run, hrun, button_fire_pressed_wait wk _ hs, hk2]
        · simpa [env_button] using hdur
        · simpa [env_button] using hnt
        · simp [env_button, hs, hk1]

theorem tick_monotone (tick : Nat → Nat) (hmono : ∀ k, tick k ≤ tick (k + 1)) :
    ∀ j k, j ≤ k → tick j ≤ tick k := by
  intro j k hjk
  induction k with
  | zero =>
    have : j = 0 := by omega
    rw [this]
  | succ k ih =>
    by_cases h : j = k + 1
    · rw [h]
    · exact le_trans (ih (by omega)) (hmono k)

/-- C10: a button FSM fresh from `fsm_button_init` is fired at the instants
`tick 0 ≤ tick 1 ≤ ... ≤ tick n` of a counter that does not wrap, with the button held down all
along and for more than `debounce_time` ticks. Then there is one fire `k0 ≥ 1`, the first one
whose instant is later than `tick 0 + debounce_time`, such that the state is `BUTTON_PRESSED_WAIT`
after every fire before `k0` and `BUTTON_PRESSED` after every fire from `k0` on; and the stored
duration is 0 after every fire. -/
theorem held_press_enters_pressed_once (tick : Nat → Nat) (w : world) (n : Nat)
    (next_timeout0 debounce_time button_id : Nat)
    (hinit : w.button = fsm_button_init next_timeout0 debounce_time button_id)
    (hmono : ∀ k, tick k ≤ tick (k + 1))
    (hwrap : tick 0 + debounce_time < UINT32_MOD)
    (hheld : tick n - tick 0 > debounce_time) :
    w.button.current_state = FSM_BUTTON.BUTTON_RELEASED ∧ w.button.duration = 0 ∧
    ∃ k0, 0 < k0 ∧ k0 ≤ n ∧ tick k0 > tick 0 + debounce_time ∧
      (∀ k, k < k0 → tick k ≤ tick 0 + debounce_time) ∧
      ∀ k, k ≤ n → ∃ wk, button_held_run tick w k = some wk ∧
        wk.button.duration = 0 ∧
        wk.button.current_state =
          (if k < k0 then FSM_BUTTON.BUTTON_PRESSED_WAIT else FSM_BUTTON.BUTTON_PRESSED) := by
  have hex : ∃ k, tick k > tick 0 + debounce_time := ⟨n, by omega⟩
  have hfind := Nat.find_spec hex
  have hmin : ∀ k, k < Nat.find hex → tick k ≤ tick 0 + debounce_time := by
    intro k hk
    have := Nat.find_min hex hk
    omega
  have hpos : 0 < Nat.find hex := by
    rcases Nat.eq_zero_or_pos (Nat.find hex) with h | h
    · rw [h] at hfind; omega
    · exact h
  have hle : Nat.find hex ≤ n := Nat.find_min' hex (by omega)
  refine ⟨by rw [hinit]; rfl, by rw [hinit]; rfl, Nat.find hex, hpos, hle, hfind, hmin, ?_⟩
  intro k _
  obtain ⟨wk, hrun, hdur, _, hst⟩ :=
    button_held_run_invariant tick w next_timeout0 debounce_time button_id hinit hmono hwrap k
  refine ⟨wk, hrun, hdur, ?_⟩
  rw [hst]
  by_cases hk : k < Nat.find hex
  · have := hmin k hk
    have h1 : ¬ tick k > tick 0 + debounce_time := by omega
    simp [hk, h1]
  · have h1 := tick_monotone tick hmono (Nat.find hex) k (by omega)
    have h2 : tick k > tick 0 + debounce_time := by omega
    simp [hk, h2]

/-- C10, closed instance: the sample button (debounce 150 ms) held from tick 5 and fired at
every tick up to tick 205. -/
theorem held_press_enters_pressed_once_witness :
    ∃ k0, 0 < k0 ∧ k0 ≤ 200 ∧ 5 + k0 > 5 + 0 + 150 ∧
      (∀ k, k < k0 → 5 + k ≤ 5 + 0 + 150) ∧
      ∀ k, k ≤ 200 → ∃ wk, button_held_run (fun k => 5 + k) demo_world k = some wk ∧
        wk.button.duration = 0 ∧
        wk.button.current_state =
          (if k < k0 then FSM_BUTTON.BUTTON_PRESSED_WAIT else FSM_BUTTON.BUTTON_PRESSED) :=
  (held_press_enters_pressed_once (fun k => 5 + k) demo_world 200 0 150 0 rfl
    (fun k => Nat.add_le_add_left (Nat.le_succ k) 5) (by decide) (by decide)).2.2

/-! ## The button FSM: one fire from each state -/

theorem button_fire_from_released (w : world)
    (hs : w.button.current_state = FSM_BUTTON.BUTTON_RELEASED) :
    fsm_button_fire w =
      some (if w.buttons_arr.flag_pressed = true
        then button_set_state FSM_BUTTON.BUTTON_PRESSED_WAIT (do_store_tick_pressed w)
        else w) := by
  by_cases h : w.buttons_arr.flag_pressed = true <;>
    simp [fsm_button_fire, fsm_trans_button, fsm_fire, hs, check_button_pressed, h]

theorem button_fire_from_pressed_wait (w : world)
    (hs : w.button.current_state = FSM_BUTTON.BUTTON_PRESSED_WAIT) :
    fsm_button_fire w =
      some (if w.msTicks > w.button.next_timeout
        then button_set_state FSM_BUTTON.BUTTON_PRESSED w else w) := by
  by_cases h : w.msTicks > w.button.next_timeout <;>
    simp [fsm_button_fire, fsm_trans_button, fsm_fire, hs, check_timeout, h]

theorem button_fire_from_pressed (w : world)
    (hs : w.button.current_state = FSM_BUTTON.BUTTON_PRESSED) :
    fsm_button_fire w =
      some (if w.buttons_arr.flag_pressed = true then w
        else button_set_state FSM_BUTTON.BUTTON_RELEASED_WAIT (do_set_duration w)) := by
  by_cases h : w.buttons_arr.flag_pressed = true <;>
    simp [fsm_button_fire, fsm_trans_button, fsm_fire, hs, check_button_released, h]

theorem button_fire_from_released_wait (w : world)
    (hs : w.button.current_state = FSM_BUTTON.BUTTON_RELEASED_WAIT) :
    fsm_button_fire w =
      some (if w.msTicks > w.button.next_timeout
        then button_set_state FSM_BUTTON.BUTTON_RELEASED w else w) := by
  by_cases h : w.msTicks > w.button.next_timeout <;>
    simp [fsm_button_fire, fsm_trans_button, fsm_fire, hs, check_timeout, h]

/-- C12: in `BUTTON_PRESSED_WAIT` and in `BUTTON_RELEASED_WAIT`, a fire at a tick equal to
`next_timeout` returns the machine state as it is, and a fire at a tick greater than
`next_timeout` changes the current state to `BUTTON_PRESSED`, respectively `BUTTON_RELEASED`,
and nothing else. -/
theorem debounce_expiry_is_strict (w : world) :
    (w.button.current_state = FSM_BUTTON.BUTTON_PRESSED_WAIT →
      (w.msTicks = w.button.next_timeout → fsm_button_fire w = some w) ∧
      (w.msTicks > w.button.next_timeout →
        fsm_button_fire w = some { w with button :=
          { w.button with current_state := FSM_BUTTON.BUTTON_PRESSED } })) ∧
    (w.button.current_state = FSM_BUTTON.BUTTON_RELEASED_WAIT →
      (w.msTicks = w.button.next_timeout → fsm_button_fire w = some w) ∧
      (w.msTicks > w.button.next_timeout →
        fsm_button_fire w = some { w with button :=
          { w.button with current_state := FSM_BUTTON.BUTTON_RELEASED } })) := by
  refine ⟨fun hs => ⟨fun h => ?_, fun h => ?_⟩, fun hs => ⟨fun h => ?_, fun h => ?_⟩⟩
  · rw [button_fire_from_pressed_wait w hs]
    simp [h]
  · rw [button_fire_from_pressed_wait w hs]
    simp [h, button_set_state]
  · rw [button_fire_from_released_wait w hs]
    simp [h]
  · rw [button_fire_from_released_wait w hs]
    simp [h, button_set_state]

/-- C12, closed instance: the sample button waiting in `BUTTON_PRESSED_WAIT` for tick 155, fired
at tick 155 and at tick 156. -/
theorem debounce_expiry_is_strict_witness :
    fsm_button_fire { demo_world with msTicks := 155, button :=
        { demo_world.button with current_state := FSM_BUTTON.BUTTON_PRESSED_WAIT,
                                 next_timeout := 155 } } =
      some { demo_world with msTicks := 155, button :=
        { demo_world.button with current_state := FSM_BUTTON.BUTTON_PRESSED_WAIT,
                                 next_timeout := 155 } } ∧
    fsm_button_fire { demo_world with msTicks := 156, button :=
        { demo_world.button with current_state := FSM_BUTTON.BUTTON_PRESSED_WAIT,
                                 next_timeout := 155 } } =
      some { demo_world with msTicks := 156, button :=
        { demo_world.button with current_state := FSM_BUTTON.BUTTON_PRESSED,
                                 next_timeout := 155 } } :=
  ⟨((debounce_expiry_is_strict { demo_world with msTicks := 155, button :=
        { demo_world.button with current_state := FSM_BUTTON.BUTTON_PRESSED_WAIT,
                                 next_timeout := 155 } }).1 rfl).1 rfl,
   ((debounce_expiry_is_strict { demo_world with msTicks := 156, button :=
        { demo_world.button with current_state := FSM_BUTTON.BUTTON_PRESSED_WAIT,
                                 next_timeout := 155 } }).1 rfl).2 (by decide)⟩

theorem uint32_sub_no_wrap (a b : Nat) (hab : b ≤ a) (ha : a < UINT32_MOD) :
    (((a : Int) - (b : Int)) % (UINT32_MOD : Int)).toNat = a - b := by
  have h1 : (UINT32_MOD : Int) = 4294967296 := rfl
  have h2 : a < 4294967296 := ha
  rw [h1]
  omega

theorem button_run_press_release (w : world) (T0 T1 : Nat)
    (hs : w.button.current_state = FSM_BUTTON.BUTTON_RELEASED)
    (hlong : T1 > T0 + w.button.debounce_time + 1)
    (hwrap : T1 + w.button.debounce_time < UINT32_MOD) (k : Nat) :
    ∃ wk, button_run (fun i => T0 + i) (fun i => decide (T0 + i < T1)) w k = some wk ∧
      wk.button.debounce_time = w.button.debounce_time ∧
      (T0 + k < T1 → wk.button.tick_pressed = T0 ∧
        wk.button.next_timeout = T0 + w.button.debounce_time ∧
        wk.button.current_state =
          (if k > w.button.debounce_time then FSM_BUTTON.BUTTON_PRESSED
           else FSM_BUTTON.BUTTON_PRESSED_WAIT)) ∧
      (T1 ≤ T0 + k → wk.button.duration = T1 - T0 ∧
        wk.button.next_timeout = T1 + w.button.debounce_time ∧
        wk.button.current_state =
          (if T0 + k > T1 + w.button.debounce_time then FSM_BUTTON.BUTTON_RELEASED
           else FSM_BUTTON.BUTTON_RELEASED_WAIT)) := by
  have hmod : UINT32_MOD = 4294967296 := rfl
  induction k with
  | zero =>
    have hlt : T0 + 0 < T1 := by omega
    have hfire := button_fire_from_released (env_button (T0 + 0) true w) (by simpa [env_button] using hs)
    refine ⟨button_set_state FSM_BUTTON.BUTTON_PRESSED_WAIT
        (do_store_tick_pressed (env_button (T0 + 0) true w)),
      ?_, ?_, fun _ => ⟨?_, ?_, ?_⟩, fun h => by omega⟩
    · simp only [button_run, hlt, decide_True]
      rw [hfire]
      simp [env_button]
    · simp [env_button, button_set_state, do_store_tick_pressed]
    · simp [env_button, button_set_state, do_store_tick_pressed]
    · simp only [env_button, button_set_state, do_store_tick_pressed]
      exact Nat.mod_eq_of_lt (by omega)
    · simp [env_button, button_set_state]
  | succ k ih =>
    obtain ⟨wk, hrun, hD, hpress, hrel⟩ := ih
    by_cases hlt : T0 + (k + 1) < T1
    · -- still pressed
      obtain ⟨htp, hnt, hst⟩ := hpress (by omega)
      have hp : decide (T0 + (k + 1) < T1) = true := by simpa using hlt
      by_cases hk : k > w.button.debounce_time
      · have hs1 : wk.button.current_state = FSM_BUTTON.BUTTON_PRESSED := by rw [hst]; simp [hk]
        have hfire := button_fire_from_pressed (env_button (T0 + (k + 1)) true wk)
          (by simpa [env_button] using hs1)
        refine ⟨env_button (T0 + (k + 1)) true wk, ?_, by simpa [env_button] using hD,
          fun _ => ⟨by simpa [env_button] using htp, by simpa [env_button] using hnt, ?_⟩,
          fun h => by omega⟩
        · simp only [button_run, hrun, Option.some_bind, hp]
          rw [hfire]
          simp [env_button]
        · have : k + 1 > w.button.debounce_time := by omega
          simp [env_button, hs1, this]
      · have hs1 : wk.button.current_state = FSM_BUTTON.BUTTON_PRESSED_WAIT := by
          rw [hst]; simp [hk]
        have hfire := button_fire_from_pressed_wait (env_button (T0 + (k + 1)) true wk)
          (by simpa [env_button] using hs1)
        by_cases hk1 : k + 1 > w.button.debounce_time
        · have hgt : (env_button (T0 + (k + 1)) true wk).msTicks >
              (env_button (T0 + (k + 1)) true wk).button.next_timeout := by
            simp only [env_button]; omega
          refine ⟨button_set_state FSM_BUTTON.BUTTON_PRESSED (env_button (T0 + (k + 1)) true wk),
            ?_, by simpa [env_button, button_set_state] using hD,
            fun _ => ⟨by simpa [env_button, button_set_state] using htp,
              by simpa [env_button, button_set_state] using hnt, ?_⟩,
            fun h => by omega⟩
          · simp only [button_run, hrun, Option.some_bind, hp]
            rw [hfire, if_pos hgt]
          · simp [button_set_state, hk1]
        · have hgt : ¬ (env_button (T0 + (k + 1)) true wk).msTicks >
              (env_button (T0 + (k + 1)) true wk).button.next_timeout := by
            simp only [env_button]; omega
          refine ⟨env_button (T0 + (k + 1)) true wk, ?_, by simpa [env_button] using hD,
            fun _ => ⟨by simpa [env_button] using htp, by simpa [env_button] using hnt, ?_⟩,
            fun h => by omega⟩
          · simp only [button_run, hrun, Option.some_bind, hp]
            rw [hfire, if_neg hgt]
          · simp [env_button, hs1, hk1]
    · -- released
      have hp : decide (T0 + (k + 1) < T1) = false := by simpa using hlt
      by_cases hfirst : T0 + k < T1
      · -- the release is seen for the first time
        obtain ⟨htp, hnt, hst⟩ := hpress hfirst
        have hk : k > w.button.debounce_time := by omega
        have hT1 : T0 + (k + 1) = T1 := by omega
        have hs1 : wk.button.current_state = FSM_BUTTON.BUTTON_PRESSED := by rw [hst]; simp [hk]
        have hfire := button_fire_from_pressed (env_button (T0 + (k + 1)) false wk)
          (by simpa [env_button] using hs1)
        refine ⟨button_set_state FSM_BUTTON.BUTTON_RELEASED_WAIT
            (do_set_duration (env_button (T0 + (k + 1)) false wk)),
          ?_, by simpa [env_button, button_set_state, do_set_duration] using hD,
          fun h => by omega, fun _ => ⟨?_, ?_, ?_⟩⟩
        · simp only [button_run, hrun, Option.some_bind, hp]
          rw [hfire]
          simp [env_button]
        · simp only [env_button, button_set_state, do_set_duration, htp, hT1]
          exact uint32_sub_no_wrap T1 T0 (by omega) (by omega)
        · simp only [env_button, button_set_state, do_set_duration, hD, hT1]
          exact Nat.mod_eq_of_lt hwrap
        · have : ¬ T0 + (k + 1) > T1 + w.button.debounce_time := by omega
          simp [button_set_state, this]
      · obtain ⟨hdur, hnt, hst⟩ := hrel (by omega)
        by_cases hk : T0 + k > T1 + w.button.debounce_time
        · have hs1 : wk.button.current_state = FSM_BUTTON.BUTTON_RELEASED := by
            rw [hst]; simp [hk]
          have hfire := button_fire_from_released (env_button (T0 + (k + 1)) false wk)
            (by simpa [env_button] using hs1)
          refine ⟨env_button (T0 + (k + 1)) false wk, ?_, by simpa [env_button] using hD,
            fun h => by omega,
            fun _ => ⟨by simpa [env_button] using hdur, by simpa [env_button] using hnt, ?_⟩⟩
          · simp only [button_run, hrun, Option.some_bind, hp]
            rw [hfire]
            simp [env_button]
          · have : T0 + (k + 1) > T1 + w.button.debounce_time := by omega
            simp [env_button, hs1, this]
        · have hs1 : wk.button.current_state = FSM_BUTTON.BUTTON_RELEASED_WAIT := by
            rw [hst]; simp [hk]
          have hfire := button_fire_from_released_wait (env_button (T0 + (k + 1)) false wk)
            (by simpa [env_button] using hs1)
          by_cases hk1 : T0 + (k + 1) > T1 + w.button.debounce_time
          · have hgt : (env_button (T0 + (k + 1)) false wk).msTicks >
                (env_button (T0 + (k + 1)) false wk).button.next_timeout := by
              simp only [env_button]; omega
            refine ⟨button_set_state FSM_BUTTON.BUTTON_RELEASED
                (env_button (T0 + (k + 1)) false wk),
              ?_, by simpa [env_button, button_set_state] using hD,
              fun h => by omega,
              fun _ => ⟨by simpa [env_button, button_set_state] using hdur,
                by simpa [env_button, button_set_state] using hnt, ?_⟩⟩
            · simp only [button_run, hrun, Option.some_bind, hp]
              rw [hfire, if_pos hgt]
            · simp [button_set_state, hk1]
          · have hgt : ¬ (env_button (T0 + (k + 1)) false wk).msTicks >
                (env_button (T0 + (k + 1)) false wk).button.next_timeout := by
              simp only [env_button]; omega
            refine ⟨env_button (T0 + (k + 1)) false wk, ?_, by simpa [env_button] using hD,
              fun h => by omega,
              fun _ => ⟨by simpa [env_button] using hdur, by simpa [env_button] using hnt, ?_⟩⟩
            · simp only [button_run, hrun, Option.some_bind, hp]
              rw [hfire, if_neg hgt]
            · simp [env_button, hs1, hk1]

theorem button_fire_keeps_duration (v : world)
    (h : ¬ (v.button.current_state = FSM_BUTTON.BUTTON_PRESSED ∧
      v.buttons_arr.flag_pressed = false)) :
    ∃ v1, fsm_button_fire v = some v1 ∧ v1.button.duration = v.button.duration := by
  cases hs : v.button.current_state with
  | BUTTON_RELEASED =>
    refine ⟨_, button_fire_from_released v hs, ?_⟩
    split <;> simp [button_set_state, do_store_tick_pressed]
  | BUTTON_RELEASED_WAIT =>
    refine ⟨_, button_fire_from_released_wait v hs, ?_⟩
    split <;> simp [button_set_state]
  | BUTTON_PRESSED =>
    have hp : v.buttons_arr.flag_pressed = true := by
      cases hf : v.buttons_arr.flag_pressed with
      | true => rfl
      | false => exact absurd ⟨hs, hf⟩ h
    exact ⟨_, button_fire_from_pressed v hs, by simp [hp]⟩
  | BUTTON_PRESSED_WAIT =>
    refine ⟨_, button_fire_from_pressed_wait v hs, ?_⟩
    split <;> simp [button_set_state]

/-- C11, as stated, fails at the boundary `T1 = T0 + debounce_time + 1`: with a debounce time of
2 ticks, a press first seen by the fire at tick 5 and a release first seen by the fire at tick 8
(8 > 5 + 2), the fire at tick 8 only moves the FSM from `BUTTON_PRESSED_WAIT` to
`BUTTON_PRESSED`, the release is acted upon at tick 9, and the FSM is back in `BUTTON_RELEASED`
at tick 12 with a stored duration of 4, not 8 - 5 = 3. -/
theorem press_duration_boundary_counterexample :
    8 > 5 + (fsm_button_init 0 2 0).debounce_time ∧
    (button_run (fun i => 5 + i) (fun i => decide (5 + i < 8))
        { demo_world with button := fsm_button_init 0 2 0 } 3).map
      (fun w => w.button.current_state) = some FSM_BUTTON.BUTTON_PRESSED ∧
    (button_run (fun i => 5 + i) (fun i => decide (5 + i < 8))
        { demo_world with button := fsm_button_init 0 2 0 } 7).map
      (fun w => (w.button.current_state, w.button.duration)) =
        some (FSM_BUTTON.BUTTON_RELEASED, 4) ∧
    (4 : Nat) ≠ 8 - 5 := by
  refine ⟨by decide, by decide, by decide, by decide⟩

/-- C11, as amended: the button FSM, in `BUTTON_RELEASED`, is fired at every tick from `T0` on;
the button is found pressed by the fires at ticks `T0` to `T1 - 1` and released by the fires
from tick `T1` on, with `T1 > T0 + debounce_time + 1` and no wrap of the counter. Then the
stored duration is `T1 - T0` after every fire from tick `T1` on, the FSM is in
`BUTTON_RELEASED_WAIT` up to tick `T1 + debounce_time` and in `BUTTON_RELEASED` afterwards; and
any fire of the button FSM other than one that finds the button released in `BUTTON_PRESSED`
keeps the stored duration. -/
theorem press_duration_stored (w : world) (T0 T1 : Nat)
    (hs : w.button.current_state = FSM_BUTTON.BUTTON_RELEASED)
    (hlong : T1 > T0 + w.button.debounce_time + 1)
    (hwrap : T1 + w.button.debounce_time < UINT32_MOD) :
    (∀ k, T1 ≤ T0 + k →
      ∃ wk, button_run (fun i => T0 + i) (fun i => decide (T0 + i < T1)) w k = some wk ∧
        wk.button.duration = T1 - T0 ∧
        wk.button.current_state =
          (if T0 + k > T1 + w.button.debounce_time then FSM_BUTTON.BUTTON_RELEASED
           else FSM_BUTTON.BUTTON_RELEASED_WAIT)) ∧
    (∀ v : world,
      ¬ (v.button.current_state = FSM_BUTTON.BUTTON_PRESSED ∧
        v.buttons_arr.flag_pressed = false) →
      ∃ v1, fsm_button_fire v = some v1 ∧ v1.button.duration = v.button.duration) := by
  refine ⟨fun k hk => ?_, button_fire_keeps_duration⟩
  obtain ⟨wk, hrun, _, _, hrel⟩ := button_run_press_release w T0 T1 hs hlong hwrap k
  obtain ⟨hdur, _, hst⟩ := hrel hk
  exact ⟨wk, hrun, hdur, hst⟩

/-- C11 as amended, closed instance: the sample button (debounce 150 ms) pressed at tick 5 and
released at tick 200, looked at after the fire at tick 351. -/
theorem press_duration_stored_witness :
    ∃ wk, button_run (fun i => 5 + i) (fun i => decide (5 + i < 200)) demo_world 346 = some wk ∧
      wk.button.duration = 200 - 5 ∧
      wk.button.current_state =
        (if 5 + 346 > 200 + demo_world.button.debounce_time then FSM_BUTTON.BUTTON_RELEASED
         else FSM_BUTTON.BUTTON_RELEASED_WAIT) :=
  (press_duration_stored demo_world 5 200 rfl (by decide) (by decide)).1 346 (by decide)

/-! ## Activity and sleep of the jukebox -/

/-- C19: the guard `check_activity` of the jukebox holds exactly when the button FSM is not in
`BUTTON_RELEASED`, or the requested action of the buzzer is `PLAY` or `PAUSE`, or the USART FSM
is in `SEND_DATA` or has `data_received` set; the guard `check_no_activity` is its negation. -/
theorem activity_guard_characterised (w : world) :
    (check_activity w = true ↔
      (w.button.current_state ≠ FSM_BUTTON.BUTTON_RELEASED ∨
       (w.buzzer.user_action = USER_ACTIONS.PLAY ∨ w.buzzer.user_action = USER_ACTIONS.PAUSE) ∨
       (w.usart.current_state = FSM_USART.SEND_DATA ∨ w.usart.data_received = true))) ∧
    check_no_activity w = !check_activity w := by
  refine ⟨?_, rfl⟩
  simp [check_activity, fsm_button_check_activity, fsm_buzzer_check_activity,
    fsm_usart_check_activity, or_assoc]

/-- C20, as stated, fails when the stored press duration is still above the on/off threshold:
the sample state is in `WAIT_COMMAND` with the button in `BUTTON_RELEASED`, the buzzer action
`STOP`, the USART FSM in `WAIT_DATA` without received data, and a stored duration of 1500 ms
against a threshold of 1001 ms; one fire of the jukebox moves it to `OFF`, not to
`SLEEP_WHILE_ON`. -/
theorem idle_with_long_press_counterexample :
    demo_world.jukebox.current_state = FSM_JUKEBOX.WAIT_COMMAND ∧
    demo_world.button.current_state = FSM_BUTTON.BUTTON_RELEASED ∧
    demo_world.buzzer.user_action = USER_ACTIONS.STOP ∧
    demo_world.usart.current_state = FSM_USART.WAIT_DATA ∧
    demo_world.usart.data_received = false ∧
    check_no_activity { demo_world with button := { demo_world.button with duration := 1500 } } =
      true ∧
    (fsm_jukebox_fire demo_atof demo_garbage
        { demo_world with button := { demo_world.button with duration := 1500 } }).map
      (fun w => w.jukebox.current_state) = some FSM_JUKEBOX.OFF := by
  refine ⟨rfl, rfl, rfl, rfl, rfl, by decide, by decide⟩

/-- C20, as amended: in `WAIT_COMMAND`, when the button FSM is in `BUTTON_RELEASED`, the buzzer
action is `STOP`, the USART FSM is in `WAIT_DATA` without received data, and the stored press
duration `d` satisfies neither `d > on_off_press_time_ms` nor
`next_song_press_time_ms < d < on_off_press_time_ms`, one fire of the jukebox runs the sleep
action and moves to `SLEEP_WHILE_ON`. -/
theorem idle_wait_command_sleeps (atof : List Nat → ℚ) (garbage : Nat → Nat) (w : world)
    (hs : w.jukebox.current_state = FSM_JUKEBOX.WAIT_COMMAND)
    (hb : w.button.current_state = FSM_BUTTON.BUTTON_RELEASED)
    (hz : w.buzzer.user_action = USER_ACTIONS.STOP)
    (hu : w.usart.current_state = FSM_USART.WAIT_DATA)
    (hr : w.usart.data_received = false)
    (hoff : ¬ w.button.duration > w.jukebox.on_off_press_time_ms)
    (hnext : ¬ (w.jukebox.next_song_press_time_ms < w.button.duration ∧
      w.button.duration < w.jukebox.on_off_press_time_ms)) :
    check_no_activity w = true ∧
    fsm_jukebox_fire atof garbage w =
      some (jukebox_set_state FSM_JUKEBOX.SLEEP_WHILE_ON (do_sleep w)) ∧
    (jukebox_set_state FSM_JUKEBOX.SLEEP_WHILE_ON (do_sleep w)).jukebox.current_state =
      FSM_JUKEBOX.SLEEP_WHILE_ON := by
  have hna : check_no_activity w = true := by
    simp [check_no_activity, check_activity, fsm_button_check_activity,
      fsm_buzzer_check_activity, fsm_usart_check_activity, hb, hz, hu, hr]
  have hoff1 : check_off w = false := by
    simp only [check_off, check_on, fsm_button_get_duration, Bool.and_eq_false_iff,
      decide_eq_false_iff_not]
    exact Or.inr hoff
  have hnext1 : check_next_song_button w = false := by
    simp only [check_next_song_button, fsm_button_get_duration, Bool.and_eq_false_iff,
      decide_eq_false_iff_not]
    by_cases h1 : w.button.duration > w.jukebox.next_song_press_time_ms
    · exact Or.inr (fun h2 => hnext ⟨h1, h2⟩)
    · exact Or.inl (Or.inr h1)
  have hcmd : check_command_received w = false := by
    simp [check_command_received, fsm_usart_check_data_received, hr]
  refine ⟨hna, ?_, rfl⟩
  simp [fsm_jukebox_fire, fms_trans_jukebox, fsm_fire, hs, hoff1, hnext1, hcmd, hna]

/-- C20 as amended, closed instance: the sample state, whose stored duration is 0. -/
theorem idle_wait_command_sleeps_witness :
    check_no_activity demo_world = true ∧
    fsm_jukebox_fire demo_atof demo_garbage demo_world =
      some (jukebox_set_state FSM_JUKEBOX.SLEEP_WHILE_ON (do_sleep demo_world)) ∧
    (jukebox_set_state FSM_JUKEBOX.SLEEP_WHILE_ON (do_sleep demo_world)).jukebox.current_state =
      FSM_JUKEBOX.SLEEP_WHILE_ON :=
  idle_wait_command_sleeps demo_atof demo_garbage demo_world rfl rfl rfl rfl rfl (by decide)
    (by decide)

/-! ## The buzzer FSM: one fire from each state -/

theorem buzzer_fire_from_wait_start (w : world)
    (hs : w.buzzer.current_state = FSM_BUZZER.WAIT_START) :
    fsm_buzzer_fire w =
      if check_player_start w = true
      then (do_player_start w).map (buzzer_set_state FSM_BUZZER.WAIT_NOTE)
      else some w := by
  by_cases h : check_player_start w = true <;>
    simp [fsm_buzzer_fire, fsm_trans_buzzer, fsm_fire, hs, h]

theorem buzzer_fire_from_wait_melody (w : world)
    (hs : w.buzzer.current_state = FSM_BUZZER.WAIT_MELODY) :
    fsm_buzzer_fire w =
      if check_melody_start w = true
      then (do_melody_start w).map (buzzer_set_state FSM_BUZZER.WAIT_NOTE)
      else some w := by
  by_cases h : check_melody_start w = true <;>
    simp [fsm_buzzer_fire, fsm_trans_buzzer, fsm_fire, hs, h]

theorem buzzer_fire_from_wait_note (w : world)
    (hs : w.buzzer.current_state = FSM_BUZZER.WAIT_NOTE) :
    fsm_buzzer_fire w =
      match check_note_end w with
      | none => none
      | some true => some (buzzer_set_state FSM_BUZZER.PLAY_NOTE (do_note_end w))
      | some false => some w := by
  rcases h : check_note_end w with _ | b
  · simp [fsm_buzzer_fire, fsm_trans_buzzer, fsm_fire, hs, h]
  · cases b <;> simp [fsm_buzzer_fire, fsm_trans_buzzer, fsm_fire, hs, h]

theorem buzzer_fire_from_pause_note (w : world)
    (hs : w.buzzer.current_state = FSM_BUZZER.PAUSE_NOTE) :
    fsm_buzzer_fire w =
      some (if check_resume w = true then buzzer_set_state FSM_BUZZER.PLAY_NOTE w else w) := by
  by_cases h : check_resume w = true <;>
    simp [fsm_buzzer_fire, fsm_trans_buzzer, fsm_fire, hs, h]

theorem buzzer_fire_from_play_note (w : world) (m : melody_t)
    (hs : w.buzzer.current_state = FSM_BUZZER.PLAY_NOTE) (hm : w.buzzer.p_melody = some m) :
    fsm_buzzer_fire w =
      if w.buzzer.note_index < m.melody_length ∧ w.buzzer.user_action = USER_ACTIONS.PLAY
      then (do_play_note w).map (buzzer_set_state FSM_BUZZER.WAIT_NOTE)
      else if w.buzzer.note_index ≥ m.melody_length
      then some (buzzer_set_state FSM_BUZZER.WAIT_MELODY (do_end_melody w))
      else if w.buzzer.user_action = USER_ACTIONS.STOP
      then some (buzzer_set_state FSM_BUZZER.WAIT_START (do_player_stop w))
      else if w.buzzer.user_action = USER_ACTIONS.PAUSE
      then some (buzzer_set_state FSM_BUZZER.PAUSE_NOTE (do_pause w))
      else some w := by
  by_cases h1 : w.buzzer.note_index < m.melody_length
  · have h2 : ¬ m.melody_length ≤ w.buzzer.note_index := by omega
    have e1 : (USER_ACTIONS.STOP == USER_ACTIONS.PLAY) = false := rfl
    have e2 : (USER_ACTIONS.PAUSE == USER_ACTIONS.PLAY) = false := rfl
    have e3 : (USER_ACTIONS.PAUSE == USER_ACTIONS.STOP) = false := rfl
    cases ha : w.buzzer.user_action <;>
      simp [e1, e2, e3, fsm_buzzer_fire, fsm_trans_buzzer, fsm_fire, hs, hm, check_play_note,
        check_end_melody, check_player_stop, check_pause, h1, h2, ha]
  · have h2 : w.buzzer.note_index ≥ m.melody_length := by omega
    simp [fsm_buzzer_fire, fsm_trans_buzzer, fsm_fire, hs, hm, check_play_note,
        check_end_melody, h1, h2]

/-! ## The buzzer FSM: end of melody, stop, setter -/

/-- C14: in `PLAY_NOTE` with `note_index` at or beyond the length of the current melody, whatever
the requested action, one fire runs `do_end_melody` and moves to `WAIT_MELODY`: the tone is
stopped (one `stop` call to the port), `note_index` is 0, the requested action is `STOP`, melody
and speed are kept, and `fsm_buzzer_check_activity` is false. -/
theorem end_of_melody_forces_stop (w : world) (m : melody_t)
    (hs : w.buzzer.current_state = FSM_BUZZER.PLAY_NOTE)
    (hm : w.buzzer.p_melody = some m)
    (hidx : w.buzzer.note_index ≥ m.melody_length) :
    ∃ w1, fsm_buzzer_fire w = some w1 ∧
      w1 = buzzer_set_state FSM_BUZZER.WAIT_MELODY (do_end_melody w) ∧
      w1.buzzer.current_state = FSM_BUZZER.WAIT_MELODY ∧
      w1.buzzer_calls = w.buzzer_calls ++ [port_buzzer_call.stop w.buzzer.buzzer_id] ∧
      w1.buzzer.note_index = 0 ∧
      w1.buzzer.user_action = USER_ACTIONS.STOP ∧
      w1.buzzer.p_melody = w.buzzer.p_melody ∧
      w1.buzzer.player_speed = w.buzzer.player_speed ∧
      fsm_buzzer_check_activity w1.buzzer = false := by
  have h1 : ¬ (w.buzzer.note_index < m.melody_length ∧
      w.buzzer.user_action = USER_ACTIONS.PLAY) := by omega
  refine ⟨buzzer_set_state FSM_BUZZER.WAIT_MELODY (do_end_melody w), ?_, rfl, rfl, rfl, rfl, rfl,
    rfl, rfl, rfl⟩
  rw [buzzer_fire_from_play_note w m hs hm, if_neg h1, if_pos hidx]

/-- C14, closed instance: the sample buzzer in `PLAY_NOTE` after the third and last note of the
sample scale, with action `PAUSE`. -/
theorem end_of_melody_forces_stop_witness :
    ∃ w1, fsm_buzzer_fire { demo_world with buzzer :=
        ⟨.PLAY_NOTE, some demo_scale, 3, 0, .PAUSE, 1⟩ } = some w1 ∧
      w1.buzzer.current_state = FSM_BUZZER.WAIT_MELODY ∧
      w1.buzzer_calls = [port_buzzer_call.stop 0] ∧
      w1.buzzer.note_index = 0 ∧
      w1.buzzer.user_action = USER_ACTIONS.STOP ∧
      fsm_buzzer_check_activity w1.buzzer = false :=
  (end_of_melody_forces_stop { demo_world with buzzer :=
      ⟨.PLAY_NOTE, some demo_scale, 3, 0, .PAUSE, 1⟩ } demo_scale rfl rfl (by decide)).elim
    fun w1 h => ⟨w1, h.1, h.2.2.1, h.2.2.2.1, h.2.2.2.2.1, h.2.2.2.2.2.1, h.2.2.2.2.2.2.2.2⟩

/-- C15: in `PLAY_NOTE` with requested action `STOP` and `note_index` below the length of the
current melody, one fire runs `do_player_stop` and moves to `WAIT_START`: the tone is stopped
(one `stop` call to the port), `note_index` is 0, and the requested action, the melody and the
speed are as before. -/
theorem stop_during_melody (w : world) (m : melody_t)
    (hs : w.buzzer.current_state = FSM_BUZZER.PLAY_NOTE)
    (hm : w.buzzer.p_melody = some m)
    (ha : w.buzzer.user_action = USER_ACTIONS.STOP)
    (hidx : w.buzzer.note_index < m.melody_length) :
    ∃ w1, fsm_buzzer_fire w = some w1 ∧
      w1 = buzzer_set_state FSM_BUZZER.WAIT_START (do_player_stop w) ∧
      w1.buzzer.current_state = FSM_BUZZER.WAIT_START ∧
      w1.buzzer_calls = w.buzzer_calls ++ [port_buzzer_call.stop w.buzzer.buzzer_id] ∧
      w1.buzzer.note_index = 0 ∧
      w1.buzzer.user_action = w.buzzer.user_action ∧
      w1.buzzer.p_melody = w.buzzer.p_melody ∧
      w1.buzzer.player_speed = w.buzzer.player_speed := by
  have h1 : ¬ (w.buzzer.note_index < m.melody_length ∧
      w.buzzer.user_action = USER_ACTIONS.PLAY) := by simp [ha]
  have h2 : ¬ w.buzzer.note_index ≥ m.melody_length := by omega
  refine ⟨buzzer_set_state FSM_BUZZER.WAIT_START (do_player_stop w), ?_, rfl, rfl, rfl, rfl, rfl,
    rfl, rfl⟩
  rw [buzzer_fire_from_play_note w m hs hm, if_neg h1, if_neg h2, if_pos ha]

/-- C15, closed instance: the sample buzzer in `PLAY_NOTE` before the second note of the sample
scale, with action `STOP`. -/
theorem stop_during_melody_witness :
    ∃ w1, fsm_buzzer_fire { demo_world with buzzer :=
        ⟨.PLAY_NOTE, some demo_scale, 1, 0, .STOP, 2⟩ } = some w1 ∧
      w1.buzzer.current_state = FSM_BUZZER.WAIT_START ∧
      w1.buzzer_calls = [port_buzzer_call.stop 0] ∧
      w1.buzzer.note_index = 0 ∧
      w1.buzzer.user_action = USER_ACTIONS.STOP ∧
      w1.buzzer.p_melody = some demo_scale ∧
      w1.buzzer.player_speed = 2 :=
  (stop_during_melody { demo_world with buzzer :=
      ⟨.PLAY_NOTE, some demo_scale, 1, 0, .STOP, 2⟩ } demo_scale rfl rfl rfl (by decide)).elim
    fun w1 h => ⟨w1, h.1, h.2.2.1, h.2.2.2.1, h.2.2.2.2.1, h.2.2.2.2.2.1, h.2.2.2.2.2.2.1,
      h.2.2.2.2.2.2.2⟩

/-- C16: `fsm_buzzer_set_action` stores the action it is given; with `STOP` it also sets
`note_index` to 0, with `PLAY` and `PAUSE` it leaves `note_index` as it is; the current state,
the melody, the speed and the identifier are never changed. -/
theorem set_action_effect (b : fsm_buzzer_t) :
    fsm_buzzer_set_action b USER_ACTIONS.STOP =
      { b with user_action := USER_ACTIONS.STOP, note_index := 0 } ∧
    fsm_buzzer_set_action b USER_ACTIONS.PLAY = { b with user_action := USER_ACTIONS.PLAY } ∧
    fsm_buzzer_set_action b USER_ACTIONS.PAUSE = { b with user_action := USER_ACTIONS.PAUSE } ∧
    ∀ a : USER_ACTIONS,
      (fsm_buzzer_set_action b a).user_action = a ∧
      (fsm_buzzer_set_action b a).current_state = b.current_state ∧
      (fsm_buzzer_set_action b a).p_melody = b.p_melody ∧
      (fsm_buzzer_set_action b a).player_speed = b.player_speed ∧
      (fsm_buzzer_set_action b a).buzzer_id = b.buzzer_id := by
  refine ⟨rfl, rfl, rfl, fun a => ?_⟩
  cases a <;> simp [fsm_buzzer_set_action]

/-! ## The buzzer FSM: starting a note -/

theorem melody_wf_note (m : melody_t) (hwf : melody_wf m) (i : Nat) (hi : i < m.melody_length) :
    m.p_notes[i]? = some (m.p_notes.getD i 0) ∧
    m.p_durations[i]? = some (m.p_durations.getD i 0) ∧ i + 1 < UINT32_MOD := by
  obtain ⟨h1, h2, h3⟩ := hwf
  have hn : i < m.p_notes.length := by omega
  have hd : i < m.p_durations.length := by omega
  refine ⟨?_, ?_, by omega⟩
  · simp [List.getElem?_eq_getElem hn]
  · simp [List.getElem?_eq_getElem hd]

theorem buzzer_fire_play_note (v : world) (m : melody_t) (f : ℚ) (d : Nat)
    (hs : v.buzzer.current_state = FSM_BUZZER.PLAY_NOTE)
    (hm : v.buzzer.p_melody = some m)
    (ha : v.buzzer.user_action = USER_ACTIONS.PLAY)
    (hidx : v.buzzer.note_index < m.melody_length)
    (hf : m.p_notes[v.buzzer.note_index]? = some f)
    (hd : m.p_durations[v.buzzer.note_index]? = some d)
    (hw : v.buzzer.note_index + 1 < UINT32_MOD) :
    fsm_buzzer_fire v =
      some (buzzer_set_state FSM_BUZZER.WAIT_NOTE
        (_start_note f d
          { v with buzzer := { v.buzzer with note_index := v.buzzer.note_index + 1 } })) := by
  rw [buzzer_fire_from_play_note v m hs hm, if_pos ⟨hidx, ha⟩]
  simp [do_play_note, hm, hf, hd, Nat.mod_eq_of_lt hw]

theorem buzzer_fire_melody_start (v : world) (m : melody_t) (f : ℚ) (d : Nat)
    (hs : v.buzzer.current_state = FSM_BUZZER.WAIT_START ∨
      v.buzzer.current_state = FSM_BUZZER.WAIT_MELODY)
    (hm : v.buzzer.p_melody = some m)
    (ha : v.buzzer.user_action = USER_ACTIONS.PLAY)
    (hf : m.p_notes[0]? = some f)
    (hd : m.p_durations[0]? = some d)
    (hw : v.buzzer.note_index + 1 < UINT32_MOD) :
    fsm_buzzer_fire v =
      some (buzzer_set_state FSM_BUZZER.WAIT_NOTE
        (_start_note f d
          { v with buzzer := { v.buzzer with note_index := v.buzzer.note_index + 1 } })) := by
  have hg : check_melody_start v = true := by simp [check_melody_start, hm, ha]
  rcases hs with hs | hs
  · rw [buzzer_fire_from_wait_start v hs]
    simp [check_player_start, hg, do_player_start, do_melody_start, hm, hf, hd,
      Nat.mod_eq_of_lt hw]
  · rw [buzzer_fire_from_wait_melody v hs]
    simp [hg, do_melody_start, hm, hf, hd, Nat.mod_eq_of_lt hw]

theorem buzzer_start_note_step (v : world) (m : melody_t)
    (hs : v.buzzer.current_state = FSM_BUZZER.PLAY_NOTE)
    (hm : v.buzzer.p_melody = some m)
    (ha : v.buzzer.user_action = USER_ACTIONS.PLAY)
    (hwf : melody_wf m)
    (hk : v.buzzer.note_index < m.melody_length) :
    ∃ v1, fsm_buzzer_fire v = some v1 ∧
      v1.buzzer = ⟨FSM_BUZZER.WAIT_NOTE, some m, v.buzzer.note_index + 1, v.buzzer.buzzer_id,
        USER_ACTIONS.PLAY, v.buzzer.player_speed⟩ ∧
      v1.buzzer_calls = v.buzzer_calls ++
        [ port_buzzer_call.set_note_duration v.buzzer.buzzer_id
            (scaled_duration (m.p_durations.getD v.buzzer.note_index 0) v.buzzer.player_speed),
          port_buzzer_call.set_note_frequency v.buzzer.buzzer_id
            (m.p_notes.getD v.buzzer.note_index 0) ] ∧
      v1.buzzers_arr =
        (if v.buzzer.buzzer_id = BUZZER_0_ID then { v.buzzers_arr with note_end := false }
         else v.buzzers_arr) := by
  obtain ⟨hf, hd, hw⟩ := melody_wf_note m hwf _ hk
  refine ⟨_, buzzer_fire_play_note v m _ _ hs hm ha hk hf hd hw, ?_, ?_, ?_⟩
  · simp [buzzer_set_state, _start_note, port_buzzer_set_note_duration,
      port_buzzer_set_note_frequency, hm, ha]
    split <;> simp [hm, ha]
  · simp [buzzer_set_state, _start_note, port_buzzer_set_note_duration,
      port_buzzer_set_note_frequency]
    split <;> simp
  · simp [buzzer_set_state, _start_note, port_buzzer_set_note_duration,
      port_buzzer_set_note_frequency]
    split <;> simp

theorem buzzer_pause_step (v : world) (m : melody_t)
    (hs : v.buzzer.current_state = FSM_BUZZER.PLAY_NOTE)
    (hm : v.buzzer.p_melody = some m)
    (ha : v.buzzer.user_action = USER_ACTIONS.PAUSE)
    (hk : v.buzzer.note_index < m.melody_length) :
    ∃ v1, fsm_buzzer_fire v = some v1 ∧
      v1.buzzer = ⟨FSM_BUZZER.PAUSE_NOTE, some m, v.buzzer.note_index, v.buzzer.buzzer_id,
        USER_ACTIONS.PAUSE, v.buzzer.player_speed⟩ ∧
      v1.buzzer_calls = v.buzzer_calls ++ [port_buzzer_call.stop v.buzzer.buzzer_id] ∧
      v1.buzzers_arr = v.buzzers_arr := by
  have hne : ¬ v.buzzer.note_index ≥ m.melody_length := by omega
  refine ⟨buzzer_set_state FSM_BUZZER.PAUSE_NOTE (do_pause v), ?_, ?_, rfl, rfl⟩
  · rw [buzzer_fire_from_play_note v m hs hm]
    simp [ha, hne]
  · simp [buzzer_set_state, do_pause, port_buzzer_stop, hm, ha]

theorem buzzer_resume_step (v : world)
    (hs : v.buzzer.current_state = FSM_BUZZER.PAUSE_NOTE)
    (ha : v.buzzer.user_action = USER_ACTIONS.PLAY) :
    fsm_buzzer_fire v = some (buzzer_set_state FSM_BUZZER.PLAY_NOTE v) := by
  rw [buzzer_fire_from_pause_note v hs]
  simp [check_resume, ha]

/-- C17: from `PLAY_NOTE` with `note_index = k` below the length of a well-formed current melody,
the sequence set-action `PAUSE`, fire, set-action `PLAY`, fire, fire, and the sequence
set-action `PLAY`, fire, both end in `WAIT_NOTE` with the same buzzer record, `note_index = k + 1`,
and having started note `k`: the port calls of the second sequence are the scaled duration and
the frequency of note `k`, those of the first are the same preceded by the `stop` of the
pause. -/
theorem pause_resume_keeps_note (w : world) (m : melody_t)
    (hs : w.buzzer.current_state = FSM_BUZZER.PLAY_NOTE)
    (hm : w.buzzer.p_melody = some m)
    (hwf : melody_wf m)
    (hk : w.buzzer.note_index < m.melody_length) :
    ∃ wa wb,
      buzzer_events_run [.set_action .PAUSE, .fire, .set_action .PLAY, .fire, .fire] w = some wa ∧
      buzzer_events_run [.set_action .PLAY, .fire] w = some wb ∧
      (buzzer_events_run [.set_action .PAUSE, .fire] w).map (fun v => v.buzzer.current_state) =
        some FSM_BUZZER.PAUSE_NOTE ∧
      wa.buzzer = wb.buzzer ∧
      wa.buzzers_arr = wb.buzzers_arr ∧
      wa.buzzer.current_state = FSM_BUZZER.WAIT_NOTE ∧
      wa.buzzer.note_index = w.buzzer.note_index + 1 ∧
      wb.buzzer_calls = w.buzzer_calls ++
        [ port_buzzer_call.set_note_duration w.buzzer.buzzer_id
            (scaled_duration (m.p_durations.getD w.buzzer.note_index 0) w.buzzer.player_speed),
          port_buzzer_call.set_note_frequency w.buzzer.buzzer_id
            (m.p_notes.getD w.buzzer.note_index 0) ] ∧
      wa.buzzer_calls = w.buzzer_calls ++
        [ port_buzzer_call.stop w.buzzer.buzzer_id,
          port_buzzer_call.set_note_duration w.buzzer.buzzer_id
            (scaled_duration (m.p_durations.getD w.buzzer.note_index 0) w.buzzer.player_speed),
          port_buzzer_call.set_note_frequency w.buzzer.buzzer_id
            (m.p_notes.getD w.buzzer.note_index 0) ] := by
  -- the direct path
  obtain ⟨wb, hB, hBb, hBc, hBa⟩ := buzzer_start_note_step
    { w with buzzer := fsm_buzzer_set_action w.buzzer USER_ACTIONS.PLAY } m
    (by simpa [fsm_buzzer_set_action] using hs) (by simpa [fsm_buzzer_set_action] using hm)
    (by simp [fsm_buzzer_set_action]) hwf (by simpa [fsm_buzzer_set_action] using hk)
  -- the pause
  obtain ⟨w2, hP, hPb, hPc, hPa⟩ := buzzer_pause_step
    { w with buzzer := fsm_buzzer_set_action w.buzzer USER_ACTIONS.PAUSE } m
    (by simpa [fsm_buzzer_set_action] using hs) (by simpa [fsm_buzzer_set_action] using hm)
    (by simp [fsm_buzzer_set_action]) (by simpa [fsm_buzzer_set_action] using hk)
  -- the resume
  have hR := buzzer_resume_step
    { w2 with buzzer := fsm_buzzer_set_action w2.buzzer USER_ACTIONS.PLAY }
    (by simp [fsm_buzzer_set_action, hPb]) (by simp [fsm_buzzer_set_action])
  -- the note after the resume
  obtain ⟨wa, hA, hAb, hAc, hAa⟩ := buzzer_start_note_step
    (buzzer_set_state FSM_BUZZER.PLAY_NOTE
      { w2 with buzzer := fsm_buzzer_set_action w2.buzzer USER_ACTIONS.PLAY }) m
    (by simp [buzzer_set_state])
    (by simp [buzzer_set_state, fsm_buzzer_set_action, hPb])
    (by simp [buzzer_set_state, fsm_buzzer_set_action])
    hwf
    (by simpa [buzzer_set_state, fsm_buzzer_set_action, hPb] using hk)
  refine ⟨wa, wb, ?_, ?_, ?_, ?_, ?_, ?_, ?_, ?_, ?_⟩
  · simp only [buzzer_events_run, buzzer_apply, Option.some_bind, hP, hR, hA]
  · simp only [buzzer_events_run, buzzer_apply, Option.some_bind, hB]
  · simp [buzzer_events_run, buzzer_apply, hP, hPb]
  · rw [hAb, hBb]
    simp [buzzer_set_state, fsm_buzzer_set_action, hPb]
  · rw [hAa, hBa]
    simp [buzzer_set_state, fsm_buzzer_set_action, hPb, hPa]
  · rw [hAb]
  · rw [hAb]
    simp [buzzer_set_state, fsm_buzzer_set_action, hPb]
  · rw [hBc]
    simp [fsm_buzzer_set_action]
  · rw [hAc]
    simp [buzzer_set_state, fsm_buzzer_set_action, hPb, hPc]

/-- C17, closed instance: the sample buzzer in `PLAY_NOTE` before the second note of the sample
scale, at speed 2. -/
theorem pause_resume_keeps_note_witness :
    ∃ wa wb,
      buzzer_events_run [.set_action .PAUSE, .fire, .set_action .PLAY, .fire, .fire]
        { demo_world with buzzer := ⟨.PLAY_NOTE, some demo_scale, 1, 0, .PLAY, 2⟩ } = some wa ∧
      buzzer_events_run [.set_action .PLAY, .fire]
        { demo_world with buzzer := ⟨.PLAY_NOTE, some demo_scale, 1, 0, .PLAY, 2⟩ } = some wb ∧
      wa.buzzer = wb.buzzer ∧
      wa.buzzer.current_state = FSM_BUZZER.WAIT_NOTE ∧
      wa.buzzer.note_index = 1 + 1 :=
  (pause_resume_keeps_note
    { demo_world with buzzer := ⟨.PLAY_NOTE, some demo_scale, 1, 0, .PLAY, 2⟩ } demo_scale
    rfl rfl ⟨rfl, rfl, by decide⟩ (by decide)).elim
    fun wa h => h.elim fun wb h => ⟨wa, wb, h.1, h.2.1, h.2.2.2.1, h.2.2.2.2.2.1, h.2.2.2.2.2.2.1⟩

/-! ## The buzzer FSM: the note index in the idle states -/

theorem buzzer_fire_keeps_idle_invariant (v v1 : world)
    (hinv : (v.buzzer.current_state = FSM_BUZZER.WAIT_START ∨
      v.buzzer.current_state = FSM_BUZZER.WAIT_MELODY) → v.buzzer.note_index = 0)
    (h : fsm_buzzer_fire v = some v1) :
    (v1.buzzer.current_state = FSM_BUZZER.WAIT_START ∨
      v1.buzzer.current_state = FSM_BUZZER.WAIT_MELODY) → v1.buzzer.note_index = 0 := by
  cases hs : v.buzzer.current_state with
  | WAIT_START =>
    rw [buzzer_fire_from_wait_start v hs] at h
    split at h
    · obtain ⟨x, _, rfl⟩ := Option.map_eq_some'.mp h
      intro hc
      simp [buzzer_set_state] at hc
    · cases h
      exact hinv
  | WAIT_MELODY =>
    rw [buzzer_fire_from_wait_melody v hs] at h
    split at h
    · obtain ⟨x, _, rfl⟩ := Option.map_eq_some'.mp h
      intro hc
      simp [buzzer_set_state] at hc
    · cases h
      exact hinv
  | WAIT_NOTE =>
    rw [buzzer_fire_from_wait_note v hs] at h
    split at h
    · cases h
    · cases h
      intro hc
      simp [buzzer_set_state] at hc
    · cases h
      exact hinv
  | PAUSE_NOTE =>
    rw [buzzer_fire_from_pause_note v hs] at h
    cases h
    split
    · intro hc
      simp [buzzer_set_state] at hc
    · exact hinv
  | PLAY_NOTE =>
    cases hm : v.buzzer.p_melody with
    | none =>
      simp [fsm_buzzer_fire, fsm_trans_buzzer, fsm_fire, hs, check_play_note, hm] at h
    | some m =>
      rw [buzzer_fire_from_play_note v m hs hm] at h
      split at h
      · obtain ⟨x, _, rfl⟩ := Option.map_eq_some'.mp h
        intro hc
        simp [buzzer_set_state] at hc
      · split at h
        · cases h
          intro _
          rfl
        · split at h
          · cases h
            intro _
            rfl
          · split at h
            · cases h
              intro hc
              simp [buzzer_set_state] at hc
            · cases h
              exact hinv

theorem buzzer_apply_keeps_idle_invariant (e : buzzer_event) (v v1 : world)
    (hinv : (v.buzzer.current_state = FSM_BUZZER.WAIT_START ∨
      v.buzzer.current_state = FSM_BUZZER.WAIT_MELODY) → v.buzzer.note_index = 0)
    (h : buzzer_apply e v = some v1) :
    (v1.buzzer.current_state = FSM_BUZZER.WAIT_START ∨
      v1.buzzer.current_state = FSM_BUZZER.WAIT_MELODY) → v1.buzzer.note_index = 0 := by
  cases e with
  | fire => exact buzzer_fire_keeps_idle_invariant v v1 hinv h
  | set_melody p =>
    simp only [buzzer_apply, Option.some.injEq] at h
    subst h
    exact hinv
  | set_speed s =>
    simp only [buzzer_apply, Option.some.injEq] at h
    subst h
    exact hinv
  | set_action a =>
    simp only [buzzer_apply, Option.some.injEq] at h
    subst h
    cases a
    · intro _
      rfl
    · exact hinv
    · exact hinv
  | timer_elapsed =>
    simp only [buzzer_apply, Option.some.injEq] at h
    subst h
    exact hinv

theorem buzzer_events_keep_idle_invariant (evs : List buzzer_event) (v v1 : world)
    (hinv : (v.buzzer.current_state = FSM_BUZZER.WAIT_START ∨
      v.buzzer.current_state = FSM_BUZZER.WAIT_MELODY) → v.buzzer.note_index = 0)
    (h : buzzer_events_run evs v = some v1) :
    (v1.buzzer.current_state = FSM_BUZZER.WAIT_START ∨
      v1.buzzer.current_state = FSM_BUZZER.WAIT_MELODY) → v1.buzzer.note_index = 0 := by
  induction evs generalizing v with
  | nil =>
    simp only [buzzer_events_run, Option.some.injEq] at h
    subst h
    exact hinv
  | cons e es ih =>
    simp only [buzzer_events_run] at h
    obtain ⟨x, hx, hrest⟩ := Option.bind_eq_some.mp h
    exact ih x (buzzer_apply_keeps_idle_invariant e v x hinv hx) hrest

/-- C18: in every machine state reached from a buzzer fresh from `fsm_buzzer_init` by fires,
calls of the three public setters and interrupts of the note timer, `note_index` is 0 whenever
the buzzer FSM is in `WAIT_START` or `WAIT_MELODY`; hence, when in such a state a melody is
assigned whose arrays hold a note 0 and the action is `PLAY`, the fire that moves to `WAIT_NOTE`
starts note 0 (its scaled duration and its frequency go to the port) and leaves `note_index`
at 1. -/
theorem idle_note_index_is_zero (w0 : world) (buzzer_id : Nat) (evs : List buzzer_event)
    (w : world)
    (hinit : w0.buzzer = fsm_buzzer_init buzzer_id)
    (hrun : buzzer_events_run evs w0 = some w) :
    ((w.buzzer.current_state = FSM_BUZZER.WAIT_START ∨
        w.buzzer.current_state = FSM_BUZZER.WAIT_MELODY) → w.buzzer.note_index = 0) ∧
    (∀ (m : melody_t) (f : ℚ) (d : Nat),
      (w.buzzer.current_state = FSM_BUZZER.WAIT_START ∨
        w.buzzer.current_state = FSM_BUZZER.WAIT_MELODY) →
      w.buzzer.p_melody = some m → w.buzzer.user_action = USER_ACTIONS.PLAY →
      m.p_notes[0]? = some f → m.p_durations[0]? = some d →
      ∃ w1, fsm_buzzer_fire w = some w1 ∧
        w1.buzzer.current_state = FSM_BUZZER.WAIT_NOTE ∧
        w1.buzzer.note_index = 1 ∧
        w1.buzzer_calls = w.buzzer_calls ++
          [ port_buzzer_call.set_note_duration w.buzzer.buzzer_id
              (scaled_duration d w.buzzer.player_speed),
            port_buzzer_call.set_note_frequency w.buzzer.buzzer_id f ]) := by
  have hinv : (w.buzzer.current_state = FSM_BUZZER.WAIT_START ∨
      w.buzzer.current_state = FSM_BUZZER.WAIT_MELODY) → w.buzzer.note_index = 0 :=
    buzzer_events_keep_idle_invariant evs w0 w (by rw [hinit]; intro _; rfl) hrun
  refine ⟨hinv, fun m f d hs hm ha hf hd => ?_⟩
  have h0 := hinv hs
  refine ⟨_, buzzer_fire_melody_start w m f d hs hm ha hf hd (by rw [h0]; decide), ?_, ?_, ?_⟩
  · simp [buzzer_set_state]
  · simp [buzzer_set_state, _start_note, port_buzzer_set_note_duration,
      port_buzzer_set_note_frequency, h0]
    split <;> simp
  · simp [buzzer_set_state, _start_note, port_buzzer_set_note_duration,
      port_buzzer_set_note_frequency]
    split <;> simp

/-- C18, closed instance: the sample buzzer played to the end of a one-note melody and asked to
play again from `WAIT_MELODY`. -/
theorem idle_note_index_is_zero_witness :
    ∃ w, buzzer_events_run
        [ .set_melody (some ⟨[440], [300], 1, none⟩), .set_action .PLAY, .fire, .timer_elapsed,
          .fire, .fire, .set_action .PLAY ] demo_world = some w ∧
      w.buzzer.current_state = FSM_BUZZER.WAIT_MELODY ∧
      w.buzzer.note_index = 0 :=
  ⟨_, rfl, rfl,
    (idle_note_index_is_zero demo_world 0
      [ .set_melody (some ⟨[440], [300], 1, none⟩), .set_action .PLAY, .fire, .timer_elapsed,
        .fire, .fire, .set_action .PLAY ] _ rfl rfl).1 (Or.inr rfl)⟩

/-! ## The binary64 quotient of `_start_note` -/

theorem round_half_even_nearest (n d : Nat) (hd : 0 < d) :
    2 * n ≤ 2 * (d * round_half_even n d) + d ∧ 2 * (d * round_half_even n d) ≤ 2 * n + d ∧
    (2 * n = 2 * (d * round_half_even n d) + d ∨ 2 * (d * round_half_even n d) = 2 * n + d →
      round_half_even n d % 2 = 0) := by
  have h1 := Nat.div_add_mod n d
  have h2 := Nat.mod_lt n hd
  have h3 : d * (n / d + 1) = d * (n / d) + d := by ring
  unfold round_half_even
  split_ifs with ha hb
  · refine ⟨by omega, by omega, fun h => by omega⟩
  · rw [h3]
    refine ⟨by omega, by omega, fun h => by omega⟩
  · have hq : n / d % 2 = 0 ∨ n / d % 2 = 1 := by omega
    rcases hq with hq | hq
    · rw [hq, Nat.add_zero]
      refine ⟨by omega, by omega, fun _ => hq⟩
    · rw [hq, h3]
      refine ⟨by omega, by omega, fun _ => by omega⟩

theorem round_half_even_abs (n d : Nat) (hd : 0 < d) :
    |(n : ℚ) / d - round_half_even n d| ≤ 1 / 2 ∧
    (|(n : ℚ) / d - round_half_even n d| = 1 / 2 → round_half_even n d % 2 = 0) := by
  obtain ⟨h1, h2, h3⟩ := round_half_even_nearest n d hd
  generalize round_half_even n d = r at h1 h2 h3
  have hD : (0 : ℚ) < d := by exact_mod_cast hd
  have q1 : (2 : ℚ) * n ≤ 2 * (d * r) + d := by exact_mod_cast h1
  have q2 : (2 : ℚ) * (d * r) ≤ 2 * n + d := by exact_mod_cast h2
  have e : (n : ℚ) / d - r = (n - d * r) / d := by
    field_simp
  constructor
  · rw [e, abs_div, abs_of_pos hD, div_le_iff₀ hD, abs_le]
    constructor <;> linarith
  · intro h
    rw [e, abs_div, abs_of_pos hD, div_eq_iff (ne_of_gt hD)] at h
    apply h3
    rcases abs_eq (by positivity : (0 : ℚ) ≤ 1 / 2 * d) |>.mp h with h4 | h4
    · left
      have : (2 : ℚ) * n = 2 * (d * r) + d := by linarith
      exact_mod_cast this
    · right
      have : (2 : ℚ) * (d * r) = 2 * n + d := by linarith
      exact_mod_cast this

theorem bit_length_upto_spec (fuel n : Nat) (hn : 0 < n) (hf : n ≤ fuel) :
    2 ^ (bit_length_upto fuel n - 1) ≤ n ∧ n < 2 ^ bit_length_upto fuel n ∧
    0 < bit_length_upto fuel n := by
  induction fuel generalizing n with
  | zero => omega
  | succ f ih =>
    have hn0 : n ≠ 0 := by omega
    simp only [bit_length_upto, if_neg hn0]
    by_cases h1 : n / 2 = 0
    · have hn1 : n = 1 := by omega
      subst hn1
      cases f with
      | zero => simp [bit_length_upto]
      | succ g => simp [bit_length_upto]
    · obtain ⟨a, b, c⟩ := ih (n / 2) (by omega) (by omega)
      refine ⟨?_, ?_, by omega⟩
      · have e : bit_length_upto f (n / 2) + 1 - 1 = (bit_length_upto f (n / 2) - 1) + 1 := by
          omega
        rw [e, pow_succ]
        omega
      · rw [pow_succ]
        omega

theorem bit_length_spec (n : Nat) (hn : 0 < n) :
    2 ^ (bit_length n - 1) ≤ n ∧ n < 2 ^ bit_length n ∧ 0 < bit_length n :=
  bit_length_upto_spec n n hn (Nat.le_refl n)
theorem quotient_log2_spec (n d : Nat) (hn : 0 < n) (hd : 0 < d) :
    (2 : ℚ) ^ quotient_log2 n d ≤ (n : ℚ) / d ∧ (n : ℚ) / d < (2 : ℚ) ^ (quotient_log2 n d + 1) := by
  obtain ⟨ha1, ha2, ha3⟩ := bit_length_spec n hn
  obtain ⟨hb1, hb2, hb3⟩ := bit_length_spec d hd
  simp only [quotient_log2]
  generalize bit_length n = a at ha1 ha2 ha3 ⊢
  generalize bit_length d = b at hb1 hb2 hb3 ⊢
  have hX : (0 : ℚ) < 2 ^ a := by positivity
  have hY : (0 : ℚ) < 2 ^ b := by positivity
  have hN : (0 : ℚ) < n := by exact_mod_cast hn
  have hD : (0 : ℚ) < d := by exact_mod_cast hd
  have hNX : (n : ℚ) < 2 ^ a := by exact_mod_cast ha2
  have hDY : (d : ℚ) < 2 ^ b := by exact_mod_cast hb2
  have hXN : (2 : ℚ) ^ a ≤ 2 * n := by
    have : 2 ^ a ≤ 2 * n := by
      have e : a = (a - 1) + 1 := by omega
      rw [e, pow_succ]
      omega
    exact_mod_cast this
  have hYD : (2 : ℚ) ^ b ≤ 2 * d := by
    have : 2 ^ b ≤ 2 * d := by
      have e : b = (b - 1) + 1 := by omega
      rw [e, pow_succ]
      omega
    exact_mod_cast this
  -- the test of the definition compares `d * 2 ^ a` with `n * 2 ^ b`
  have htest : (if 0 ≤ ((a : Int) - (b : Int)) then d * 2 ^ ((a : Int) - (b : Int)).toNat ≤ n
      else d ≤ n * 2 ^ (-((a : Int) - (b : Int))).toNat) ↔ (d : ℚ) * 2 ^ a ≤ n * 2 ^ b := by
    split_ifs with h
    · have hab : b ≤ a := by omega
      have e : ((a : Int) - (b : Int)).toNat = a - b := by omega
      rw [e]
      have e2 : (2 : ℚ) ^ a = 2 ^ (a - b) * 2 ^ b := by
        rw [← pow_add]
        congr 1
        omega
      rw [e2, ← mul_assoc]
      rw [mul_le_mul_right hY]
      exact_mod_cast Iff.rfl
    · have hab : a < b := by omega
      have e : (-((a : Int) - (b : Int))).toNat = b - a := by omega
      rw [e]
      have e2 : (2 : ℚ) ^ b = 2 ^ (b - a) * 2 ^ a := by
        rw [← pow_add]
        congr 1
        omega
      rw [e2, ← mul_assoc]
      rw [mul_le_mul_right hX]
      exact_mod_cast Iff.rfl
  have hz : (2 : ℚ) ^ ((a : Int) - (b : Int)) = 2 ^ a / 2 ^ b := by
    rw [zpow_sub₀ (by norm_num : (2 : ℚ) ≠ 0), zpow_natCast, zpow_natCast]
  by_cases ht : (d : ℚ) * 2 ^ a ≤ n * 2 ^ b
  · rw [if_pos (htest.mpr ht)]
    constructor
    · rw [hz, div_le_div_iff₀ hY hD]
      linarith
    · rw [zpow_add_one₀ (by norm_num : (2 : ℚ) ≠ 0), hz, div_lt_iff₀ hD]
      have : (n : ℚ) * 2 ^ b < 2 ^ a * (2 * d) := by nlinarith
      have e : (2 : ℚ) ^ a / 2 ^ b * 2 * d = 2 ^ a * (2 * d) / 2 ^ b := by ring
      rw [e, lt_div_iff₀ hY]
      exact this
  · rw [if_neg (fun h => ht (htest.mp h))]
    have ht1 : (n : ℚ) * 2 ^ b < d * 2 ^ a := not_le.mp ht
    constructor
    · rw [zpow_sub_one₀ (by norm_num : (2 : ℚ) ≠ 0), hz, div_mul_eq_mul_div,
        div_le_div_iff₀ hY hD]
      nlinarith
    · rw [sub_add_cancel, hz, div_lt_div_iff₀ hD hY]
      linarith

theorem double_quotient_spec (n d : Nat) (hn : 0 < n) (hd : 0 < d) :
    (double_quotient n d).2 = max (quotient_log2 n d - 52) (-1074) ∧
    |(n : ℚ) / d - (double_quotient n d).1 * 2 ^ (double_quotient n d).2| ≤
      2 ^ (double_quotient n d).2 / 2 ∧
    (|(n : ℚ) / d - (double_quotient n d).1 * 2 ^ (double_quotient n d).2| =
      2 ^ (double_quotient n d).2 / 2 → (double_quotient n d).1 % 2 = 0) ∧
    (-1074 < (double_quotient n d).2 →
      2 ^ 52 ≤ (double_quotient n d).1 ∧ (double_quotient n d).1 ≤ 2 ^ 53) := by
  obtain ⟨hk1, hk2⟩ := quotient_log2_spec n d hn hd
  simp only [double_quotient]
  generalize quotient_log2 n d = k at hk1 hk2
  generalize he : max (k - 52) (-1074) = e
  have h2 : (2 : ℚ) ≠ 0 := by norm_num
  have hE : (0 : ℚ) < 2 ^ e := by positivity
  -- the significand is the rounding of `(n / d) / 2 ^ e`
  have hm : ∃ N D : Nat, 0 < D ∧ (N : ℚ) / D = (n : ℚ) / d / 2 ^ e ∧
      (if 0 ≤ e then round_half_even n (d * 2 ^ e.toNat)
        else round_half_even (n * 2 ^ (-e).toNat) d) = round_half_even N D := by
    by_cases h0 : 0 ≤ e
    · refine ⟨n, d * 2 ^ e.toNat, by positivity, ?_, by rw [if_pos h0]⟩
      have e1 : (2 : ℚ) ^ e = 2 ^ e.toNat := by
        rw [← zpow_natCast, Int.toNat_of_nonneg h0]
      rw [e1]
      push_cast
      rw [div_div]
    · refine ⟨n * 2 ^ (-e).toNat, d, hd, ?_, by rw [if_neg h0]⟩
      have e1 : (2 : ℚ) ^ e = (2 ^ (-e).toNat)⁻¹ := by
        rw [← zpow_natCast, Int.toNat_of_nonneg (by omega), zpow_neg, inv_inv]
      rw [e1]
      push_cast
      field_simp
  obtain ⟨N, D, hD, hND, hr⟩ := hm
  rw [hr]
  obtain ⟨r1, r2⟩ := round_half_even_abs N D hD
  rw [hND] at r1 r2
  generalize round_half_even N D = m at r1 r2
  have key : (n : ℚ) / d - m * 2 ^ e = ((n : ℚ) / d / 2 ^ e - m) * 2 ^ e := by
    field_simp
    ring
  have habs : |(n : ℚ) / d - m * 2 ^ e| = |(n : ℚ) / d / 2 ^ e - m| * 2 ^ e := by
    rw [key, abs_mul, abs_of_pos hE]
  refine ⟨trivial, ?_, ?_, ?_⟩
  · rw [habs]
    calc |(n : ℚ) / d / 2 ^ e - m| * 2 ^ e ≤ 1 / 2 * 2 ^ e :=
          mul_le_mul_of_nonneg_right r1 (le_of_lt hE)
      _ = 2 ^ e / 2 := by ring
  · intro h
    apply r2
    rw [habs] at h
    have : |(n : ℚ) / d / 2 ^ e - m| * 2 ^ e = 1 / 2 * 2 ^ e := by rw [h]; ring
    exact mul_right_cancel₀ (ne_of_gt hE) this
  · intro hlt
    have hek : e = k - 52 := by
      rw [← he] at hlt ⊢
      rcases max_cases (k - 52) (-1074) with ⟨h, _⟩ | ⟨h, _⟩
      · exact h
      · rw [h] at hlt
        exact absurd hlt (lt_irrefl _)
    have hk : k = e + 52 := by omega
    rw [hk] at hk1 hk2
    -- `2 ^ 52 ≤ (n / d) / 2 ^ e < 2 ^ 53`
    have b1 : (2 : ℚ) ^ (52 : ℕ) ≤ (n : ℚ) / d / 2 ^ e := by
      rw [le_div_iff₀ hE, ← zpow_natCast, ← zpow_add₀ h2]
      have : ((52 : ℕ) : ℤ) + e = e + 52 := by omega
      rw [this]
      exact hk1
    have b2 : (n : ℚ) / d / 2 ^ e < (2 : ℚ) ^ (53 : ℕ) := by
      rw [div_lt_iff₀ hE, ← zpow_natCast, ← zpow_add₀ h2]
      have : ((53 : ℕ) : ℤ) + e = e + 52 + 1 := by omega
      rw [this]
      exact hk2
    rw [abs_le] at r1
    constructor
    · have : ((2 ^ 52 - 1 : ℕ) : ℚ) < m := by
        push_cast
        linarith [r1.2]
      have := Nat.cast_lt.mp this
      omega
    · have : (m : ℚ) < ((2 ^ 53 + 1 : ℕ) : ℚ) := by
        push_cast
        linarith [r1.1]
      have := Nat.cast_lt.mp this
      omega

theorem double_integer_part_near (n d : Nat) (hn : 0 < n) (hd : 0 < d)
    (hlt : double_integer_part (double_quotient n d) < 2 ^ 53 ∨ n / d < 2 ^ 53) :
    n / d ≤ double_integer_part (double_quotient n d) ∧
    double_integer_part (double_quotient n d) ≤ n / d + 1 := by
  obtain ⟨_, hnear, _, hsig⟩ := double_quotient_spec n d hn hd
  obtain ⟨hk1, _⟩ := quotient_log2_spec n d hn hd
  have he : (double_quotient n d).2 = max (quotient_log2 n d - 52) (-1074) := rfl
  have hfl : Nat.floor ((n : ℚ) / d) = n / d := Nat.floor_div_eq_div n d
  have hz1 : ((n / d : ℕ) : ℚ) ≤ (n : ℚ) / d := by
    rw [← hfl]
    exact Nat.floor_le (by positivity)
  have hz2 : (n : ℚ) / d < ((n / d : ℕ) : ℚ) + 1 := by
    rw [← hfl]
    exact Nat.lt_floor_add_one _
  simp only [double_integer_part] at hlt ⊢
  generalize n / d = z at hlt hz1 hz2 ⊢
  generalize (n : ℚ) / d = q at hnear hk1 hz1 hz2
  generalize quotient_log2 n d = k at hk1 he
  generalize (double_quotient n d).1 = m at hnear hsig hlt ⊢
  generalize (double_quotient n d).2 = e at hnear hsig hlt he ⊢
  rw [abs_le] at hnear
  have h2 : (2 : ℚ) ≠ 0 := by norm_num
  rcases lt_trichotomy e 0 with hneg | hzero | hpos
  · -- the unit in the last place is `1 / S`
    have hnn : ¬ (0 ≤ e) := by omega
    simp only [if_neg hnn] at hlt ⊢
    have e1 : (2 : ℚ) ^ e = (((2 ^ (-e).toNat : ℕ) : ℚ))⁻¹ := by
      push_cast
      rw [← zpow_natCast, Int.toNat_of_nonneg (by omega), zpow_neg, inv_inv]
    generalize 2 ^ (-e).toNat = S at e1 ⊢
    have hS : (0 : ℚ) < S := by
      by_contra hc
      have : (S : ℚ) = 0 := le_antisymm (not_lt.mp hc) (by positivity)
      rw [this, inv_zero] at e1
      exact absurd e1 (ne_of_gt (by positivity))
    have hSn : 0 < S := by exact_mod_cast hS
    rw [e1] at hnear
    constructor
    · rw [Nat.le_div_iff_mul_le hSn]
      by_contra hc
      have hc1 : m + 1 ≤ z * S := by omega
      have hc2 : (m : ℚ) + 1 ≤ z * S := by exact_mod_cast hc1
      have h3 : (m : ℚ) * (S : ℚ)⁻¹ ≤ z - (S : ℚ)⁻¹ := by
        rw [← sub_nonneg]
        have : (z : ℚ) - (S : ℚ)⁻¹ - m * (S : ℚ)⁻¹ = (z * S - (m + 1)) * (S : ℚ)⁻¹ := by
          field_simp
          ring
        rw [this]
        exact mul_nonneg (by linarith) (le_of_lt (inv_pos.mpr hS))
      have h4 : (0 : ℚ) < (S : ℚ)⁻¹ := inv_pos.mpr hS
      linarith [hnear.2]
    · apply Nat.div_le_of_le_mul
      by_contra hc
      have hc1 : S * (z + 1) + 1 ≤ m := by omega
      have hc2 : (S : ℚ) * (z + 1) + 1 ≤ m := by exact_mod_cast hc1
      have h3 : (z : ℚ) + 1 + (S : ℚ)⁻¹ ≤ m * (S : ℚ)⁻¹ := by
        rw [← sub_nonneg]
        have : (m : ℚ) * (S : ℚ)⁻¹ - (z + 1 + (S : ℚ)⁻¹) = (m - (S * (z + 1) + 1)) * (S : ℚ)⁻¹ := by
          field_simp
          ring
        rw [this]
        exact mul_nonneg (by linarith) (le_of_lt (inv_pos.mpr hS))
      have h4 : (0 : ℚ) < (S : ℚ)⁻¹ := inv_pos.mpr hS
      linarith [hnear.1]
  · subst hzero
    simp only [le_refl, if_true, Int.toNat_zero, pow_zero, Nat.mul_one] at hlt ⊢
    rw [zpow_zero] at hnear
    have a1 : ((z : ℕ) : ℚ) < ((m + 1 : ℕ) : ℚ) := by
      push_cast
      linarith [hnear.1]
    have a2 : ((m : ℕ) : ℚ) < ((z + 2 : ℕ) : ℚ) := by
      push_cast
      linarith [hnear.2]
    have b1 := Nat.cast_lt.mp a1
    have b2 := Nat.cast_lt.mp a2
    omega
  · -- the quotient and its rounding are `2 ^ 53` or more
    exfalso
    have hge : (0 : Int) ≤ e := by omega
    simp only [if_pos hge] at hlt
    obtain ⟨hm1, _⟩ := hsig (by omega)
    have hek : k = e + 52 := by
      rcases max_cases (k - 52) (-1074) with ⟨h, _⟩ | ⟨h, _⟩ <;> omega
    have hp : 2 ^ 1 ≤ 2 ^ e.toNat := Nat.pow_le_pow_right (by norm_num) (by omega)
    rcases hlt with hlt | hlt
    · have : 2 ^ 52 * 2 ^ 1 ≤ m * 2 ^ e.toNat := Nat.mul_le_mul hm1 hp
      omega
    · have hq : (2 : ℚ) ^ (53 : ℕ) ≤ q := by
        refine le_trans ?_ hk1
        rw [hek, ← zpow_natCast]
        exact zpow_le_zpow_right₀ (by norm_num) (by omega)
      have : ((2 ^ 53 : ℕ) : ℚ) < ((z + 1 : ℕ) : ℚ) := by
        push_cast
        linarith
      have := Nat.cast_lt.mp this
      omega

theorem scaled_duration_spec (duration : Nat) (s : ℚ) (hs : 0 < s) :
    (∀ t, scaled_duration duration s = some t →
      t < 2 ^ 32 ∧ Nat.floor ((duration : ℚ) / s) ≤ t ∧ t ≤ Nat.floor ((duration : ℚ) / s) + 1) ∧
    ((duration : ℚ) / s < 2 ^ 32 - 1 → ∃ t, scaled_duration duration s = some t) ∧
    ((2 : ℚ) ^ 32 ≤ (duration : ℚ) / s → scaled_duration duration s = none) := by
  have hnum : 0 < s.num := Rat.num_pos.mpr hs
  have hn0 : ¬ s.num = 0 := by omega
  have hnn : ¬ s.num < 0 := by omega
  have hD : 0 < s.num.natAbs := by omega
  have hq : (duration : ℚ) / s = ((duration * s.den : ℕ) : ℚ) / (s.num.natAbs : ℕ) := by
    have e1 : ((s.num.natAbs : ℕ) : ℚ) = (s.num : ℚ) := by
      obtain ⟨k, hk⟩ := Int.eq_ofNat_of_zero_le (le_of_lt hnum)
      rw [hk]
      simp
    have hden : (s.den : ℚ) ≠ 0 := by exact_mod_cast s.den_nz
    have hnumq : (s.num : ℚ) ≠ 0 := by exact_mod_cast hn0
    rw [e1]
    nth_rewrite 1 [← Rat.num_div_den s]
    push_cast
    field_simp
  have hfl2 : Nat.floor (((duration * s.den : ℕ) : ℚ) / (s.num.natAbs : ℕ)) =
      duration * s.den / s.num.natAbs := Nat.floor_div_eq_div _ _
  have hfl : Nat.floor ((duration : ℚ) / s) = duration * s.den / s.num.natAbs := by
    rw [hq]
    exact hfl2
  by_cases hd0 : duration = 0
  · subst hd0
    refine ⟨fun t ht => ?_, fun _ => ⟨0, by simp [scaled_duration, hn0]⟩, fun h => ?_⟩
    · simp only [scaled_duration, if_neg hn0, if_true, Option.some.injEq] at ht
      subst ht
      simp
    · simp only [Nat.cast_zero, zero_div] at h
      exact absurd h (by norm_num)
  · have hn : 0 < duration * s.den := Nat.mul_pos (by omega) s.den_pos
    have hnear := double_integer_part_near (duration * s.den) s.num.natAbs hn hD
    have hsd : scaled_duration duration s =
        if double_integer_part (double_quotient (duration * s.den) s.num.natAbs) < 2 ^ 32
        then some (double_integer_part (double_quotient (duration * s.den) s.num.natAbs))
        else none := by
      simp only [scaled_duration, if_neg hn0, if_neg hd0, if_neg hnn]
    rw [hsd, hfl]
    generalize double_integer_part (double_quotient (duration * s.den) s.num.natAbs) = T at hnear
    refine ⟨fun t ht => ?_, fun h => ?_, fun h => ?_⟩
    · split_ifs at ht with h1
      · simp only [Option.some.injEq] at ht
        subst ht
        have := hnear (Or.inl (by omega))
        exact ⟨h1, this.1, this.2⟩
    · rw [hq] at h
      have hz : ((duration * s.den / s.num.natAbs : ℕ) : ℚ) ≤
          ((duration * s.den : ℕ) : ℚ) / (s.num.natAbs : ℕ) := by
        rw [← hfl2]
        exact Nat.floor_le (by positivity)
      have : ((duration * s.den / s.num.natAbs : ℕ) : ℚ) < ((2 ^ 32 - 1 : ℕ) : ℚ) := by
        push_cast
        linarith
      have h3 := Nat.cast_lt.mp this
      have := hnear (Or.inr (by omega))
      exact ⟨T, by rw [if_pos (by omega)]⟩
    · rw [hq] at h
      have hz : ((duration * s.den : ℕ) : ℚ) / (s.num.natAbs : ℕ) <
          ((duration * s.den / s.num.natAbs : ℕ) : ℚ) + 1 := by
        rw [← hfl2]
        exact Nat.lt_floor_add_one _
      have : ((2 ^ 32 : ℕ) : ℚ) < ((duration * s.den / s.num.natAbs + 1 : ℕ) : ℚ) := by
        push_cast
        linarith
      have h3 := Nat.cast_lt.mp this
      rw [if_neg]
      intro h4
      have := hnear (Or.inl (by omega))
      omega

/-- Samples of the scaled duration. The binary64 numbers nearest to 0.1, 0.2 and 1.1, which are
the values of the texts "0.1", "0.2" and "1.1", are the roundings that `double_quotient` gives
for 1/10, 2/10 and 11/10. A note of 440 ms at speed 1.1 is programmed with 399 ms, one of 200 ms
at speed 0.1 with 2000 ms and one of 100 ms at speed 0.2 with 500 ms; at speed 1 the duration is
unchanged and at speed 2 a duration of 301 ms becomes 150 ms. The scaled duration has no value at
speed 0, at the speed `2 ^ (-40)` for 1000 ms, and at speed -1 for 1 ms. -/
theorem scaled_duration_samples :
    double_quotient 1 10 = (7205759403792794, -56) ∧
    DOUBLE_0_1 = 7205759403792794 / 2 ^ 56 ∧
    double_quotient 2 10 = (7205759403792794, -55) ∧
    demo_speed_fifth = 7205759403792794 / 2 ^ 55 ∧
    double_quotient 11 10 = (4953959590107546, -52) ∧
    demo_speed_1_1 = 4953959590107546 / 2 ^ 52 ∧
    scaled_duration 440 demo_speed_1_1 = some 399 ∧
    scaled_duration 200 DOUBLE_0_1 = some 2000 ∧
    scaled_duration 100 demo_speed_fifth = some 500 ∧
    scaled_duration 300 1 = some 300 ∧
    scaled_duration 301 2 = some 150 ∧
    scaled_duration 4294967295 1 = some 4294967295 ∧
    scaled_duration 0 2 = some 0 ∧
    scaled_duration 1000 0 = none ∧
    scaled_duration 1000 demo_speed_tiny = none ∧
    scaled_duration 1 (-1) = none := by
  refine ⟨by decide, by norm_num [DOUBLE_0_1], by decide, by norm_num [demo_speed_fifth],
    by decide, by norm_num [demo_speed_1_1], by decide, by decide, by decide, by decide,
    by decide, by decide, by decide, by decide, by decide, by decide⟩

/-! ## The buzzer FSM: a melody played through -/

theorem buzzer_note_end_step (v : world)
    (hs : v.buzzer.current_state = FSM_BUZZER.WAIT_NOTE)
    (hid : v.buzzer.buzzer_id = BUZZER_0_ID) :
    fsm_buzzer_fire (TIM2_IRQHandler v) =
      some (buzzer_set_state FSM_BUZZER.PLAY_NOTE (do_note_end (TIM2_IRQHandler v))) := by
  rw [buzzer_fire_from_wait_note _ (by simpa [TIM2_IRQHandler] using hs)]
  simp [check_note_end, port_buzzer_get_note_timeout, TIM2_IRQHandler, hid]

theorem buzzer_round_next_note (v : world) (m : melody_t) (s : ℚ) (j : Nat)
    (hb : v.buzzer = ⟨FSM_BUZZER.WAIT_NOTE, some m, j + 1, BUZZER_0_ID, USER_ACTIONS.PLAY, s⟩)
    (hwf : melody_wf m) (hj : j + 1 < m.melody_length) :
    ∃ v1, buzzer_note_round v = some v1 ∧
      v1.buzzer = ⟨FSM_BUZZER.WAIT_NOTE, some m, j + 2, BUZZER_0_ID, USER_ACTIONS.PLAY, s⟩ ∧
      v1.buzzer_calls = v.buzzer_calls ++
        [ port_buzzer_call.stop BUZZER_0_ID,
          port_buzzer_call.set_note_duration BUZZER_0_ID
            (scaled_duration (m.p_durations.getD (j + 1) 0) s),
          port_buzzer_call.set_note_frequency BUZZER_0_ID (m.p_notes.getD (j + 1) 0) ] := by
  have h1 := buzzer_note_end_step v (by rw [hb]) (by rw [hb])
  obtain ⟨v1, h2, h3, h4, _⟩ := buzzer_start_note_step
    (buzzer_set_state FSM_BUZZER.PLAY_NOTE (do_note_end (TIM2_IRQHandler v))) m
    (by simp [buzzer_set_state])
    (by simp [buzzer_set_state, do_note_end, port_buzzer_stop, TIM2_IRQHandler, hb])
    (by simp [buzzer_set_state, do_note_end, port_buzzer_stop, TIM2_IRQHandler, hb])
    hwf
    (by simpa [buzzer_set_state, do_note_end, port_buzzer_stop, TIM2_IRQHandler, hb] using hj)
  refine ⟨v1, by simp [buzzer_note_round, h1, h2], ?_, ?_⟩
  · rw [h3]
    simp [buzzer_set_state, do_note_end, port_buzzer_stop, TIM2_IRQHandler, hb]
  · rw [h4]
    simp [buzzer_set_state, do_note_end, port_buzzer_stop, TIM2_IRQHandler, hb]

theorem buzzer_end_melody_step (v : world) (m : melody_t)
    (hs : v.buzzer.current_state = FSM_BUZZER.PLAY_NOTE)
    (hm : v.buzzer.p_melody = some m)
    (hidx : v.buzzer.note_index ≥ m.melody_length) :
    fsm_buzzer_fire v = some (buzzer_set_state FSM_BUZZER.WAIT_MELODY (do_end_melody v)) := by
  have h1 : ¬ (v.buzzer.note_index < m.melody_length ∧
      v.buzzer.user_action = USER_ACTIONS.PLAY) := by omega
  rw [buzzer_fire_from_play_note v m hs hm, if_neg h1, if_pos hidx]

theorem buzzer_round_last_note (v : world) (m : melody_t) (s : ℚ)
    (hb : v.buzzer = ⟨FSM_BUZZER.WAIT_NOTE, some m, m.melody_length, BUZZER_0_ID,
      USER_ACTIONS.PLAY, s⟩) :
    ∃ v1, buzzer_note_round v = some v1 ∧
      v1.buzzer = ⟨FSM_BUZZER.WAIT_MELODY, some m, 0, BUZZER_0_ID, USER_ACTIONS.STOP, s⟩ ∧
      v1.buzzer_calls = v.buzzer_calls ++
        [port_buzzer_call.stop BUZZER_0_ID, port_buzzer_call.stop BUZZER_0_ID] := by
  have h1 := buzzer_note_end_step v (by rw [hb]) (by rw [hb])
  have h2 := buzzer_end_melody_step
    (buzzer_set_state FSM_BUZZER.PLAY_NOTE (do_note_end (TIM2_IRQHandler v))) m
    (by simp [buzzer_set_state])
    (by simp [buzzer_set_state, do_note_end, port_buzzer_stop, TIM2_IRQHandler, hb])
    (by simp [buzzer_set_state, do_note_end, port_buzzer_stop, TIM2_IRQHandler, hb])
  refine ⟨buzzer_set_state FSM_BUZZER.WAIT_MELODY
      (do_end_melody (buzzer_set_state FSM_BUZZER.PLAY_NOTE (do_note_end (TIM2_IRQHandler v)))),
    by simp only [buzzer_note_round, h1, Option.some_bind, h2], ?_, ?_⟩
  · simp [buzzer_set_state, do_end_melody, do_note_end, port_buzzer_stop, TIM2_IRQHandler, hb]
  · simp [buzzer_set_state, do_end_melody, do_note_end, port_buzzer_stop, TIM2_IRQHandler, hb]

theorem buzzer_rounds_started (v0 : world) (m : melody_t) (s : ℚ) (init : List port_buzzer_call)
    (hb : v0.buzzer = ⟨FSM_BUZZER.WAIT_NOTE, some m, 1, BUZZER_0_ID, USER_ACTIONS.PLAY, s⟩)
    (hc : v0.buzzer_calls = init ++
      [ port_buzzer_call.set_note_duration BUZZER_0_ID
          (scaled_duration (m.p_durations.getD 0 0) s),
        port_buzzer_call.set_note_frequency BUZZER_0_ID (m.p_notes.getD 0 0) ])
    (hwf : melody_wf m) (j : Nat) (hj : j < m.melody_length) :
    ∃ vj, buzzer_rounds j v0 = some vj ∧
      vj.buzzer = ⟨FSM_BUZZER.WAIT_NOTE, some m, j + 1, BUZZER_0_ID, USER_ACTIONS.PLAY, s⟩ ∧
      vj.buzzer_calls = init ++ (List.range j).flatMap (note_calls m s BUZZER_0_ID) ++
        [ port_buzzer_call.set_note_duration BUZZER_0_ID
            (scaled_duration (m.p_durations.getD j 0) s),
          port_buzzer_call.set_note_frequency BUZZER_0_ID (m.p_notes.getD j 0) ] := by
  induction j with
  | zero => exact ⟨v0, rfl, hb, by simpa using hc⟩
  | succ j ih =>
    obtain ⟨vj, hrun, hbj, hcj⟩ := ih (by omega)
    obtain ⟨v1, h1, h2, h3⟩ := buzzer_round_next_note vj m s j hbj hwf hj
    refine ⟨v1, by simp only [buzzer_rounds, hrun, Option.some_bind, h1], h2, ?_⟩
    rw [h3, hcj, List.range_succ, List.flatMap_append]
    simp [note_calls]

theorem duration_calls_append (l1 l2 : List port_buzzer_call) :
    duration_calls (l1 ++ l2) = duration_calls l1 ++ duration_calls l2 := by
  induction l1 with
  | nil => rfl
  | cons c r ih => cases c <;> simp [duration_calls, ih]

theorem duration_calls_notes (m : melody_t) (s : ℚ) (id n : Nat) :
    duration_calls ((List.range n).flatMap (note_calls m s id)) =
      (List.range n).map (fun i => scaled_duration (m.p_durations.getD i 0) s) := by
  induction n with
  | zero => rfl
  | succ n ih =>
    rw [List.range_succ, List.flatMap_append, duration_calls_append, ih]
    simp [note_calls, duration_calls]

theorem scaled_duration_lt (duration : Nat) (player_speed : ℚ) (t : Nat)
    (h : scaled_duration duration player_speed = some t) : t < 2 ^ 32 := by
  simp only [scaled_duration] at h
  split_ifs at h with h1 h2 h3 h4 h5
  · cases h
    decide
  · cases h
    decide
  · cases h
    exact h5

/-- C13, as amended: a well-formed melody of `n ≥ 1` notes is played from `WAIT_START` with action
`PLAY`, note index 0 and a constant speed `s > 0` on buzzer 0: one fire, then `n` note periods
(the note timer elapses, two fires). The run ends in `WAIT_MELODY` and the calls it makes to the
port are, for `i = 0, ..., n - 1` in this order, the duration of note `i`, its frequency and the
stop that ends the note, followed by the stop of the end of the melody; so there are exactly `n`
set-note-duration calls. The `i`-th duration is `scaled_duration d_i s`: the binary64 quotient of
`d_i` by `s`, rounded to nearest, without its fraction. When it has a value, the value is below
`2 ^ 32` and is `⌊d_i / s⌋` or `⌊d_i / s⌋ + 1`; it has a value when `d_i / s < 2 ^ 32 - 1` and
has none when `d_i / s ≥ 2 ^ 32`. -/
theorem melody_timing (w : world) (m : melody_t) (s : ℚ)
    (hb : w.buzzer = ⟨FSM_BUZZER.WAIT_START, some m, 0, BUZZER_0_ID, USER_ACTIONS.PLAY, s⟩)
    (hwf : melody_wf m) (hn : 1 ≤ m.melody_length) (hs : 0 < s) :
    ∃ wf, buzzer_play m.melody_length w = some wf ∧
      wf.buzzer.current_state = FSM_BUZZER.WAIT_MELODY ∧
      wf.buzzer_calls = w.buzzer_calls ++
        (List.range m.melody_length).flatMap (note_calls m s BUZZER_0_ID) ++
        [port_buzzer_call.stop BUZZER_0_ID] ∧
      duration_calls ((List.range m.melody_length).flatMap (note_calls m s BUZZER_0_ID) ++
          [port_buzzer_call.stop BUZZER_0_ID]) =
        (List.range m.melody_length).map
          (fun i => scaled_duration (m.p_durations.getD i 0) s) ∧
      (duration_calls ((List.range m.melody_length).flatMap (note_calls m s BUZZER_0_ID) ++
          [port_buzzer_call.stop BUZZER_0_ID])).length = m.melody_length ∧
      (∀ i t, scaled_duration (m.p_durations.getD i 0) s = some t →
        t < 2 ^ 32 ∧ Nat.floor ((m.p_durations.getD i 0 : ℚ) / s) ≤ t ∧
        t ≤ Nat.floor ((m.p_durations.getD i 0 : ℚ) / s) + 1) ∧
      (∀ i, (m.p_durations.getD i 0 : ℚ) / s < 2 ^ 32 - 1 →
        ∃ t, scaled_duration (m.p_durations.getD i 0) s = some t) ∧
      (∀ i, (2 : ℚ) ^ 32 ≤ (m.p_durations.getD i 0 : ℚ) / s →
        scaled_duration (m.p_durations.getD i 0) s = none) := by
  obtain ⟨hf, hd, _⟩ := melody_wf_note m hwf 0 (by omega)
  have hfire := buzzer_fire_melody_start w m _ _ (Or.inl (by rw [hb])) (by rw [hb]) (by rw [hb])
    hf hd (by rw [hb]; exact (by decide : (0 : Nat) + 1 < UINT32_MOD))
  obtain ⟨vj, hrun, hbj, hcj⟩ := buzzer_rounds_started
    (buzzer_set_state FSM_BUZZER.WAIT_NOTE
      (_start_note (m.p_notes.getD 0 0) (m.p_durations.getD 0 0)
        { w with buzzer := { w.buzzer with note_index := w.buzzer.note_index + 1 } }))
    m s w.buzzer_calls
    (by simp [buzzer_set_state, _start_note, port_buzzer_set_note_duration,
        port_buzzer_set_note_frequency, hb])
    (by simp [buzzer_set_state, _start_note, port_buzzer_set_note_duration,
        port_buzzer_set_note_frequency, hb])
    hwf (m.melody_length - 1) (by omega)
  have hidx : m.melody_length - 1 + 1 = m.melody_length := by omega
  rw [hidx] at hbj
  obtain ⟨v1, h1, h2, h3⟩ := buzzer_round_last_note vj m s hbj
  have hdur := duration_calls_notes m s BUZZER_0_ID m.melody_length
  refine ⟨v1, ?_, by rw [h2], ?_, ?_, ?_, fun i t ht => (scaled_duration_spec _ s hs).1 t ht,
    fun i h => (scaled_duration_spec _ s hs).2.1 h, fun i h => (scaled_duration_spec _ s hs).2.2 h⟩
  · have hrounds : buzzer_rounds m.melody_length
        (buzzer_set_state FSM_BUZZER.WAIT_NOTE
          (_start_note (m.p_notes.getD 0 0) (m.p_durations.getD 0 0)
            { w with buzzer := { w.buzzer with note_index := w.buzzer.note_index + 1 } })) =
        some v1 := by
      rw [← hidx]
      simp only [buzzer_rounds, hrun, Option.some_bind, h1]
    simp only [buzzer_play, hfire, Option.some_bind, hrounds]
  · rw [h3, hcj]
    have hr : List.range m.melody_length =
        List.range (m.melody_length - 1) ++ [m.melody_length - 1] := by
      rw [← List.range_succ]
      congr 1
      omega
    rw [hr, List.flatMap_append]
    simp [note_calls]
  · rw [duration_calls_append, hdur]
    simp [duration_calls]
  · rw [duration_calls_append, hdur]
    simp [duration_calls]

/-- C13, closed instance: the sample scale (durations 200, 200, 400 ms) at speed 2 is programmed
with the durations 100, 100 and 200. -/
theorem melody_timing_witness :
    (∃ wf, buzzer_play 3
        { demo_world with buzzer := ⟨.WAIT_START, some demo_scale, 0, 0, .PLAY, 2⟩ } = some wf ∧
      wf.buzzer.current_state = FSM_BUZZER.WAIT_MELODY ∧
      wf.buzzer_calls = [] ++ (List.range 3).flatMap (note_calls demo_scale 2 0) ++
        [port_buzzer_call.stop 0] ∧
      duration_calls ((List.range 3).flatMap (note_calls demo_scale 2 0) ++
          [port_buzzer_call.stop 0]) =
        (List.range 3).map
          (fun i => scaled_duration (demo_scale.p_durations.getD i 0) 2) ∧
      (duration_calls ((List.range 3).flatMap (note_calls demo_scale 2 0) ++
          [port_buzzer_call.stop 0])).length = 3) ∧
    (List.range 3).map (fun i => scaled_duration (demo_scale.p_durations.getD i 0) 2) =
      [some 100, some 100, some 200] :=
  ⟨(melody_timing { demo_world with buzzer := ⟨.WAIT_START, some demo_scale, 0, 0, .PLAY, 2⟩ }
    demo_scale 2 rfl ⟨rfl, rfl, by decide⟩ (by decide) (by norm_num)).elim
      fun wf h => ⟨wf, h.1, h.2.1, h.2.2.1, h.2.2.2.1, h.2.2.2.2.1⟩, by decide⟩

/-- C13, counterexample: the speed is the binary64 number nearest to 0.1 (the value of the text
"0.1") and the melody has one note of 200 ms. The truncated quotient `⌊200 / s⌋` is 1999, since
`200 / s` is less than 2000, but the division of the code rounds the quotient to the double 2000
and the duration passed to the port is 2000. With the binary64 number nearest to 1.1 and a note
of 440 ms the duration passed to the port is 399, and not the `⌊440 / 1.1⌋ = 400` of the decimal
number. At the speed `2 ^ (-40)` and a note of 1000 ms the quotient is above `2 ^ 32` and the
duration passed to the port has no value. -/
theorem melody_timing_rounding_counterexample :
    0 < DOUBLE_0_1 ∧
    (buzzer_play 1 { demo_world with
        buzzer := ⟨.WAIT_START, some ⟨[440], [200], 1, none⟩, 0, 0, .PLAY, DOUBLE_0_1⟩ }).map
        (fun v => duration_calls v.buzzer_calls) = some [some 2000] ∧
    Nat.floor ((200 : ℚ) / DOUBLE_0_1) = 1999 ∧
    0 < demo_speed_1_1 ∧
    (buzzer_play 1 { demo_world with
        buzzer := ⟨.WAIT_START, some ⟨[440], [440], 1, none⟩, 0, 0, .PLAY, demo_speed_1_1⟩ }).map
        (fun v => duration_calls v.buzzer_calls) = some [some 399] ∧
    Nat.floor ((440 : ℚ) / (11 / 10)) = 400 ∧
    0 < demo_speed_tiny ∧
    (buzzer_play 1 { demo_world with
        buzzer := ⟨.WAIT_START, some ⟨[440], [1000], 1, none⟩, 0, 0, .PLAY, demo_speed_tiny⟩ }).map
        (fun v => duration_calls v.buzzer_calls) = some [none] ∧
    (2 : ℚ) ^ 32 ≤ 1000 / demo_speed_tiny := by
  refine ⟨by norm_num [DOUBLE_0_1], by decide, ?_, by norm_num [demo_speed_1_1], by decide,
    ?_, by norm_num [demo_speed_tiny], by decide, by norm_num [demo_speed_tiny]⟩
  · rw [Nat.floor_eq_iff (by norm_num [DOUBLE_0_1])]
    norm_num [DOUBLE_0_1]
  · rw [Nat.floor_eq_iff (by norm_num)]
    norm_num

/-! ## The jukebox: wake-up, power on, start-up, power off, next-song press -/

/-- C21: in `SLEEP_WHILE_ON` (in `SLEEP_WHILE_OFF`), when the button FSM, the buzzer FSM or the
USART FSM reports activity, one fire of the jukebox returns the machine state with the current
state of the jukebox set to `WAIT_COMMAND` (to `OFF`) and nothing else written: selected index,
displayed name, thresholds, the button, buzzer and USART objects, the port state and the sleep
counter and SysTick bit written by `port_system_sleep` are as before. -/
theorem wake_from_sleep_changes_state_only (atof : List Nat → ℚ) (garbage : Nat → Nat)
    (w : world)
    (ha : fsm_button_check_activity w.button = true ∨ fsm_buzzer_check_activity w.buzzer = true ∨
      fsm_usart_check_activity w.usart = true) :
    (w.jukebox.current_state = FSM_JUKEBOX.SLEEP_WHILE_ON →
      fsm_jukebox_fire atof garbage w = some (jukebox_set_state FSM_JUKEBOX.WAIT_COMMAND w)) ∧
    (w.jukebox.current_state = FSM_JUKEBOX.SLEEP_WHILE_OFF →
      fsm_jukebox_fire atof garbage w = some (jukebox_set_state FSM_JUKEBOX.OFF w)) ∧
    (∀ s : FSM_JUKEBOX,
      (jukebox_set_state s w).jukebox = { w.jukebox with current_state := s } ∧
      (jukebox_set_state s w).jukebox.melody_idx = w.jukebox.melody_idx ∧
      (jukebox_set_state s w).jukebox.p_melody = w.jukebox.p_melody ∧
      (jukebox_set_state s w).jukebox.on_off_press_time_ms = w.jukebox.on_off_press_time_ms ∧
      (jukebox_set_state s w).jukebox.next_song_press_time_ms =
        w.jukebox.next_song_press_time_ms ∧
      (jukebox_set_state s w).button = w.button ∧
      (jukebox_set_state s w).buzzer = w.buzzer ∧
      (jukebox_set_state s w).usart = w.usart ∧
      (jukebox_set_state s w).usart_arr = w.usart_arr ∧
      (jukebox_set_state s w).buttons_arr = w.buttons_arr ∧
      (jukebox_set_state s w).buzzers_arr = w.buzzers_arr ∧
      (jukebox_set_state s w).buzzer_calls = w.buzzer_calls ∧
      (jukebox_set_state s w).msTicks = w.msTicks ∧
      (jukebox_set_state s w).tickint = w.tickint ∧
      (jukebox_set_state s w).wfi_count = w.wfi_count) := by
  have hact : check_activity w = true := by
    simp only [check_activity, Bool.or_eq_true]
    rcases ha with h | h | h
    · exact Or.inl (Or.inl h)
    · exact Or.inl (Or.inr h)
    · exact Or.inr h
  have hna : check_no_activity w = false := by simp [check_no_activity, hact]
  refine ⟨fun hs => ?_, fun hs => ?_, fun s => ?_⟩
  · simp [fsm_jukebox_fire, fms_trans_jukebox, fsm_fire, hs, hna, hact]
  · simp [fsm_jukebox_fire, fms_trans_jukebox, fsm_fire, hs, hna, hact]
  · simp [jukebox_set_state]

/-- C21, closed instance: the sample state asleep in `SLEEP_WHILE_ON` with a received line
pending in the USART FSM. -/
theorem wake_from_sleep_changes_state_only_witness :
    fsm_jukebox_fire demo_atof demo_garbage
        (jukebox_set_state FSM_JUKEBOX.SLEEP_WHILE_ON (demo_received [110, 0, 0, 0, 0, 0, 0, 0, 0, 0]))
      = some (jukebox_set_state FSM_JUKEBOX.WAIT_COMMAND
          (jukebox_set_state FSM_JUKEBOX.SLEEP_WHILE_ON
            (demo_received [110, 0, 0, 0, 0, 0, 0, 0, 0, 0]))) :=
  (wake_from_sleep_changes_state_only demo_atof demo_garbage
    (jukebox_set_state FSM_JUKEBOX.SLEEP_WHILE_ON (demo_received [110, 0, 0, 0, 0, 0, 0, 0, 0, 0]))
    (Or.inr (Or.inr rfl))).1 rfl

/-- C22: in `OFF`, one fire of the jukebox is defined, and it ends in `START_UP` exactly when the
stored press duration is above `on_off_press_time_ms`; the fire then is `do_start_up` followed by
the move to `START_UP`: the button duration is 0, the speed of the buzzer is 1 whatever it was,
the melody of the buzzer is slot 0 of the library, its action is `PLAY`, the receive interrupt is
enabled, and the jukebox selection is as before. -/
theorem off_to_start_up (atof : List Nat → ℚ) (garbage : Nat → Nat) (w : world)
    (hs : w.jukebox.current_state = FSM_JUKEBOX.OFF) :
    (∃ w1, fsm_jukebox_fire atof garbage w = some w1 ∧
      (w1.jukebox.current_state = FSM_JUKEBOX.START_UP ↔
        w.button.duration > w.jukebox.on_off_press_time_ms)) ∧
    (w.button.duration > w.jukebox.on_off_press_time_ms →
      ∃ w1, fsm_jukebox_fire atof garbage w = some w1 ∧
        w1 = jukebox_set_state FSM_JUKEBOX.START_UP (do_start_up w) ∧
        w1.jukebox.current_state = FSM_JUKEBOX.START_UP ∧
        w1.button.duration = 0 ∧
        w1.buzzer.player_speed = 1 ∧
        w1.buzzer.p_melody = some (w.jukebox.melodies slot0) ∧
        w1.buzzer.user_action = USER_ACTIONS.PLAY ∧
        w1.buzzer.note_index = w.buzzer.note_index ∧
        w1.buzzer.current_state = w.buzzer.current_state ∧
        w1.usart_arr.CR1_RXNEIE = true ∧
        w1.usart = w.usart ∧
        w1.jukebox.melody_idx = w.jukebox.melody_idx ∧
        w1.jukebox.p_melody = w.jukebox.p_melody) := by
  by_cases hd : w.button.duration > w.jukebox.on_off_press_time_ms
  · have hpos : w.button.duration > 0 := by omega
    have hfire : fsm_jukebox_fire atof garbage w =
        some (jukebox_set_state FSM_JUKEBOX.START_UP (do_start_up w)) := by
      simp [fsm_jukebox_fire, fms_trans_jukebox, fsm_fire, hs, check_on,
        fsm_button_get_duration, hd, hpos]
    refine ⟨⟨_, hfire, ?_⟩, fun _ => ⟨_, hfire, rfl, rfl, rfl, rfl, rfl, ?_, ?_, rfl, rfl, rfl,
      rfl, rfl⟩⟩
    · simp [jukebox_set_state, hd]
    · simp [jukebox_set_state, do_start_up, fsm_buzzer_set_action, fsm_buzzer_set_melody,
        fsm_buzzer_set_speed]
    · simp [jukebox_set_state, do_start_up, fsm_buzzer_set_action, fsm_buzzer_set_melody,
        fsm_buzzer_set_speed]
  · have hon : check_on w = false := by
      simp only [check_on, fsm_button_get_duration, Bool.and_eq_false_iff,
        decide_eq_false_iff_not]
      exact Or.inr hd
    refine ⟨?_, fun h => absurd h hd⟩
    cases hna : check_no_activity w with
    | true =>
      refine ⟨jukebox_set_state FSM_JUKEBOX.SLEEP_WHILE_OFF (do_sleep w), ?_, ?_⟩
      · simp [fsm_jukebox_fire, fms_trans_jukebox, fsm_fire, hs, hon, hna]
      · simp [jukebox_set_state, hd]
    | false =>
      refine ⟨w, ?_, ?_⟩
      · simp [fsm_jukebox_fire, fms_trans_jukebox, fsm_fire, hs, hon, hna]
      · simp [hs, hd]

/-- C22, closed instance: the sample state switched off, with a stored press of 1500 ms against
the threshold of 1001 ms and a buzzer speed of 2. -/
theorem off_to_start_up_witness :
    ∃ w1, fsm_jukebox_fire demo_atof demo_garbage
        { jukebox_set_state FSM_JUKEBOX.OFF demo_world with
          button := { demo_world.button with duration := 1500 },
          buzzer := { demo_world.buzzer with player_speed := 2 } } = some w1 ∧
      w1.jukebox.current_state = FSM_JUKEBOX.START_UP ∧
      w1.button.duration = 0 ∧
      w1.buzzer.player_speed = 1 ∧
      w1.buzzer.p_melody = some demo_scale ∧
      w1.buzzer.user_action = USER_ACTIONS.PLAY :=
  have h := (off_to_start_up demo_atof demo_garbage
    { jukebox_set_state FSM_JUKEBOX.OFF demo_world with
      button := { demo_world.button with duration := 1500 },
      buzzer := { demo_world.buzzer with player_speed := 2 } } rfl).2 (by decide)
  h.elim fun w1 hw => ⟨w1, hw.1, hw.2.2.1, hw.2.2.2.1, hw.2.2.2.2.1, hw.2.2.2.2.2.1,
    hw.2.2.2.2.2.2.1⟩

/-- C23: in `START_UP`, one fire of the jukebox is defined, and it ends in `WAIT_COMMAND` exactly
when the requested action of the buzzer is `STOP`; the fire then is `do_start_jukebox` followed
by the move to `WAIT_COMMAND`: the selected index is 0, the displayed name is the name of slot 0,
and the buzzer object (state, melody, action, note index, speed), the button and USART objects
and the port state are as before; with another action the fire changes nothing. -/
theorem start_up_to_wait_command (atof : List Nat → ℚ) (garbage : Nat → Nat) (w : world)
    (hs : w.jukebox.current_state = FSM_JUKEBOX.START_UP) :
    (∃ w1, fsm_jukebox_fire atof garbage w = some w1 ∧
      (w1.jukebox.current_state = FSM_JUKEBOX.WAIT_COMMAND ↔
        w.buzzer.user_action = USER_ACTIONS.STOP)) ∧
    (w.buzzer.user_action = USER_ACTIONS.STOP →
      ∃ w1, fsm_jukebox_fire atof garbage w = some w1 ∧
        w1 = jukebox_set_state FSM_JUKEBOX.WAIT_COMMAND (do_start_jukebox w) ∧
        w1.jukebox.current_state = FSM_JUKEBOX.WAIT_COMMAND ∧
        w1.jukebox.melody_idx = 0 ∧
        w1.jukebox.p_melody = (w.jukebox.melodies slot0).p_name ∧
        w1.buzzer = w.buzzer ∧
        w1.buzzer_calls = w.buzzer_calls ∧
        w1.buzzers_arr = w.buzzers_arr ∧
        w1.button = w.button ∧
        w1.usart = w.usart ∧
        w1.usart_arr = w.usart_arr) ∧
    (w.buzzer.user_action ≠ USER_ACTIONS.STOP → fsm_jukebox_fire atof garbage w = some w) := by
  by_cases hz : w.buzzer.user_action = USER_ACTIONS.STOP
  · have hg : check_melody_finished w = true := by
      simp [check_melody_finished, fsm_buzzer_get_action, hz]
    have hfire : fsm_jukebox_fire atof garbage w =
        some (jukebox_set_state FSM_JUKEBOX.WAIT_COMMAND (do_start_jukebox w)) := by
      simp [fsm_jukebox_fire, fms_trans_jukebox, fsm_fire, hs, hg]
    refine ⟨⟨_, hfire, ?_⟩, fun _ => ⟨_, hfire, rfl, rfl, rfl, rfl, rfl, rfl, rfl, rfl, rfl,
      rfl⟩, fun h => absurd hz h⟩
    simp [jukebox_set_state, hz]
  · have hg : check_melody_finished w = false := by
      simp only [check_melody_finished, fsm_buzzer_get_action, beq_eq_false_iff_ne]
      exact fun h => hz h.symm
    have hfire : fsm_jukebox_fire atof garbage w = some w := by
      simp [fsm_jukebox_fire, fms_trans_jukebox, fsm_fire, hs, hg]
    refine ⟨⟨_, hfire, ?_⟩, fun h => absurd h hz, fun _ => hfire⟩
    simp [hs, hz]

/-- C23, closed instance: the sample state in `START_UP` with selected index 2 and the buzzer
stopped. -/
theorem start_up_to_wait_command_witness :
    ∃ w1, fsm_jukebox_fire demo_atof demo_garbage
        { demo_world with jukebox :=
          { demo_world.jukebox with current_state := FSM_JUKEBOX.START_UP, melody_idx := 2 } } =
        some w1 ∧
      w1.jukebox.current_state = FSM_JUKEBOX.WAIT_COMMAND ∧
      w1.jukebox.melody_idx = 0 ∧
      w1.jukebox.p_melody = some [83, 99, 97, 108, 101] ∧
      w1.buzzer = demo_world.buzzer :=
  have h := (start_up_to_wait_command demo_atof demo_garbage
    { demo_world with jukebox :=
      { demo_world.jukebox with current_state := FSM_JUKEBOX.START_UP, melody_idx := 2 } }
    rfl).2.1 rfl
  h.elim fun w1 hw => ⟨w1, hw.1, hw.2.2.1, hw.2.2.2.1, hw.2.2.2.2.1, hw.2.2.2.2.2.1⟩

/-- C24: in `WAIT_COMMAND` with a stored press duration above `on_off_press_time_ms`, one fire of
the jukebox is `do_stop_jukebox` followed by the move to `OFF`: the button duration is 0, the
action of the buzzer is `STOP` and its note index 0, both USART interrupts are disabled. The
guard `check_on` is then false; more generally, in `OFF` with a stored duration of 0 a fire of
the jukebox is defined and does not end in `START_UP`, and a fire of the button FSM keeps the
stored duration unless it is the fire that sees the release of a press (from `BUTTON_PRESSED`
with the button flag cleared). -/
theorem power_off_resets_duration (atof : List Nat → ℚ) (garbage : Nat → Nat) (w : world)
    (hs : w.jukebox.current_state = FSM_JUKEBOX.WAIT_COMMAND)
    (hd : w.button.duration > w.jukebox.on_off_press_time_ms) :
    (∃ w1, fsm_jukebox_fire atof garbage w = some w1 ∧
      w1 = jukebox_set_state FSM_JUKEBOX.OFF (do_stop_jukebox w) ∧
      w1.jukebox.current_state = FSM_JUKEBOX.OFF ∧
      w1.button.duration = 0 ∧
      w1.buzzer.user_action = USER_ACTIONS.STOP ∧
      w1.buzzer.note_index = 0 ∧
      w1.usart_arr.CR1_RXNEIE = false ∧
      w1.usart_arr.CR1_TXEIE = false ∧
      check_on w1 = false ∧
      ∃ w2, fsm_jukebox_fire atof garbage w1 = some w2 ∧
        w2.jukebox.current_state ≠ FSM_JUKEBOX.START_UP) ∧
    (∀ v : world, v.jukebox.current_state = FSM_JUKEBOX.OFF → v.button.duration = 0 →
      ∃ v1, fsm_jukebox_fire atof garbage v = some v1 ∧
        v1.jukebox.current_state ≠ FSM_JUKEBOX.START_UP ∧ v1.button.duration = 0) ∧
    (∀ v : world, v.button.duration = 0 →
      ¬ (v.button.current_state = FSM_BUTTON.BUTTON_PRESSED ∧
        v.buttons_arr.flag_pressed = false) →
      ∃ v1, fsm_button_fire v = some v1 ∧ v1.button.duration = 0) := by
  have hpos : w.button.duration > 0 := by omega
  have hoff : ∀ v : world, v.jukebox.current_state = FSM_JUKEBOX.OFF → v.button.duration = 0 →
      ∃ v1, fsm_jukebox_fire atof garbage v = some v1 ∧
        v1.jukebox.current_state ≠ FSM_JUKEBOX.START_UP ∧ v1.button.duration = 0 := by
    intro v hv h0
    have hon : check_on v = false := by simp [check_on, fsm_button_get_duration, h0]
    cases hna : check_no_activity v with
    | true =>
      refine ⟨jukebox_set_state FSM_JUKEBOX.SLEEP_WHILE_OFF (do_sleep v), ?_, ?_, ?_⟩
      · simp [fsm_jukebox_fire, fms_trans_jukebox, fsm_fire, hv, hon, hna]
      · simp [jukebox_set_state]
      · simpa [jukebox_set_state, do_sleep, port_system_sleep] using h0
    | false =>
      refine ⟨v, ?_, ?_, h0⟩
      · simp [fsm_jukebox_fire, fms_trans_jukebox, fsm_fire, hv, hon, hna]
      · simp [hv]
  have hfire : fsm_jukebox_fire atof garbage w =
      some (jukebox_set_state FSM_JUKEBOX.OFF (do_stop_jukebox w)) := by
    simp [fsm_jukebox_fire, fms_trans_jukebox, fsm_fire, hs, check_off, check_on,
      fsm_button_get_duration, hd, hpos]
  refine ⟨⟨_, hfire, rfl, rfl, rfl, ?_, ?_, rfl, rfl, ?_, ?_⟩, hoff, ?_⟩
  · simp [jukebox_set_state, do_stop_jukebox, fsm_buzzer_set_action]
  · simp [jukebox_set_state, do_stop_jukebox, fsm_buzzer_set_action]
  · simp [check_on, fsm_button_get_duration, jukebox_set_state, do_stop_jukebox,
      fsm_button_reset_duration]
  · obtain ⟨w2, h2, h3, _⟩ := hoff (jukebox_set_state FSM_JUKEBOX.OFF (do_stop_jukebox w)) rfl rfl
    exact ⟨w2, h2, h3⟩
  · intro v h0 hrel
    obtain ⟨v1, h1, h2⟩ := button_fire_keeps_duration v hrel
    exact ⟨v1, h1, by omega⟩

/-- C24, closed instance: the sample state with a stored press of 1500 ms against the threshold
of 1001 ms, while a melody is playing at note 2. -/
theorem power_off_resets_duration_witness :
    ∃ w1, fsm_jukebox_fire demo_atof demo_garbage
        { demo_world with button := { demo_world.button with duration := 1500 },
                          buzzer := ⟨.WAIT_NOTE, some demo_scale, 2, 0, .PLAY, 1⟩ } = some w1 ∧
      w1.jukebox.current_state = FSM_JUKEBOX.OFF ∧
      w1.button.duration = 0 ∧
      w1.buzzer.user_action = USER_ACTIONS.STOP ∧
      w1.buzzer.note_index = 0 :=
  have h := (power_off_resets_duration demo_atof demo_garbage
    { demo_world with button := { demo_world.button with duration := 1500 },
                      buzzer := ⟨.WAIT_NOTE, some demo_scale, 2, 0, .PLAY, 1⟩ }
    rfl (by decide)).1
  h.elim fun w1 hw => ⟨w1, hw.1, hw.2.2.1, hw.2.2.2.1, hw.2.2.2.2.1, hw.2.2.2.2.2.1⟩

/-- C25: in `WAIT_COMMAND` with a stored press duration `d` such that
`next_song_press_time_ms < d < on_off_press_time_ms`, one fire of the jukebox is
`do_load_next_song` followed by the move to `WAIT_COMMAND`: the selection moves to the slot after
the selected one modulo 10 when that slot has notes and to slot 0 otherwise, the displayed name
and the melody of the buzzer are those of the new slot, the buzzer has note index 0 and action
`PLAY`, which are the jukebox record and buzzer object that the command "next" leaves, and the
button duration is 0, so that the guard `check_next_song_button` is false afterwards. -/
theorem next_song_press_advances_once (atof : List Nat → ℚ) (garbage : Nat → Nat) (w : world)
    (hs : w.jukebox.current_state = FSM_JUKEBOX.WAIT_COMMAND)
    (h1 : w.jukebox.next_song_press_time_ms < w.button.duration)
    (h2 : w.button.duration < w.jukebox.on_off_press_time_ms) :
    ∃ w1 k, fsm_jukebox_fire atof garbage w = some w1 ∧
      w1 = jukebox_set_state FSM_JUKEBOX.WAIT_COMMAND (do_load_next_song w) ∧
      w1.jukebox.current_state = FSM_JUKEBOX.WAIT_COMMAND ∧
      k.val = (if (w.jukebox.melodies ⟨(w.jukebox.melody_idx + 1) % MELODIES_MEMORY_SIZE,
                    Nat.mod_lt _ (by decide)⟩).melody_length ≠ 0
                then (w.jukebox.melody_idx + 1) % MELODIES_MEMORY_SIZE else 0) ∧
      w1.jukebox.melody_idx = k.val ∧
      w1.jukebox.p_melody = (w.jukebox.melodies k).p_name ∧
      w1.buzzer.p_melody = some (w.jukebox.melodies k) ∧
      w1.buzzer.note_index = 0 ∧
      w1.buzzer.user_action = USER_ACTIONS.PLAY ∧
      w1.button.duration = 0 ∧
      w1.usart = w.usart ∧
      (∀ p : List Nat, ∃ v, _execute_command atof garbage w str_next p = some v ∧
        w1.jukebox = v.jukebox ∧ w1.buzzer = v.buzzer) ∧
      check_next_song_button w1 = false := by
  have hpos : w.button.duration > 0 := by omega
  have hoff : check_off w = false := by
    simp only [check_off, check_on, fsm_button_get_duration, Bool.and_eq_false_iff,
      decide_eq_false_iff_not]
    exact Or.inr (by omega)
  have hnext : check_next_song_button w = true := by
    simp [check_next_song_button, fsm_button_get_duration, hpos, h1, h2]
  have hfire : fsm_jukebox_fire atof garbage w =
      some (jukebox_set_state FSM_JUKEBOX.WAIT_COMMAND (do_load_next_song w)) := by
    simp [fsm_jukebox_fire, fms_trans_jukebox, fsm_fire, hs, hoff, hnext]
  refine ⟨_, next_song_idx w.jukebox, hfire, rfl, rfl, ?_, rfl, rfl, ?_, ?_, ?_, rfl, rfl, ?_, ?_⟩
  · simp only [next_song_idx]
    split <;> rename_i h
    · have h1 : (w.jukebox.melodies ⟨(w.jukebox.melody_idx + 1) % MELODIES_MEMORY_SIZE,
          Nat.mod_lt _ (by decide)⟩).melody_length = 0 := by omega
      simp [h1, slot0]
    · have h1 : (w.jukebox.melodies ⟨(w.jukebox.melody_idx + 1) % MELODIES_MEMORY_SIZE,
          Nat.mod_lt _ (by decide)⟩).melody_length ≠ 0 := by omega
      simp [h1]
  · simp [jukebox_set_state, do_load_next_song, _set_next_song, fsm_buzzer_set_action,
      fsm_buzzer_set_melody]
  · simp [jukebox_set_state, do_load_next_song, _set_next_song, fsm_buzzer_set_action,
      fsm_buzzer_set_melody]
  · simp [jukebox_set_state, do_load_next_song, _set_next_song, fsm_buzzer_set_action,
      fsm_buzzer_set_melody]
  · intro p
    refine ⟨_set_next_song w, ?_, ?_, rfl⟩
    · simp [_execute_command, str_next, str_play, str_stop, str_pause, str_speed]
    · simp [jukebox_set_state, do_load_next_song, _set_next_song, hs]
  · simp [check_next_song_button, fsm_button_get_duration, jukebox_set_state, do_load_next_song,
      fsm_button_reset_duration]

/-- C25, closed instance: the sample state, selected index 2, with a stored press of 700 ms
between the thresholds 501 ms and 1001 ms; slot 3 of the sample library is empty, so the
selection goes to slot 0. -/
theorem next_song_press_advances_once_witness :
    ∃ w1, fsm_jukebox_fire demo_atof demo_garbage
        { demo_world with button := { demo_world.button with duration := 700 },
                          jukebox := { demo_world.jukebox with melody_idx := 2 } } = some w1 ∧
      w1.jukebox.current_state = FSM_JUKEBOX.WAIT_COMMAND ∧
      w1.jukebox.melody_idx = 0 ∧
      w1.buzzer.p_melody = some demo_scale ∧
      w1.button.duration = 0 :=
  have h := next_song_press_advances_once demo_atof demo_garbage
    { demo_world with button := { demo_world.button with duration := 700 },
                      jukebox := { demo_world.jukebox with melody_idx := 2 } }
    rfl (by decide) (by decide)
  h.elim fun w1 hk => hk.elim fun k hw =>
    ⟨w1, hw.1, hw.2.2.1, hw.2.1 ▸ rfl, hw.2.1 ▸ rfl, hw.2.2.2.2.2.2.2.2.2.1⟩

/-! ## The command-received transition clears the input data -/

theorem do_read_command_resets_input (atof : List Nat → ℚ) (garbage : Nat → Nat)
    (w w1 : world) (h : do_read_command atof garbage w = some w1) :
    w1.usart.data_received = false ∧
    w1.usart.in_data = List.replicate USART_INPUT_BUFFER_LENGTH EMPTY_BUFFER_CONSTANT := by
  simp only [do_read_command] at h
  split at h
  · exact absurd h (by simp)
  · simp only [Option.some.injEq] at h
    subst h
    exact ⟨rfl, rfl⟩
  · simp only [Option.map_eq_some'] at h
    obtain ⟨v, _, hv⟩ := h
    subst hv
    exact ⟨rfl, rfl⟩

theorem execute_command_defined (atof : List Nat → ℚ) (garbage : Nat → Nat) (w : world)
    (c p : List Nat)
    (hsel : c = str_select → melody_selected p < MELODIES_MEMORY_SIZE)
    (hinfo : c = str_info → ∃ name, w.jukebox.p_melody = some name ∧
      (str_playing ++ name ++ [END_CHAR_CONSTANT]).length < USART_OUTPUT_BUFFER_LENGTH) :
    ∃ w1, _execute_command atof garbage w c p = some w1 := by
  obtain ⟨r1, hf1, _⟩ := sprintf_fits garbage str_melody_not_found (by decide)
  obtain ⟨r2, hf2, _⟩ := sprintf_fits garbage str_command_not_found (by decide)
  by_cases h1 : c = str_play
  · simp [_execute_command, h1]
  by_cases h2 : c = str_stop
  · subst h2
    simp [_execute_command, str_play, str_stop]
  by_cases h3 : c = str_pause
  · subst h3
    simp [_execute_command, str_play, str_stop, str_pause]
  by_cases h4 : c = str_speed
  · subst h4
    simp [_execute_command, str_play, str_stop, str_pause, str_speed]
  by_cases h5 : c = str_next
  · subst h5
    simp [_execute_command, str_play, str_stop, str_pause, str_speed, str_next]
  by_cases h6 : c = str_select
  · have hi := hsel h6
    by_cases h7 : (w.jukebox.melodies ⟨melody_selected p, hi⟩).melody_length = 0
    · simp [_execute_command, if_neg h1, if_neg h2, if_neg h3, if_neg h4, if_neg h5, if_pos h6,
        hi, h7, hf1]
    · simp [_execute_command, if_neg h1, if_neg h2, if_neg h3, if_neg h4, if_neg h5, if_pos h6,
        hi, h7]
  by_cases h8 : c = str_info
  · obtain ⟨name, hn, hlen⟩ := hinfo h8
    obtain ⟨r3, hf3, _⟩ := sprintf_fits garbage _ hlen
    rw [List.append_assoc] at hf3
    simp only [_execute_command, if_neg h1, if_neg h2, if_neg h3, if_neg h4, if_neg h5,
      if_neg h6, if_pos h8, hn, List.append_assoc, hf3]
    exact ⟨_, rfl⟩
  · simp [_execute_command, h1, h2, h3, h4, h5, h6, h8, hf2]

/-- The command-received transition on terminated lines: in `WAIT_COMMAND` with `data_received` set
and a stored press duration that enables neither the power-off row nor the next-song row, for every
received line held as a terminated string in the input array (a line without token, a line whose
first token is no command word, or a command line; for "select" the index is inside the library and
for "info" the displayed name is a string that fits the output array, so that the command has
defined behaviour), one fire of the jukebox is the action `do_read_command` followed by the move to
`WAIT_COMMAND`, and it leaves `data_received` false and the 10 bytes of `in_data` zero, so that the
guard `check_command_received` is false afterwards. -/
theorem command_received_clears_input (atof : List Nat → ℚ) (garbage : Nat → Nat) (w : world)
    (line junk : List Nat)
    (hs : w.jukebox.current_state = FSM_JUKEBOX.WAIT_COMMAND)
    (hr : w.usart.data_received = true)
    (hoff : ¬ w.button.duration > w.jukebox.on_off_press_time_ms)
    (hnext : ¬ (w.jukebox.next_song_press_time_ms < w.button.duration ∧
      w.button.duration < w.jukebox.on_off_press_time_ms))
    (hin : w.usart.in_data = line ++ 0 :: junk)
    (hlen : w.usart.in_data.length = USART_INPUT_BUFFER_LENGTH)
    (h0 : 0 ∉ line)
    (hsel : ∀ c p, _parse_message w.usart.in_data = some (some (c, p)) → c = str_select →
      melody_selected p < MELODIES_MEMORY_SIZE)
    (hinfo : ∀ c p, _parse_message w.usart.in_data = some (some (c, p)) → c = str_info →
      ∃ name, w.jukebox.p_melody = some name ∧
        (str_playing ++ name ++ [END_CHAR_CONSTANT]).length < USART_OUTPUT_BUFFER_LENGTH) :
    ∃ w1, do_read_command atof garbage w = some w1 ∧
      fsm_jukebox_fire atof garbage w = some (jukebox_set_state FSM_JUKEBOX.WAIT_COMMAND w1) ∧
      (jukebox_set_state FSM_JUKEBOX.WAIT_COMMAND w1).usart.data_received = false ∧
      (jukebox_set_state FSM_JUKEBOX.WAIT_COMMAND w1).usart.in_data =
        [0, 0, 0, 0, 0, 0, 0, 0, 0, 0] ∧
      check_command_received (jukebox_set_state FSM_JUKEBOX.WAIT_COMMAND w1) = false := by
  have hl : line.length < USART_INPUT_BUFFER_LENGTH := by
    rw [hin] at hlen
    simp at hlen
    omega
  have hoff1 : check_off w = false := by
    simp only [check_off, check_on, fsm_button_get_duration, Bool.and_eq_false_iff,
      decide_eq_false_iff_not]
    exact Or.inr hoff
  have hnext1 : check_next_song_button w = false := by
    simp only [check_next_song_button, fsm_button_get_duration, Bool.and_eq_false_iff,
      decide_eq_false_iff_not]
    by_cases h1 : w.button.duration > w.jukebox.next_song_press_time_ms
    · exact Or.inr (fun h2 => hnext ⟨h1, h2⟩)
    · exact Or.inl (Or.inr h1)
  have hcmd : check_command_received w = true := by
    simp [check_command_received, fsm_usart_check_data_received, hr]
  have hdef : ∃ w1, do_read_command atof garbage w = some w1 := by
    cases htok : first_token line with
    | none =>
      have hp := (parse_message_terminated junk line h0 hl).1 htok
      rw [← hin] at hp
      exact ⟨{ w with usart := fsm_usart_reset_input_data w.usart },
        by simp [do_read_command, fsm_usart_get_in_data, hp]⟩
    | some c =>
      obtain ⟨p, hp⟩ := (parse_message_terminated junk line h0 hl).2 c htok
      rw [← hin] at hp
      obtain ⟨v, hv⟩ := execute_command_defined atof garbage w c p (hsel c p hp) (hinfo c p hp)
      exact ⟨_, by rw [do_read_command_parsed atof garbage w c p hp, hv]; rfl⟩
  obtain ⟨w1, hw1⟩ := hdef
  obtain ⟨hflag, hdata⟩ := do_read_command_resets_input atof garbage w w1 hw1
  refine ⟨w1, hw1, ?_, hflag, ?_, ?_⟩
  · simp [fsm_jukebox_fire, fms_trans_jukebox, fsm_fire, hs, hoff1, hnext1, hcmd, hw1]
  · simpa [jukebox_set_state] using hdata
  · simpa [check_command_received, fsm_usart_check_data_received, jukebox_set_state] using hflag

/-- The command-received transition, closed instance: the command line "play", the unrecognised
line "foo" and a line of three spaces, each received in the sample state. -/
theorem command_received_clears_input_witness :
    (∃ w1, fsm_jukebox_fire demo_atof demo_garbage
        (demo_received [112, 108, 97, 121, 0, 0, 0, 0, 0, 0]) = some w1 ∧
      w1.usart.data_received = false ∧ w1.usart.in_data = [0, 0, 0, 0, 0, 0, 0, 0, 0, 0]) ∧
    (∃ w1, fsm_jukebox_fire demo_atof demo_garbage
        (demo_received [102, 111, 111, 0, 0, 0, 0, 0, 0, 0]) = some w1 ∧
      w1.usart.data_received = false ∧ w1.usart.in_data = [0, 0, 0, 0, 0, 0, 0, 0, 0, 0]) ∧
    (∃ w1, fsm_jukebox_fire demo_atof demo_garbage
        (demo_received [32, 32, 32, 0, 0, 0, 0, 0, 0, 0]) = some w1 ∧
      w1.usart.data_received = false ∧ w1.usart.in_data = [0, 0, 0, 0, 0, 0, 0, 0, 0, 0]) :=
  ⟨(command_received_clears_input demo_atof demo_garbage
      (demo_received [112, 108, 97, 121, 0, 0, 0, 0, 0, 0]) [112, 108, 97, 121] [0, 0, 0, 0, 0]
      rfl rfl (by decide) (by decide) rfl rfl (by decide)
      (fun c p h hc => by
        have hp : _parse_message (demo_received [112, 108, 97, 121, 0, 0, 0, 0, 0, 0]).usart.in_data
            = some (some (str_play, [SPACE])) := by decide
        rw [hp] at h
        simp only [Option.some.injEq, Prod.mk.injEq] at h
        rw [← h.1] at hc
        exact absurd hc (by decide))
      (fun c p h hc => by
        have hp : _parse_message (demo_received [112, 108, 97, 121, 0, 0, 0, 0, 0, 0]).usart.in_data
            = some (some (str_play, [SPACE])) := by decide
        rw [hp] at h
        simp only [Option.some.injEq, Prod.mk.injEq] at h
        rw [← h.1] at hc
        exact absurd hc (by decide))).elim
      fun w1 hw => ⟨_, hw.2.1, hw.2.2.1, hw.2.2.2.1⟩,
   (command_received_clears_input demo_atof demo_garbage
      (demo_received [102, 111, 111, 0, 0, 0, 0, 0, 0, 0]) [102, 111, 111] [0, 0, 0, 0, 0, 0]
      rfl rfl (by decide) (by decide) rfl rfl (by decide)
      (fun c p h hc => by
        have hp : _parse_message (demo_received [102, 111, 111, 0, 0, 0, 0, 0, 0, 0]).usart.in_data
            = some (some ([102, 111, 111], [SPACE])) := by decide
        rw [hp] at h
        simp only [Option.some.injEq, Prod.mk.injEq] at h
        rw [← h.1] at hc
        exact absurd hc (by decide))
      (fun c p h hc => by
        have hp : _parse_message (demo_received [102, 111, 111, 0, 0, 0, 0, 0, 0, 0]).usart.in_data
            = some (some ([102, 111, 111], [SPACE])) := by decide
        rw [hp] at h
        simp only [Option.some.injEq, Prod.mk.injEq] at h
        rw [← h.1] at hc
        exact absurd hc (by decide))).elim
      fun w1 hw => ⟨_, hw.2.1, hw.2.2.1, hw.2.2.2.1⟩,
   (command_received_clears_input demo_atof demo_garbage
      (demo_received [32, 32, 32, 0, 0, 0, 0, 0, 0, 0]) [32, 32, 32] [0, 0, 0, 0, 0, 0]
      rfl rfl (by decide) (by decide) rfl rfl (by decide)
      (fun c p h _ => by
        have hp : _parse_message (demo_received [32, 32, 32, 0, 0, 0, 0, 0, 0, 0]).usart.in_data
            = some none := by decide
        rw [hp] at h
        exact absurd h (by simp))
      (fun c p h _ => by
        have hp : _parse_message (demo_received [32, 32, 32, 0, 0, 0, 0, 0, 0, 0]).usart.in_data
            = some none := by decide
        rw [hp] at h
        exact absurd h (by simp))).elim
      fun w1 hw => ⟨_, hw.2.1, hw.2.2.1, hw.2.2.2.1⟩⟩

/-! ## The USART FSM: one fire from each state -/

theorem usart_fire_from_wait_data (v : world)
    (hs : v.usart.current_state = FSM_USART.WAIT_DATA) :
    fsm_usart_fire v =
      if check_data_tx v = true then
        (do_set_data_tx v).map (usart_set_state FSM_USART.SEND_DATA)
      else if check_data_rx v = true then
        some (usart_set_state FSM_USART.WAIT_DATA (do_get_data_rx v))
      else some v := by
  cases h1 : check_data_tx v <;> cases h2 : check_data_rx v <;>
    simp [fsm_usart_fire, fms_trans_usart, fsm_fire, hs, h1, h2]

theorem usart_fire_from_send_data (v : world)
    (hs : v.usart.current_state = FSM_USART.SEND_DATA) :
    fsm_usart_fire v =
      if check_tx_end v = true then some (usart_set_state FSM_USART.WAIT_DATA (do_tx_end v))
      else some v := by
  cases h1 : check_tx_end v <;>
    simp [fsm_usart_fire, fms_trans_usart, fsm_fire, hs, h1]

theorem usart_apply_keeps_empty_output (e : usart_event) (v v1 : world)
    (he : ∀ p, e ≠ usart_event.set_out_data p)
    (hs : v.usart.current_state = FSM_USART.WAIT_DATA)
    (ho : v.usart.out_data = List.replicate USART_OUTPUT_BUFFER_LENGTH EMPTY_BUFFER_CONSTANT)
    (h : usart_apply e v = some v1) :
    v1.usart.current_state = FSM_USART.WAIT_DATA ∧
    v1.usart.out_data = List.replicate USART_OUTPUT_BUFFER_LENGTH EMPTY_BUFFER_CONSTANT := by
  have htx : check_data_tx v = false := by simp [check_data_tx, ho]
  cases e with
  | fire =>
    simp only [usart_apply, usart_fire_from_wait_data v hs, htx] at h
    cases hrx : check_data_rx v with
    | true =>
      simp [hrx] at h
      subst h
      exact ⟨rfl, by simpa [usart_set_state, do_get_data_rx] using ho⟩
    | false =>
      simp [hrx] at h
      subst h
      exact ⟨hs, ho⟩
  | rx_interrupt DR =>
    simp only [usart_apply, Option.map_eq_some'] at h
    obtain ⟨a, _, ha⟩ := h
    subst ha
    exact ⟨hs, ho⟩
  | tx_interrupt =>
    simp only [usart_apply, Option.map_eq_some'] at h
    obtain ⟨a, _, ha⟩ := h
    subst ha
    exact ⟨hs, ho⟩
  | set_out_data p => exact absurd rfl (he p)
  | reset_input_data =>
    simp only [usart_apply, Option.some.injEq] at h
    subst h
    exact ⟨hs, ho⟩

theorem usart_events_keep_empty_output (evs : List usart_event) (v v1 : world)
    (he : ∀ p, usart_event.set_out_data p ∉ evs)
    (hs : v.usart.current_state = FSM_USART.WAIT_DATA)
    (ho : v.usart.out_data = List.replicate USART_OUTPUT_BUFFER_LENGTH EMPTY_BUFFER_CONSTANT)
    (h : usart_events_run evs v = some v1) :
    v1.usart.current_state = FSM_USART.WAIT_DATA ∧
    v1.usart.out_data = List.replicate USART_OUTPUT_BUFFER_LENGTH EMPTY_BUFFER_CONSTANT := by
  induction evs generalizing v with
  | nil =>
    simp only [usart_events_run, Option.some.injEq] at h
    subst h
    exact ⟨hs, ho⟩
  | cons e es ih =>
    simp only [usart_events_run, Option.bind_eq_some] at h
    obtain ⟨u, hu, hrest⟩ := h
    have he1 : ∀ p, e ≠ usart_event.set_out_data p := by
      intro p hp
      exact he p (by simp [hp])
    obtain ⟨hs1, ho1⟩ := usart_apply_keeps_empty_output e v u he1 hs ho hu
    exact ih u (fun p hp => he p (List.mem_cons_of_mem _ hp)) hs1 ho1 hrest

theorem usart_fire_keeps_data_received (v v1 : world) (h : fsm_usart_fire v = some v1)
    (hd : v.usart.data_received = true) : v1.usart.data_received = true := by
  cases hs : v.usart.current_state with
  | WAIT_DATA =>
    rw [usart_fire_from_wait_data v hs] at h
    split at h
    · simp only [do_set_data_tx, Option.map_map, Option.map_eq_some'] at h
      obtain ⟨a, _, ha⟩ := h
      subst ha
      simpa [usart_set_state] using hd
    · split at h
      · simp only [Option.some.injEq] at h
        subst h
        rfl
      · simp only [Option.some.injEq] at h
        subst h
        exact hd
  | SEND_DATA =>
    rw [usart_fire_from_send_data v hs] at h
    split at h
    · simp only [Option.some.injEq] at h
      subst h
      simpa [usart_set_state, do_tx_end] using hd
    · simp only [Option.some.injEq] at h
      subst h
      exact hd

theorem usart_events_keep_data_received (evs : List usart_event) (v v1 : world)
    (he : usart_event.reset_input_data ∉ evs)
    (hd : v.usart.data_received = true)
    (h : usart_events_run evs v = some v1) : v1.usart.data_received = true := by
  induction evs generalizing v with
  | nil =>
    simp only [usart_events_run, Option.some.injEq] at h
    subst h
    exact hd
  | cons e es ih =>
    simp only [usart_events_run, Option.bind_eq_some] at h
    obtain ⟨u, hu, hrest⟩ := h
    have hes : usart_event.reset_input_data ∉ es := fun hp => he (List.mem_cons_of_mem _ hp)
    refine ih u hes ?_ hrest
    cases e with
    | fire => exact usart_fire_keeps_data_received v u hu hd
    | rx_interrupt DR =>
      simp only [usart_apply, Option.map_eq_some'] at hu
      obtain ⟨a, _, ha⟩ := hu
      subst ha
      exact hd
    | tx_interrupt =>
      simp only [usart_apply, Option.map_eq_some'] at hu
      obtain ⟨a, _, ha⟩ := hu
      subst ha
      exact hd
    | set_out_data p =>
      simp only [usart_apply, Option.some.injEq] at hu
      subst hu
      simpa [fsm_usart_set_out_data] using hd
    | reset_input_data => exact absurd (by simp) he

/-! ## The USART FSM: end of a transmission, delivery of a received line -/

/-- C27: in `SEND_DATA` with the flag `write_complete` of the port set, one fire of the USART FSM
is `do_tx_end` followed by the move to `WAIT_DATA`: the 100 bytes of `out_data` are 0, the flag
`write_complete` is cleared (with the output buffer of the port), the input side is as before,
and the guard `check_data_tx` is false. From there, along every sequence of fires of the FSM,
receive and transmit interrupts and calls of `fsm_usart_reset_input_data`, without a call of
`fsm_usart_set_out_data`, the guard stays false and the FSM stays in `WAIT_DATA`, so that the
action `do_set_data_tx` is not run again. -/
theorem tx_end_clears_output (w : world)
    (hs : w.usart.current_state = FSM_USART.SEND_DATA)
    (ht : w.usart_arr.write_complete = true) :
    ∃ w1, fsm_usart_fire w = some w1 ∧
      w1 = usart_set_state FSM_USART.WAIT_DATA (do_tx_end w) ∧
      w1.usart.current_state = FSM_USART.WAIT_DATA ∧
      w1.usart.out_data = List.replicate 100 0 ∧
      w1.usart_arr.write_complete = false ∧
      w1.usart_arr.output_buffer = List.replicate 100 0 ∧
      w1.usart.in_data = w.usart.in_data ∧
      w1.usart.data_received = w.usart.data_received ∧
      w1.usart_arr.input_buffer = w.usart_arr.input_buffer ∧
      w1.usart_arr.read_complete = w.usart_arr.read_complete ∧
      check_data_tx w1 = false ∧
      ∀ (evs : List usart_event) (w2 : world), (∀ p, usart_event.set_out_data p ∉ evs) →
        usart_events_run evs w1 = some w2 →
        check_data_tx w2 = false ∧ w2.usart.current_state = FSM_USART.WAIT_DATA ∧
          w2.usart.out_data = List.replicate 100 0 := by
  have hg : check_tx_end w = true := by simp [check_tx_end, port_usart_tx_done, ht]
  have hfire : fsm_usart_fire w = some (usart_set_state FSM_USART.WAIT_DATA (do_tx_end w)) := by
    rw [usart_fire_from_send_data w hs]
    simp [hg]
  refine ⟨_, hfire, rfl, rfl, rfl, rfl, rfl, rfl, rfl, rfl, rfl, ?_, ?_⟩
  · simp [check_data_tx, usart_set_state, do_tx_end]
  · intro evs w2 he hrun
    obtain ⟨h1, h2⟩ := usart_events_keep_empty_output evs _ w2 he rfl rfl hrun
    exact ⟨by simp [check_data_tx, h2], h1, h2⟩

/-- C27, closed instance: the sample state in `SEND_DATA` with the message "ok\n" sent, then two
fires of the USART FSM. -/
theorem tx_end_clears_output_witness :
    ∃ w1, fsm_usart_fire
        { demo_world with
          usart := fsm_usart_set_out_data { demo_world.usart with current_state := .SEND_DATA }
            ([111, 107, 10] ++ List.replicate 97 0),
          usart_arr := { demo_world.usart_arr with write_complete := true } } = some w1 ∧
      w1.usart.current_state = FSM_USART.WAIT_DATA ∧
      w1.usart.out_data = List.replicate 100 0 ∧
      w1.usart_arr.write_complete = false ∧
      (usart_events_run [usart_event.fire, usart_event.fire] w1).map
        (fun w2 => (w2.usart.current_state, check_data_tx w2)) =
        some (FSM_USART.WAIT_DATA, false) :=
  have h := tx_end_clears_output
    { demo_world with
      usart := fsm_usart_set_out_data { demo_world.usart with current_state := .SEND_DATA }
        ([111, 107, 10] ++ List.replicate 97 0),
      usart_arr := { demo_world.usart_arr with write_complete := true } } rfl rfl
  h.elim fun w1 hw => ⟨w1, hw.1, hw.2.2.1, hw.2.2.2.1, hw.2.2.2.2.1, by
    rw [hw.2.1]
    decide⟩

/-- C28: in `WAIT_DATA` with `out_data[0]` equal to 0 and the flag `read_complete` of the port
set, one fire of the USART FSM is `do_get_data_rx` followed by the move to `WAIT_DATA`: `in_data`
holds the 10 bytes of the input buffer of the port, that buffer is zeroed and `read_complete`
cleared, `data_received` is true, and the output side is as before. From there, along every
sequence of fires of the FSM, receive and transmit interrupts and calls of
`fsm_usart_set_out_data`, without a call of `fsm_usart_reset_input_data`, `data_received` stays
true. -/
theorem rx_done_delivers_line (w : world)
    (hs : w.usart.current_state = FSM_USART.WAIT_DATA)
    (h0 : w.usart.out_data[0]? = some EMPTY_BUFFER_CONSTANT)
    (hr : w.usart_arr.read_complete = true) :
    ∃ w1, fsm_usart_fire w = some w1 ∧
      w1 = usart_set_state FSM_USART.WAIT_DATA (do_get_data_rx w) ∧
      w1.usart.current_state = FSM_USART.WAIT_DATA ∧
      w1.usart.in_data = w.usart_arr.input_buffer.take 10 ∧
      (w.usart_arr.input_buffer.length = 10 → w1.usart.in_data = w.usart_arr.input_buffer) ∧
      w1.usart_arr.input_buffer = List.replicate 10 0 ∧
      w1.usart_arr.read_complete = false ∧
      w1.usart.data_received = true ∧
      w1.usart.out_data = w.usart.out_data ∧
      w1.usart_arr.output_buffer = w.usart_arr.output_buffer ∧
      w1.usart_arr.write_complete = w.usart_arr.write_complete ∧
      w1.usart_arr.i_idx = w.usart_arr.i_idx ∧
      ∀ (evs : List usart_event) (w2 : world), usart_event.reset_input_data ∉ evs →
        usart_events_run evs w1 = some w2 → w2.usart.data_received = true := by
  have htx : check_data_tx w = false := by
    simp [check_data_tx, List.getD_eq_getElem?_getD, h0]
  have hrx : check_data_rx w = true := by simp [check_data_rx, port_usart_rx_done, hr]
  have hfire : fsm_usart_fire w =
      some (usart_set_state FSM_USART.WAIT_DATA (do_get_data_rx w)) := by
    rw [usart_fire_from_wait_data w hs]
    simp [htx, hrx]
  refine ⟨_, hfire, rfl, rfl, rfl, ?_, rfl, rfl, rfl, rfl, rfl, rfl, rfl, ?_⟩
  · intro hlen
    show List.take 10 w.usart_arr.input_buffer = w.usart_arr.input_buffer
    exact List.take_of_length_le (by omega)
  · intro evs w2 he hrun
    exact usart_events_keep_data_received evs _ w2 he rfl hrun

/-- C28, closed instance: the sample state with the line "next" complete in the input buffer of
the port, then a fire of the USART FSM, a received byte and another fire. -/
theorem rx_done_delivers_line_witness :
    ∃ w1, fsm_usart_fire
        { demo_world with usart_arr :=
          { demo_world.usart_arr with
            input_buffer := [110, 101, 120, 116, 0, 0, 0, 0, 0, 0], read_complete := true } } =
        some w1 ∧
      w1.usart.in_data = [110, 101, 120, 116, 0, 0, 0, 0, 0, 0] ∧
      w1.usart_arr.input_buffer = List.replicate 10 0 ∧
      w1.usart_arr.read_complete = false ∧
      w1.usart.data_received = true ∧
      (usart_events_run [usart_event.fire, usart_event.rx_interrupt 112, usart_event.fire] w1).map
        (fun w2 => w2.usart.data_received) = some true :=
  have h := rx_done_delivers_line
    { demo_world with usart_arr :=
      { demo_world.usart_arr with
        input_buffer := [110, 101, 120, 116, 0, 0, 0, 0, 0, 0], read_complete := true } }
    rfl rfl rfl
  h.elim fun w1 hw => ⟨w1, hw.1, hw.2.1 ▸ rfl, hw.2.2.2.2.2.1, hw.2.2.2.2.2.2.1,
    hw.2.2.2.2.2.2.2.1, by
      rw [hw.2.1]
      decide⟩

/-! ## The receive interrupt: assembling a line -/

theorem set_after_prefix (pre : List Nat) (k b : Nat) :
    (pre ++ List.replicate (k + 1) 0).set pre.length b = pre ++ b :: List.replicate k 0 := by
  induction pre with
  | nil => simp [List.replicate_succ]
  | cons a l ih => simpa using ih

theorem port_usart_store_bytes_prefix (bytes pre : List Nat) (h : port_usart_hw_t)
    (hn : pre.length + bytes.length ≤ USART_INPUT_BUFFER_LENGTH)
    (hb : ∀ b ∈ bytes, b < 256 ∧ b ≠ END_CHAR_CONSTANT)
    (hbuf : h.input_buffer = pre ++ List.replicate (USART_INPUT_BUFFER_LENGTH - pre.length) 0)
    (hi : h.i_idx = pre.length) :
    ∃ h1, port_usart_store_bytes bytes h = some h1 ∧
      h1.input_buffer = pre ++ bytes ++ List.replicate (10 - (pre.length + bytes.length)) 0 ∧
      h1.i_idx = pre.length + bytes.length ∧
      { h1 with input_buffer := [], i_idx := 0 } = { h with input_buffer := [], i_idx := 0 } := by
  induction bytes generalizing pre h with
  | nil => exact ⟨h, rfl, by simpa using hbuf, by simpa using hi, rfl⟩
  | cons b bs ih =>
    have hlen : pre.length + (bs.length + 1) ≤ 10 := by simpa using hn
    obtain ⟨hb1, hb2⟩ := hb b (by simp)
    have hmod : b % 256 = b := Nat.mod_eq_of_lt hb1
    have hidx : h.i_idx < 10 := by omega
    have hk : USART_INPUT_BUFFER_LENGTH - pre.length = (10 - (pre.length + 1)) + 1 := by
      show 10 - pre.length = 10 - (pre.length + 1) + 1
      omega
    have hset : h.input_buffer.set h.i_idx b =
        pre ++ b :: List.replicate (10 - (pre.length + 1)) 0 := by
      rw [hbuf, hi, hk]
      exact set_after_prefix pre _ b
    have hstep : port_usart_store_data b h =
        some { h with input_buffer := h.input_buffer.set h.i_idx b, i_idx := pre.length + 1 } := by
      have hnot : ¬ h.i_idx ≥ 10 := by omega
      have hm : (h.i_idx + 1) % 256 = pre.length + 1 := by
        rw [hi]
        exact Nat.mod_eq_of_lt (by omega)
      simp [port_usart_store_data, hmod, hb2, hnot, hidx, hm]
    obtain ⟨h1, hrun, hres1, hres2, hres3⟩ := ih (pre ++ [b])
      { h with input_buffer := h.input_buffer.set h.i_idx b, i_idx := pre.length + 1 }
      (by simp; omega) (fun c hc => hb c (List.mem_cons_of_mem _ hc))
      (by rw [hset]; simp [USART_INPUT_BUFFER_LENGTH]) (by simp)
    refine ⟨h1, by simp [port_usart_store_bytes, hstep, hrun], ?_, ?_, ?_⟩
    · rw [hres1]
      simp [Nat.add_assoc, Nat.add_comm 1]
    · rw [hres2]
      simp [Nat.add_assoc, Nat.add_comm 1]
    · rw [hres3]

/-- C29: from an input buffer of the port that is all zero, with `i_idx` 0 and `read_complete`
false, `n ≤ 10` bytes other than the newline delivered one call of `port_usart_store_data` each
leave the `n` bytes in arrival order at the indices `0 .. n-1` of the input buffer with the
other bytes 0, `i_idx` equal to `n` and `read_complete` false (and so for every prefix of the
sequence); the call for the newline that follows stores nothing, sets `read_complete` and brings
`i_idx` back to 0. No other field of the port is written. -/
theorem store_data_assembles_line (bytes : List Nat) (h : port_usart_hw_t)
    (hn : bytes.length ≤ USART_INPUT_BUFFER_LENGTH)
    (hb : ∀ b ∈ bytes, b < 256 ∧ b ≠ END_CHAR_CONSTANT)
    (hbuf : h.input_buffer = List.replicate USART_INPUT_BUFFER_LENGTH EMPTY_BUFFER_CONSTANT)
    (hi : h.i_idx = 0)
    (hrc : h.read_complete = false) :
    (∀ k, ∃ hk, port_usart_store_bytes (bytes.take k) h = some hk ∧
      hk.input_buffer = bytes.take k ++ List.replicate (10 - (bytes.take k).length) 0 ∧
      hk.i_idx = (bytes.take k).length ∧
      hk.read_complete = false) ∧
    ∃ h1 h2, port_usart_store_bytes bytes h = some h1 ∧
      h1.input_buffer = bytes ++ List.replicate (10 - bytes.length) 0 ∧
      h1.i_idx = bytes.length ∧
      h1.read_complete = false ∧
      port_usart_store_data END_CHAR_CONSTANT h1 = some h2 ∧
      port_usart_store_bytes (bytes ++ [END_CHAR_CONSTANT]) h = some h2 ∧
      h2.input_buffer = bytes ++ List.replicate (10 - bytes.length) 0 ∧
      h2.read_complete = true ∧
      h2.i_idx = 0 ∧
      h2.output_buffer = h.output_buffer ∧ h2.o_idx = h.o_idx ∧
      h2.write_complete = h.write_complete ∧ h2.CR1_RXNEIE = h.CR1_RXNEIE ∧
      h2.CR1_TXEIE = h.CR1_TXEIE ∧ h2.DR_written = h.DR_written := by
  have hpre : ∀ bs : List Nat, bs.length ≤ 10 → (∀ b ∈ bs, b < 256 ∧ b ≠ END_CHAR_CONSTANT) →
      ∃ g, port_usart_store_bytes bs h = some g ∧
        g.input_buffer = bs ++ List.replicate (10 - bs.length) 0 ∧
        g.i_idx = bs.length ∧
        { g with input_buffer := [], i_idx := 0 } = { h with input_buffer := [], i_idx := 0 } := by
    intro bs hl hbs
    obtain ⟨g, hrun, h1, h2, h3⟩ := port_usart_store_bytes_prefix bs [] h (by simpa using hl) hbs
      (by simpa using hbuf) (by simpa using hi)
    exact ⟨g, hrun, by simpa using h1, by simpa using h2, h3⟩
  have hframe : ∀ g : port_usart_hw_t,
      { g with input_buffer := [], i_idx := 0 } = { h with input_buffer := [], i_idx := 0 } →
      g.read_complete = h.read_complete ∧ g.output_buffer = h.output_buffer ∧
      g.o_idx = h.o_idx ∧ g.write_complete = h.write_complete ∧
      g.CR1_RXNEIE = h.CR1_RXNEIE ∧ g.CR1_TXEIE = h.CR1_TXEIE ∧
      g.DR_written = h.DR_written := by
    intro g hg
    cases g
    cases h
    simp only [port_usart_hw_t.mk.injEq] at hg
    simp_all
  refine ⟨fun k => ?_, ?_⟩
  · have hl : (bytes.take k).length ≤ bytes.length := by
      rw [List.length_take]
      exact Nat.min_le_right _ _
    have hn1 : bytes.length ≤ 10 := hn
    obtain ⟨g, hrun, h1, h2, h3⟩ := hpre (bytes.take k) (by omega)
      (fun b hb1 => hb b (List.mem_of_mem_take hb1))
    exact ⟨g, hrun, h1, h2, by rw [(hframe g h3).1, hrc]⟩
  · have hnl : ∀ g : port_usart_hw_t, port_usart_store_data END_CHAR_CONSTANT g =
        some { g with read_complete := true, i_idx := 0 } := by
      intro g
      simp [port_usart_store_data, END_CHAR_CONSTANT]
    have hcomp : ∀ (xs ys : List Nat) (g : port_usart_hw_t),
        port_usart_store_bytes (xs ++ ys) g =
          (port_usart_store_bytes xs g).bind (port_usart_store_bytes ys) := by
      intro xs
      induction xs with
      | nil => intro ys g; simp [port_usart_store_bytes]
      | cons x xs ih =>
        intro ys g
        simp only [List.cons_append, port_usart_store_bytes]
        cases port_usart_store_data x g with
        | none => rfl
        | some g1 => simpa using ih ys g1
    obtain ⟨g, hrun, h1, h2, h3⟩ := hpre bytes hn hb
    obtain ⟨f1, f2, f3, f4, f5, f6, f7⟩ := hframe g h3
    refine ⟨g, _, hrun, h1, h2, by rw [f1, hrc], hnl g, ?_, h1, rfl, rfl, f2, f3, f4, f5, f6, f7⟩
    rw [hcomp, hrun]
    simp [port_usart_store_bytes, hnl]

/-- C29, closed instance: the four bytes of "next" and the newline, delivered to a cleared port
with the receive interrupt enabled. -/
theorem store_data_assembles_line_witness :
    ∃ h1 h2, port_usart_store_bytes [110, 101, 120, 116]
        ⟨List.replicate 10 0, 0, false, List.replicate 100 0, 0, false, true, false, []⟩ =
        some h1 ∧
      h1.input_buffer = [110, 101, 120, 116, 0, 0, 0, 0, 0, 0] ∧
      h1.i_idx = 4 ∧
      h1.read_complete = false ∧
      port_usart_store_data 10 h1 = some h2 ∧
      h2.input_buffer = [110, 101, 120, 116, 0, 0, 0, 0, 0, 0] ∧
      h2.read_complete = true ∧
      h2.i_idx = 0 :=
  have h := (store_data_assembles_line [110, 101, 120, 116]
    ⟨List.replicate 10 0, 0, false, List.replicate 100 0, 0, false, true, false, []⟩
    (by decide) (by decide) rfl rfl rfl).2
  h.elim fun h1 hh => hh.elim fun h2 hw =>
    ⟨h1, h2, hw.1, hw.2.1, hw.2.2.1, hw.2.2.2.1, hw.2.2.2.2.1, hw.2.2.2.2.2.2.1,
      hw.2.2.2.2.2.2.2.1, hw.2.2.2.2.2.2.2.2.1⟩

/-! ## The current state stays inside the table -/

theorem fsm_fire_state {S W : Type} [DecidableEq S] (get : W → S) (set : S → W → W)
    (hgs : ∀ s x, get (set s x) = s) (tt : List (fsm_trans_t S W)) (w w1 : W)
    (h : fsm_fire get set tt w = some w1) :
    w1 = w ∨ ∃ t ∈ tt, get w1 = t.dest_state := by
  induction tt with
  | nil =>
    simp only [fsm_fire, Option.some.injEq] at h
    exact Or.inl h.symm
  | cons t ts ih =>
    have hrest : fsm_fire get set ts w = some w1 → w1 = w ∨ ∃ u ∈ t :: ts, get w1 = u.dest_state :=
      fun h1 => (ih h1).imp id (fun ⟨u, hu, he⟩ => ⟨u, List.mem_cons_of_mem _ hu, he⟩)
    simp only [fsm_fire] at h
    split at h
    · split at h
      · exact absurd h (by simp)
      · split at h
        · simp only [Option.some.injEq] at h
          exact Or.inr ⟨t, List.mem_cons_self _ _, by rw [← h, hgs]⟩
        · simp only [Option.map_eq_some'] at h
          obtain ⟨a, _, ha⟩ := h
          exact Or.inr ⟨t, List.mem_cons_self _ _, by rw [← ha, hgs]⟩
      · exact hrest h
    · exact hrest h

theorem fsm_fire_n_state_in_table {S W : Type} [DecidableEq S] (get : W → S) (set : S → W → W)
    (hgs : ∀ s x, get (set s x) = s) (tt : List (fsm_trans_t S W))
    (hclosed : ∀ t ∈ tt, t.dest_state ∈ fsm_origins tt) (n : Nat) (w w1 : W)
    (h0 : get w ∈ fsm_origins tt) (h : fsm_fire_n (fsm_fire get set tt) n w = some w1) :
    get w1 ∈ fsm_origins tt := by
  induction n generalizing w with
  | zero =>
    simp only [fsm_fire_n, Option.some.injEq] at h
    rw [← h]
    exact h0
  | succ k ih =>
    simp only [fsm_fire_n, Option.bind_eq_some] at h
    obtain ⟨v, hv, hrest⟩ := h
    refine ih v ?_ hrest
    rcases fsm_fire_state get set hgs tt w v hv with h1 | ⟨t, ht, h1⟩
    · rw [h1]
      exact h0
    · rw [h1]
      exact hclosed t ht

/-- C30: in each of the four transition tables (button, USART, buzzer, jukebox) the state in
which the init function leaves the FSM and the destination of every row occur as the origin of
some row of the same table; hence, from a current state that is an origin of the table, the
current state after any number of fires is again an origin of the table. Every state of the
enumeration of each FSM is in fact an origin of its table. -/
theorem current_state_stays_in_table (atof : List Nat → ℚ) (garbage : Nat → Nat) :
    ((∀ next_timeout0 debounce_time button_id,
        (fsm_button_init next_timeout0 debounce_time button_id).current_state ∈
          fsm_origins fsm_trans_button) ∧
      (∀ t ∈ fsm_trans_button, t.dest_state ∈ fsm_origins fsm_trans_button) ∧
      (∀ (n : Nat) (w w1 : world), w.button.current_state ∈ fsm_origins fsm_trans_button →
        fsm_fire_n fsm_button_fire n w = some w1 →
        w1.button.current_state ∈ fsm_origins fsm_trans_button) ∧
      (∀ s : FSM_BUTTON, s ∈ fsm_origins fsm_trans_button)) ∧
    ((∀ usart_id, (fsm_usart_init usart_id).current_state ∈ fsm_origins fms_trans_usart) ∧
      (∀ t ∈ fms_trans_usart, t.dest_state ∈ fsm_origins fms_trans_usart) ∧
      (∀ (n : Nat) (w w1 : world), w.usart.current_state ∈ fsm_origins fms_trans_usart →
        fsm_fire_n fsm_usart_fire n w = some w1 →
        w1.usart.current_state ∈ fsm_origins fms_trans_usart) ∧
      (∀ s : FSM_USART, s ∈ fsm_origins fms_trans_usart)) ∧
    ((∀ buzzer_id, (fsm_buzzer_init buzzer_id).current_state ∈ fsm_origins fsm_trans_buzzer) ∧
      (∀ t ∈ fsm_trans_buzzer, t.dest_state ∈ fsm_origins fsm_trans_buzzer) ∧
      (∀ (n : Nat) (w w1 : world), w.buzzer.current_state ∈ fsm_origins fsm_trans_buzzer →
        fsm_fire_n fsm_buzzer_fire n w = some w1 →
        w1.buzzer.current_state ∈ fsm_origins fsm_trans_buzzer) ∧
      (∀ s : FSM_BUZZER, s ∈ fsm_origins fsm_trans_buzzer)) ∧
    ((∀ p_melody0 speed0 scale_melody happy_birthday_melody tetris_melody on_off next_song,
        (fsm_jukebox_init p_melody0 speed0 scale_melody happy_birthday_melody tetris_melody on_off
          next_song).current_state ∈ fsm_origins (fms_trans_jukebox atof garbage)) ∧
      (∀ t ∈ fms_trans_jukebox atof garbage,
        t.dest_state ∈ fsm_origins (fms_trans_jukebox atof garbage)) ∧
      (∀ (n : Nat) (w w1 : world),
        w.jukebox.current_state ∈ fsm_origins (fms_trans_jukebox atof garbage) →
        fsm_fire_n (fsm_jukebox_fire atof garbage) n w = some w1 →
        w1.jukebox.current_state ∈ fsm_origins (fms_trans_jukebox atof garbage)) ∧
      (∀ s : FSM_JUKEBOX, s ∈ fsm_origins (fms_trans_jukebox atof garbage))) := by
  have hb : ∀ t ∈ fsm_trans_button, t.dest_state ∈ fsm_origins fsm_trans_button := by
    simp [fsm_trans_button, fsm_origins]
  have hu : ∀ t ∈ fms_trans_usart, t.dest_state ∈ fsm_origins fms_trans_usart := by
    simp [fms_trans_usart, fsm_origins]
  have hz : ∀ t ∈ fsm_trans_buzzer, t.dest_state ∈ fsm_origins fsm_trans_buzzer := by
    simp [fsm_trans_buzzer, fsm_origins]
  have hj : ∀ t ∈ fms_trans_jukebox atof garbage,
      t.dest_state ∈ fsm_origins (fms_trans_jukebox atof garbage) := by
    simp [fms_trans_jukebox, fsm_origins]
  refine ⟨⟨?_, hb, ?_, ?_⟩, ⟨?_, hu, ?_, ?_⟩, ⟨?_, hz, ?_, ?_⟩, ⟨?_, hj, ?_, ?_⟩⟩
  · intro a b c
    simp [fsm_button_init, fsm_trans_button, fsm_origins]
  · intro n w w1 h0 h
    exact fsm_fire_n_state_in_table (fun w : world => w.button.current_state) button_set_state
      (fun _ _ => rfl) fsm_trans_button hb n w w1 h0 h
  · intro s
    cases s <;> simp [fsm_trans_button, fsm_origins]
  · intro a
    simp [fsm_usart_init, fms_trans_usart, fsm_origins]
  · intro n w w1 h0 h
    exact fsm_fire_n_state_in_table (fun w : world => w.usart.current_state) usart_set_state
      (fun _ _ => rfl) fms_trans_usart hu n w w1 h0 h
  · intro s
    cases s <;> simp [fms_trans_usart, fsm_origins]
  · intro a
    simp [fsm_buzzer_init, fsm_trans_buzzer, fsm_origins]
  · intro n w w1 h0 h
    exact fsm_fire_n_state_in_table (fun w : world => w.buzzer.current_state) buzzer_set_state
      (fun _ _ => rfl) fsm_trans_buzzer hz n w w1 h0 h
  · intro s
    cases s <;> simp [fsm_trans_buzzer, fsm_origins]
  · intro a b c d e f g
    simp [fsm_jukebox_init, fms_trans_jukebox, fsm_origins]
  · intro n w w1 h0 h
    exact fsm_fire_n_state_in_table (fun w : world => w.jukebox.current_state) jukebox_set_state
      (fun _ _ => rfl) (fms_trans_jukebox atof garbage) hj n w w1 h0 h
  · intro s
    cases s <;> simp [fms_trans_jukebox, fsm_origins]

/-- C30, closed instance: two fires of the jukebox from the sample state, which is idle in
`WAIT_COMMAND`, end in `SLEEP_WHILE_ON`, an origin of the table. -/
theorem current_state_stays_in_table_witness :
    (fsm_fire_n (fsm_jukebox_fire demo_atof demo_garbage) 2 demo_world).map
        (fun w => w.jukebox.current_state) = some FSM_JUKEBOX.SLEEP_WHILE_ON ∧
    ∀ w1, fsm_fire_n (fsm_jukebox_fire demo_atof demo_garbage) 2 demo_world = some w1 →
      w1.jukebox.current_state ∈ fsm_origins (fms_trans_jukebox demo_atof demo_garbage) :=
  ⟨by decide, fun w1 h =>
    (current_state_stays_in_table demo_atof demo_garbage).2.2.2.2.2.1 2 demo_world w1
      (by simp [demo_world, fms_trans_jukebox, fsm_origins]) h⟩

/-! ## The button FSM: a completed press is longer than the debounce time -/

theorem button_run_cycle_invariant (tick : Nat → Nat) (pressed : Nat → Bool) (w : world)
    (n : Nat)
    (hs : w.button.current_state = FSM_BUTTON.BUTTON_RELEASED)
    (hmono : ∀ k, k < n → tick k ≤ tick (k + 1))
    (hwrap : ∀ k, k ≤ n → tick k + w.button.debounce_time < UINT32_MOD) (k : Nat)
    (hk : k ≤ n) :
    ∃ wk, button_run tick pressed w k = some wk ∧
      wk.button.debounce_time = w.button.debounce_time ∧
      (wk.button.current_state = FSM_BUTTON.BUTTON_PRESSED_WAIT →
        wk.button.next_timeout = wk.button.tick_pressed + w.button.debounce_time ∧
        wk.button.tick_pressed ≤ tick k) ∧
      (wk.button.current_state = FSM_BUTTON.BUTTON_PRESSED →
        wk.button.tick_pressed + w.button.debounce_time < tick k) := by
  have hstep : ∀ (j : Nat) (v : world), j ≤ n →
      v.button.debounce_time = w.button.debounce_time →
      (v.button.current_state = FSM_BUTTON.BUTTON_PRESSED_WAIT →
        v.button.next_timeout = v.button.tick_pressed + w.button.debounce_time ∧
        v.button.tick_pressed ≤ tick j) →
      (v.button.current_state = FSM_BUTTON.BUTTON_PRESSED →
        v.button.tick_pressed + w.button.debounce_time < tick j) →
      ∃ v1, fsm_button_fire (env_button (tick j) (pressed j) v) = some v1 ∧
        v1.button.debounce_time = w.button.debounce_time ∧
        (v1.button.current_state = FSM_BUTTON.BUTTON_PRESSED_WAIT →
          v1.button.next_timeout = v1.button.tick_pressed + w.button.debounce_time ∧
          v1.button.tick_pressed ≤ tick j) ∧
        (v1.button.current_state = FSM_BUTTON.BUTTON_PRESSED →
          v1.button.tick_pressed + w.button.debounce_time < tick j) := by
    intro j v hj hd hpw hp
    have hw := hwrap j hj
    cases hst : v.button.current_state with
    | BUTTON_RELEASED =>
      refine ⟨_, button_fire_from_released _ (by simpa [env_button] using hst), ?_⟩
      cases hf : pressed j with
      | true =>
        simp only [env_button, button_set_state, do_store_tick_pressed, hd, if_true]
        exact ⟨trivial, fun _ => ⟨Nat.mod_eq_of_lt hw, Nat.le_refl _⟩, fun h => by simp at h⟩
      | false =>
        simp only [env_button, Bool.false_eq_true, if_false]
        exact ⟨hd, fun h => by simp [hst] at h, fun h => by simp [hst] at h⟩
    | BUTTON_PRESSED_WAIT =>
      obtain ⟨h1, h2⟩ := hpw hst
      refine ⟨_, button_fire_from_pressed_wait _ (by simpa [env_button] using hst), ?_⟩
      by_cases hgt : tick j > v.button.next_timeout
      · simp only [env_button, hgt, if_true, button_set_state]
        exact ⟨hd, fun h => by simp at h, fun _ => by omega⟩
      · simp only [env_button, hgt, if_false]
        exact ⟨hd, fun _ => ⟨h1, h2⟩, fun h => by simp [hst] at h⟩
    | BUTTON_PRESSED =>
      have h1 := hp hst
      refine ⟨_, button_fire_from_pressed _ (by simpa [env_button] using hst), ?_⟩
      cases hf : pressed j with
      | true =>
        simp only [env_button, if_true]
        exact ⟨hd, fun h => by simp [hst] at h, fun _ => h1⟩
      | false =>
        simp only [env_button, Bool.false_eq_true, if_false, button_set_state, do_set_duration]
        exact ⟨hd, fun h => by simp at h, fun h => by simp at h⟩
    | BUTTON_RELEASED_WAIT =>
      refine ⟨_, button_fire_from_released_wait _ (by simpa [env_button] using hst), ?_⟩
      by_cases hgt : tick j > v.button.next_timeout
      · simp only [env_button, hgt, if_true, button_set_state]
        exact ⟨hd, fun h => by simp at h, fun h => by simp at h⟩
      · simp only [env_button, hgt, if_false]
        exact ⟨hd, fun h => by simp [hst] at h, fun h => by simp [hst] at h⟩
  induction k with
  | zero =>
    obtain ⟨v1, hf, h1, h2, h3⟩ := hstep 0 w hk rfl (fun h => by simp [hs] at h)
      (fun h => by simp [hs] at h)
    exact ⟨v1, by simpa [button_run] using hf, h1, h2, h3⟩
  | succ k ih =>
    obtain ⟨wk, hrun, hd, hpw, hp⟩ := ih (by omega)
    have hm := hmono k (by omega)
    obtain ⟨v1, hf, h1, h2, h3⟩ := hstep (k + 1) wk hk hd
      (fun h => ⟨(hpw h).1, le_trans (hpw h).2 hm⟩) (fun h => lt_of_lt_of_le (hp h) hm)
    exact ⟨v1, by simp [button_run, hrun, hf], h1, h2, h3⟩

/-- C38: a button FSM in `BUTTON_RELEASED` is fired at the instants
`tick 0 ≤ tick 1 ≤ ... ≤ tick n` of a counter that does not wrap, with any values of the button
flag. Every fire is defined, and whenever a fire finds the FSM in `BUTTON_PRESSED` and leaves it
in `BUTTON_RELEASED_WAIT`, the duration it stores is the time since the press was recorded and
is greater than `debounce_time`. The only row that leaves `BUTTON_PRESSED_WAIT` goes to
`BUTTON_PRESSED`, and its guard does not read the button flag: in `BUTTON_PRESSED_WAIT` a fire
later than `next_timeout` moves to `BUTTON_PRESSED` also when the flag is already cleared. -/
theorem completed_press_exceeds_debounce (tick : Nat → Nat) (pressed : Nat → Bool) (w : world)
    (n : Nat)
    (hs : w.button.current_state = FSM_BUTTON.BUTTON_RELEASED)
    (hmono : ∀ k, k < n → tick k ≤ tick (k + 1))
    (hwrap : ∀ k, k ≤ n → tick k + w.button.debounce_time < UINT32_MOD) :
    (∀ k, k ≤ n → ∃ wk, button_run tick pressed w k = some wk) ∧
    (∀ k wk wk1, k < n → button_run tick pressed w k = some wk →
      button_run tick pressed w (k + 1) = some wk1 →
      wk.button.current_state = FSM_BUTTON.BUTTON_PRESSED →
      wk1.button.current_state = FSM_BUTTON.BUTTON_RELEASED_WAIT →
      wk1.button.duration = tick (k + 1) - wk.button.tick_pressed ∧
      wk1.button.duration > w.button.debounce_time) ∧
    (∀ t ∈ fsm_trans_button, t.orig_state = FSM_BUTTON.BUTTON_PRESSED_WAIT →
      t.dest_state = FSM_BUTTON.BUTTON_PRESSED) ∧
    (∀ v : world, v.button.current_state = FSM_BUTTON.BUTTON_PRESSED_WAIT →
      v.msTicks > v.button.next_timeout → v.buttons_arr.flag_pressed = false →
      fsm_button_fire v = some (button_set_state FSM_BUTTON.BUTTON_PRESSED v)) := by
  refine ⟨fun k hk => ?_, ?_, ?_, ?_⟩
  · obtain ⟨wk, h, _⟩ := button_run_cycle_invariant tick pressed w n hs hmono hwrap k hk
    exact ⟨wk, h⟩
  · intro k wk wk1 hkn hk hk1 hp hr
    obtain ⟨v, hv, hd, _, hpr⟩ :=
      button_run_cycle_invariant tick pressed w n hs hmono hwrap k (by omega)
    rw [hk] at hv
    simp only [Option.some.injEq] at hv
    subst hv
    have h1 := hpr hp
    have hm := hmono k hkn
    have hw := hwrap (k + 1) (by omega)
    simp only [button_run, hk, Option.some_bind] at hk1
    rw [button_fire_from_pressed _ (by simpa [env_button] using hp)] at hk1
    simp only [Option.some.injEq] at hk1
    cases hf : pressed (k + 1) with
    | true =>
      simp only [env_button, hf, if_true] at hk1
      rw [← hk1] at hr
      simp [hp] at hr
    | false =>
      simp only [env_button, hf, Bool.false_eq_true, if_false] at hk1
      have hdur : wk1.button.duration = tick (k + 1) - wk.button.tick_pressed := by
        rw [← hk1]
        simp only [button_set_state, do_set_duration]
        exact uint32_sub_no_wrap _ _ (by omega) (by omega)
      exact ⟨hdur, by omega⟩
  · simp [fsm_trans_button]
  · intro v hv hgt _
    rw [button_fire_from_pressed_wait v hv]
    simp [hgt]

/-- C38, closed instance: a button with a debounce time of 2 ticks, fired at every tick from
tick 5, sees the flag set at tick 5 only; it is still in `BUTTON_PRESSED_WAIT` at tick 7, in
`BUTTON_PRESSED` at tick 8, and stores a duration of 4 ticks at tick 9. -/
theorem completed_press_exceeds_debounce_witness :
    (button_run (fun i => 5 + i) (fun i => decide (i = 0))
        { demo_world with button := fsm_button_init 0 2 0 } 2).map
        (fun v => v.button.current_state) = some FSM_BUTTON.BUTTON_PRESSED_WAIT ∧
    (button_run (fun i => 5 + i) (fun i => decide (i = 0))
        { demo_world with button := fsm_button_init 0 2 0 } 3).map
        (fun v => v.button.current_state) = some FSM_BUTTON.BUTTON_PRESSED ∧
    (button_run (fun i => 5 + i) (fun i => decide (i = 0))
        { demo_world with button := fsm_button_init 0 2 0 } 4).map
        (fun v => (v.button.current_state, v.button.duration)) =
      some (FSM_BUTTON.BUTTON_RELEASED_WAIT, 4) ∧
    ∀ k wk wk1, k < 10 →
      button_run (fun i => 5 + i) (fun i => decide (i = 0))
        { demo_world with button := fsm_button_init 0 2 0 } k = some wk →
      button_run (fun i => 5 + i) (fun i => decide (i = 0))
        { demo_world with button := fsm_button_init 0 2 0 } (k + 1) = some wk1 →
      wk.button.current_state = FSM_BUTTON.BUTTON_PRESSED →
      wk1.button.current_state = FSM_BUTTON.BUTTON_RELEASED_WAIT →
      wk1.button.duration = 5 + (k + 1) - wk.button.tick_pressed ∧
      wk1.button.duration > 2 :=
  ⟨by decide, by decide, by decide,
    (completed_press_exceeds_debounce (fun i => 5 + i) (fun i => decide (i = 0))
      { demo_world with button := fsm_button_init 0 2 0 } 10
      rfl (fun k _ => Nat.add_le_add_left (Nat.le_succ k) 5)
      (fun k hk => Nat.lt_of_le_of_lt
        (Nat.add_le_add_right (Nat.add_le_add_left hk 5) 2) (by decide))).2.1⟩

/-! ## The button FSM: 32-bit tick arithmetic -/

theorem uint32_sub_wraps (T0 e : Nat) (he : e < UINT32_MOD) :
    (((((T0 + e) % UINT32_MOD : Nat) : Int) - (T0 : Int)) % (UINT32_MOD : Int)).toNat = e := by
  have h1 : (UINT32_MOD : Int) = 4294967296 := rfl
  have h2 : UINT32_MOD = 4294967296 := rfl
  rw [h1, h2]
  rw [h2] at he
  omega

/-- C33: the duration stored at a release is `(now - tick_pressed) mod 2 ^ 32`, so it is the
elapsed time `e < 2 ^ 32` also when the counter has wrapped between the press at `T0` and the
release at `(T0 + e) mod 2 ^ 32`; and `next_timeout` is `(now + debounce_time) mod 2 ^ 32`, so
when a press (a release) is acted upon at a tick `T` with `T + debounce_time ≥ 2 ^ 32` and
`T + 1` is still below `2 ^ 32`, the stored `next_timeout` is `T + debounce_time - 2 ^ 32`, the
guard `check_timeout` holds at tick `T + 1` and the fire at that tick ends the debounce wait,
one tick after `T` although `debounce_time` is at least 2. At the last tick before the wrap,
`T = 2 ^ 32 - 1`, the next tick is 0 and the guard does not hold there for a debounce time of
at least 1. -/
theorem tick_arithmetic_is_modular (w : world) (T : Nat) (flag : Bool)
    (hover : T + w.button.debounce_time ≥ UINT32_MOD)
    (hnext : T + 1 < UINT32_MOD)
    (hd : w.button.debounce_time < UINT32_MOD) :
    (∀ (v : world) (T0 e : Nat), e < UINT32_MOD →
      v.button.current_state = FSM_BUTTON.BUTTON_PRESSED → v.button.tick_pressed = T0 →
      ∃ v1, fsm_button_fire (env_button ((T0 + e) % UINT32_MOD) false v) = some v1 ∧
        v1.button.current_state = FSM_BUTTON.BUTTON_RELEASED_WAIT ∧
        v1.button.duration = e) ∧
    (w.button.current_state = FSM_BUTTON.BUTTON_RELEASED →
      ∃ w1, fsm_button_fire (env_button T true w) = some w1 ∧
        w1.button.current_state = FSM_BUTTON.BUTTON_PRESSED_WAIT ∧
        w1.button.tick_pressed = T ∧
        w1.button.next_timeout = (T + w.button.debounce_time) % UINT32_MOD ∧
        w1.button.next_timeout = T + w.button.debounce_time - UINT32_MOD ∧
        check_timeout (env_button (T + 1) flag w1) = true ∧
        fsm_button_fire (env_button (T + 1) flag w1) =
          some (button_set_state FSM_BUTTON.BUTTON_PRESSED (env_button (T + 1) flag w1))) ∧
    (w.button.current_state = FSM_BUTTON.BUTTON_PRESSED →
      ∃ w1, fsm_button_fire (env_button T false w) = some w1 ∧
        w1.button.current_state = FSM_BUTTON.BUTTON_RELEASED_WAIT ∧
        w1.button.next_timeout = (T + w.button.debounce_time) % UINT32_MOD ∧
        w1.button.next_timeout = T + w.button.debounce_time - UINT32_MOD ∧
        check_timeout (env_button (T + 1) flag w1) = true ∧
        fsm_button_fire (env_button (T + 1) flag w1) =
          some (button_set_state FSM_BUTTON.BUTTON_RELEASED (env_button (T + 1) flag w1))) ∧
    1 < w.button.debounce_time ∧
    (∀ v : world, v.button.current_state = FSM_BUTTON.BUTTON_RELEASED →
      1 ≤ v.button.debounce_time → v.button.debounce_time < UINT32_MOD →
      ∃ v1, fsm_button_fire (env_button (UINT32_MOD - 1) true v) = some v1 ∧
        v1.button.next_timeout = v.button.debounce_time - 1 ∧
        check_timeout (env_button 0 flag v1) = false) := by
  have hM : UINT32_MOD = 4294967296 := rfl
  have hmod : (T + w.button.debounce_time) % UINT32_MOD =
      T + w.button.debounce_time - UINT32_MOD := by
    rw [hM]
    rw [hM] at hover hd hnext
    omega
  have hlt : T + w.button.debounce_time - UINT32_MOD < T + 1 := by
    rw [hM]
    rw [hM] at hover hd
    omega
  refine ⟨?_, ?_, ?_, ?_, ?_⟩
  · intro v T0 e he hs ht
    refine ⟨_, button_fire_from_pressed _ (by simpa [env_button] using hs), ?_, ?_⟩
    · simp [env_button, button_set_state]
    · simp only [env_button, Bool.false_eq_true, if_false, button_set_state, do_set_duration, ht]
      exact uint32_sub_wraps T0 e he
  · intro hs
    have hnt : (button_set_state FSM_BUTTON.BUTTON_PRESSED_WAIT
        (do_store_tick_pressed (env_button T true w))).button.next_timeout =
        T + w.button.debounce_time - UINT32_MOD := by
      simp only [env_button, button_set_state, do_store_tick_pressed]
      exact hmod
    refine ⟨button_set_state FSM_BUTTON.BUTTON_PRESSED_WAIT
        (do_store_tick_pressed (env_button T true w)), ?_, rfl, rfl, ?_, hnt, ?_, ?_⟩
    · rw [button_fire_from_released _ (by simpa [env_button] using hs)]
      simp [env_button]
    · rw [hnt, hmod]
    · show decide (T + 1 > (button_set_state FSM_BUTTON.BUTTON_PRESSED_WAIT
        (do_store_tick_pressed (env_button T true w))).button.next_timeout) = true
      rw [hnt]
      exact decide_eq_true hlt
    · rw [button_fire_from_pressed_wait _ (by simp [env_button, button_set_state])]
      have : (env_button (T + 1) flag (button_set_state FSM_BUTTON.BUTTON_PRESSED_WAIT
          (do_store_tick_pressed (env_button T true w)))).msTicks >
          (env_button (T + 1) flag (button_set_state FSM_BUTTON.BUTTON_PRESSED_WAIT
          (do_store_tick_pressed (env_button T true w)))).button.next_timeout := by
        show T + 1 > (button_set_state FSM_BUTTON.BUTTON_PRESSED_WAIT
          (do_store_tick_pressed (env_button T true w))).button.next_timeout
        rw [hnt]
        exact hlt
      simp [this]
  · intro hs
    have hnt : (button_set_state FSM_BUTTON.BUTTON_RELEASED_WAIT
        (do_set_duration (env_button T false w))).button.next_timeout =
        T + w.button.debounce_time - UINT32_MOD := by
      simp only [env_button, button_set_state, do_set_duration]
      exact hmod
    refine ⟨button_set_state FSM_BUTTON.BUTTON_RELEASED_WAIT
        (do_set_duration (env_button T false w)), ?_, rfl, ?_, hnt, ?_, ?_⟩
    · rw [button_fire_from_pressed _ (by simpa [env_button] using hs)]
      simp [env_button]
    · rw [hnt, hmod]
    · show decide (T + 1 > (button_set_state FSM_BUTTON.BUTTON_RELEASED_WAIT
        (do_set_duration (env_button T false w))).button.next_timeout) = true
      rw [hnt]
      exact decide_eq_true hlt
    · rw [button_fire_from_released_wait _ (by simp [env_button, button_set_state])]
      have : (env_button (T + 1) flag (button_set_state FSM_BUTTON.BUTTON_RELEASED_WAIT
          (do_set_duration (env_button T false w)))).msTicks >
          (env_button (T + 1) flag (button_set_state FSM_BUTTON.BUTTON_RELEASED_WAIT
          (do_set_duration (env_button T false w)))).button.next_timeout := by
        show T + 1 > (button_set_state FSM_BUTTON.BUTTON_RELEASED_WAIT
          (do_set_duration (env_button T false w))).button.next_timeout
        rw [hnt]
        exact hlt
      simp [this]
  · rw [hM] at hover hnext
    omega
  · intro v hs h1 h2
    have hnt : (button_set_state FSM_BUTTON.BUTTON_PRESSED_WAIT
        (do_store_tick_pressed (env_button (UINT32_MOD - 1) true v))).button.next_timeout =
        v.button.debounce_time - 1 := by
      simp only [env_button, button_set_state, do_store_tick_pressed]
      rw [hM]
      rw [hM] at h2
      omega
    refine ⟨button_set_state FSM_BUTTON.BUTTON_PRESSED_WAIT
        (do_store_tick_pressed (env_button (UINT32_MOD - 1) true v)), ?_, hnt, ?_⟩
    · rw [button_fire_from_released _ (by simpa [env_button] using hs)]
      simp [env_button]
    · show decide (0 > (button_set_state FSM_BUTTON.BUTTON_PRESSED_WAIT
        (do_store_tick_pressed (env_button (UINT32_MOD - 1) true v))).button.next_timeout) = false
      simp

/-- C33, closed instance: the sample button (debounce 150 ms) pressed at tick `2 ^ 32 - 100`:
`next_timeout` is 50 and the fire at tick `2 ^ 32 - 99` already moves to `BUTTON_PRESSED`; and a
press recorded at tick `2 ^ 32 - 100` and released 300 ticks later, at tick 200 after the wrap,
stores a duration of 300. -/
theorem tick_arithmetic_is_modular_witness :
    (∃ w1, fsm_button_fire (env_button 4294967196 true demo_world) = some w1 ∧
      w1.button.current_state = FSM_BUTTON.BUTTON_PRESSED_WAIT ∧
      w1.button.next_timeout = 50 ∧
      (fsm_button_fire (env_button 4294967197 true w1)).map
        (fun v => v.button.current_state) = some FSM_BUTTON.BUTTON_PRESSED) ∧
    (∃ v1, fsm_button_fire (env_button 200 false
        { demo_world with button :=
          { demo_world.button with current_state := .BUTTON_PRESSED, tick_pressed := 4294967196 } })
        = some v1 ∧
      v1.button.current_state = FSM_BUTTON.BUTTON_RELEASED_WAIT ∧
      v1.button.duration = 300) :=
  have h := tick_arithmetic_is_modular demo_world 4294967196 true (by decide) (by decide)
    (by decide)
  ⟨(h.2.1 rfl).elim fun w1 hw =>
      ⟨w1, hw.1, hw.2.1, by rw [hw.2.2.2.2.1]; rfl, by rw [hw.2.2.2.2.2.2]; rfl⟩,
    h.1 { demo_world with button :=
      { demo_world.button with current_state := .BUTTON_PRESSED, tick_pressed := 4294967196 } }
      4294967196 300 (by decide) rfl rfl⟩

/-! ## The transmit interrupt: sending a message -/

theorem port_usart_write_n_prefix (h : port_usart_hw_t) (j : Nat) (hj : j ≤ 99)
    (ho : h.o_idx = 0)
    (hpre : ∀ i, i < j → ∃ b, h.output_buffer[i]? = some b ∧ b ≠ 0 ∧ b ≠ END_CHAR_CONSTANT) :
    port_usart_write_n j h =
      some { h with o_idx := j, DR_written := h.DR_written ++ h.output_buffer.take j } := by
  induction j with
  | zero =>
    cases h
    simp only [port_usart_write_n] at *
    simp [ho]
  | succ j ih =>
    obtain ⟨b, hb, hb0, hbn⟩ := hpre j (by omega)
    have hd : h.output_buffer.getD j 0 = b := by simp [List.getD_eq_getElem?_getD, hb]
    have h1 : j < USART_OUTPUT_BUFFER_LENGTH := by
      show j < 100
      omega
    have h2 : ¬ (j = USART_OUTPUT_BUFFER_LENGTH - 1 ∨ b = END_CHAR_CONSTANT) := by
      intro hc
      rcases hc with hc | hc
      · have : j = 99 := hc
        omega
      · exact hbn hc
    have h3 : (j + 1) % 256 = j + 1 := Nat.mod_eq_of_lt (by omega)
    have ht : h.output_buffer.take (j + 1) = h.output_buffer.take j ++ [b] := by
      rw [List.take_succ, hb]
      rfl
    rw [port_usart_write_n, ih (by omega) (fun i hi => hpre i (by omega))]
    simp only [Option.some_bind, port_usart_write_data, h1, if_true, hd, h2, if_false, ne_eq, hb0,
      not_false_eq_true, h3, ht, List.append_assoc]

theorem port_usart_write_data_stuck (g : port_usart_hw_t)
    (h1 : g.o_idx < USART_OUTPUT_BUFFER_LENGTH - 1)
    (h2 : g.output_buffer.getD g.o_idx 0 = EMPTY_BUFFER_CONSTANT) :
    port_usart_write_data g = some g := by
  have h3 : g.o_idx < USART_OUTPUT_BUFFER_LENGTH := by
    have : g.o_idx < 99 := h1
    show g.o_idx < 100
    omega
  have h4 : ¬ (g.o_idx = USART_OUTPUT_BUFFER_LENGTH - 1 ∨
      EMPTY_BUFFER_CONSTANT = END_CHAR_CONSTANT) := by
    intro hc
    rcases hc with hc | hc
    · have : g.o_idx < 99 := h1
      have : g.o_idx = 99 := hc
      omega
    · exact absurd hc (by decide)
  simp only [port_usart_write_data, h3, if_true, h2, h4, if_false, ne_eq, not_true_eq_false]

theorem port_usart_write_n_stuck (g : port_usart_hw_t)
    (h1 : g.o_idx < USART_OUTPUT_BUFFER_LENGTH - 1)
    (h2 : g.output_buffer.getD g.o_idx 0 = EMPTY_BUFFER_CONSTANT) (n : Nat) :
    port_usart_write_n n g = some g := by
  induction n with
  | zero => rfl
  | succ n ih => simp [port_usart_write_n, ih, port_usart_write_data_stuck g h1 h2]

theorem port_usart_write_n_add (m n : Nat) (h : port_usart_hw_t) :
    port_usart_write_n (m + n) h = (port_usart_write_n m h).bind (port_usart_write_n n) := by
  induction n with
  | zero => simp [port_usart_write_n]
  | succ n ih =>
    rw [← Nat.add_assoc, port_usart_write_n, ih]
    cases port_usart_write_n m h with
    | none => rfl
    | some g => simp [port_usart_write_n]

/-- C39: for an output buffer whose first newline is at index `k ≤ 99` with no zero byte
before it, from `o_idx = 0` and `write_complete = false`: after `j ≤ k` calls of
`port_usart_write_data` the bytes `0 .. j-1` have been written to the data register in order,
`o_idx` is `j` and `write_complete` is still false; the call number `k + 1` writes the newline,
sets `write_complete`, brings `o_idx` back to 0 and disables the transmit interrupt. A call
that finds a zero byte at `o_idx`, with `o_idx` below 99, returns the port as it is; so for a
buffer with a zero byte at an index `m ≤ 98` and neither zero nor newline before it, no number
of calls sets `write_complete`. -/
theorem write_data_sends_message (h : port_usart_hw_t) (k : Nat)
    (hk : k ≤ 99)
    (hnl : h.output_buffer[k]? = some END_CHAR_CONSTANT)
    (hpre : ∀ i, i < k → ∃ b, h.output_buffer[i]? = some b ∧ b ≠ 0 ∧ b ≠ END_CHAR_CONSTANT)
    (ho : h.o_idx = 0)
    (hwc : h.write_complete = false) :
    (∀ j, j ≤ k → ∃ g, port_usart_write_n j h = some g ∧
      g.DR_written = h.DR_written ++ h.output_buffer.take j ∧
      g.o_idx = j ∧ g.write_complete = false) ∧
    (∃ g, port_usart_write_n (k + 1) h = some g ∧
      g.DR_written = h.DR_written ++ h.output_buffer.take (k + 1) ∧
      g.write_complete = true ∧ g.o_idx = 0 ∧ g.CR1_TXEIE = false ∧
      g.output_buffer = h.output_buffer ∧ g.input_buffer = h.input_buffer ∧
      g.i_idx = h.i_idx ∧ g.read_complete = h.read_complete ∧
      g.CR1_RXNEIE = h.CR1_RXNEIE) ∧
    (∀ g : port_usart_hw_t, g.o_idx < 99 → g.output_buffer[g.o_idx]? = some 0 →
      port_usart_write_data g = some g) ∧
    (∀ (g : port_usart_hw_t) (m : Nat), m ≤ 98 → g.o_idx = 0 → g.write_complete = false →
      g.output_buffer[m]? = some 0 →
      (∀ i, i < m → ∃ b, g.output_buffer[i]? = some b ∧ b ≠ 0 ∧ b ≠ END_CHAR_CONSTANT) →
      ∀ n, ∃ g1, port_usart_write_n n g = some g1 ∧ g1.write_complete = false ∧
        g1.o_idx ≤ m ∧ g1.DR_written = g.DR_written ++ g.output_buffer.take g1.o_idx) := by
  refine ⟨?_, ?_, ?_, ?_⟩
  · intro j hj
    exact ⟨_, port_usart_write_n_prefix h j (by omega) ho (fun i hi => hpre i (by omega)),
      rfl, rfl, hwc⟩
  · have hrun := port_usart_write_n_prefix h k hk ho hpre
    have hd : h.output_buffer.getD k 0 = END_CHAR_CONSTANT := by
      simp [List.getD_eq_getElem?_getD, hnl]
    have h1 : k < USART_OUTPUT_BUFFER_LENGTH := by
      show k < 100
      omega
    have ht : h.output_buffer.take (k + 1) = h.output_buffer.take k ++ [END_CHAR_CONSTANT] := by
      rw [List.take_succ, hnl]
      rfl
    have hlast : port_usart_write_n (k + 1) h =
        some { h with o_idx := 0, write_complete := true, CR1_TXEIE := false,
                      DR_written := h.DR_written ++ h.output_buffer.take (k + 1) } := by
      rw [port_usart_write_n, hrun]
      simp only [Option.some_bind, port_usart_write_data, h1, if_true, hd, or_true,
        port_usart_disable_tx_interrupt, ht, List.append_assoc]
    exact ⟨_, hlast, rfl, rfl, rfl, rfl, rfl, rfl, rfl, rfl, rfl⟩
  · intro g h1 h2
    exact port_usart_write_data_stuck g h1 (by simp [List.getD_eq_getElem?_getD, h2])
  · intro g m hm ho1 hwc1 hz hpre1 n
    have hrun := port_usart_write_n_prefix g m (by omega) ho1 hpre1
    by_cases hn : n ≤ m
    · exact ⟨_, port_usart_write_n_prefix g n (by omega) ho1 (fun i hi => hpre1 i (by omega)),
        hwc1, hn, rfl⟩
    · have hsplit : n = m + (n - m) := by omega
      refine ⟨{ g with o_idx := m, DR_written := g.DR_written ++ g.output_buffer.take m }, ?_,
        hwc1, Nat.le_refl _, rfl⟩
      rw [hsplit, port_usart_write_n_add, hrun]
      exact port_usart_write_n_stuck
        { g with o_idx := m, DR_written := g.DR_written ++ g.output_buffer.take m }
        (by show m < 99; omega)
        (by show g.output_buffer.getD m 0 = EMPTY_BUFFER_CONSTANT
            simp [List.getD_eq_getElem?_getD, hz]) (n - m)

/-- C39, closed instance: the message "ok\n" in a cleared port with the transmit interrupt
enabled takes three calls; the message "ok" without newline never completes. -/
theorem write_data_sends_message_witness :
    (∃ g, port_usart_write_n 3
        ⟨List.replicate 10 0, 0, false, [111, 107, 10] ++ List.replicate 97 0, 0, false, true,
          true, []⟩ = some g ∧
      g.DR_written = [111, 107, 10] ∧ g.write_complete = true ∧ g.o_idx = 0 ∧
      g.CR1_TXEIE = false) ∧
    (∀ n, ∃ g1, port_usart_write_n n
        ⟨List.replicate 10 0, 0, false, [111, 107] ++ List.replicate 98 0, 0, false, true,
          true, []⟩ = some g1 ∧
      g1.write_complete = false) :=
  have h := write_data_sends_message
    ⟨List.replicate 10 0, 0, false, [111, 107, 10] ++ List.replicate 97 0, 0, false, true,
      true, []⟩ 2 (by decide) (by decide)
    (fun i hi => by
      have hc : i = 0 ∨ i = 1 := by omega
      rcases hc with hc | hc
      · exact ⟨111, by rw [hc]; decide, by decide, by decide⟩
      · exact ⟨107, by rw [hc]; decide, by decide, by decide⟩) rfl rfl
  ⟨h.2.1.elim fun g hg => ⟨g, hg.1, hg.2.1, hg.2.2.1, hg.2.2.2.1, hg.2.2.2.2.1⟩,
    fun n => (h.2.2.2
      ⟨List.replicate 10 0, 0, false, [111, 107] ++ List.replicate 98 0, 0, false, true,
        true, []⟩ 2 (by decide) rfl rfl (by decide)
      (fun i hi => by
        have hc : i = 0 ∨ i = 1 := by omega
        rcases hc with hc | hc
        · exact ⟨111, by rw [hc]; decide, by decide, by decide⟩
        · exact ⟨107, by rw [hc]; decide, by decide, by decide⟩) n).elim
      fun g1 hg => ⟨g1, hg.1, hg.2.1⟩⟩

/-! ## The USART FSM: a message stored during a transmission -/

theorem port_usart_store_data_keeps_output (DR : Nat) (h g : port_usart_hw_t)
    (hg : port_usart_store_data DR h = some g) : g.output_buffer = h.output_buffer := by
  simp only [port_usart_store_data] at hg
  split at hg
  · split at hg
    · simp only [Option.some.injEq] at hg
      subst hg
      split <;> rfl
    · exact absurd hg (by simp)
  · simp only [Option.some.injEq] at hg
    subst hg
    rfl

theorem port_usart_write_data_keeps_output (h g : port_usart_hw_t)
    (hg : port_usart_write_data h = some g) : g.output_buffer = h.output_buffer := by
  simp only [port_usart_write_data] at hg
  split at hg
  · split at hg
    · simp only [Option.some.injEq] at hg
      subst hg
      rfl
    · split at hg
      · simp only [Option.some.injEq] at hg
        subst hg
        rfl
      · simp only [Option.some.injEq] at hg
        subst hg
        rfl
  · exact absurd hg (by simp)

theorem usart_apply_keeps_dropped_message (e : usart_event) (v v1 : world) (X B : List Nat)
    (he : ∀ p, e ≠ usart_event.set_out_data p)
    (hinv : (v.usart.current_state = FSM_USART.SEND_DATA ∧ v.usart.out_data = X ∧
        v.usart_arr.output_buffer = B) ∨
      (v.usart.current_state = FSM_USART.WAIT_DATA ∧
        v.usart.out_data = List.replicate USART_OUTPUT_BUFFER_LENGTH EMPTY_BUFFER_CONSTANT ∧
        v.usart_arr.output_buffer = _reset_buffer USART_OUTPUT_BUFFER_LENGTH))
    (h : usart_apply e v = some v1) :
    (v1.usart.current_state = FSM_USART.SEND_DATA ∧ v1.usart.out_data = X ∧
        v1.usart_arr.output_buffer = B) ∨
      (v1.usart.current_state = FSM_USART.WAIT_DATA ∧
        v1.usart.out_data = List.replicate USART_OUTPUT_BUFFER_LENGTH EMPTY_BUFFER_CONSTANT ∧
        v1.usart_arr.output_buffer = _reset_buffer USART_OUTPUT_BUFFER_LENGTH) := by
  cases e with
  | fire =>
    simp only [usart_apply] at h
    rcases hinv with ⟨hs, ho, hb⟩ | ⟨hs, ho, hb⟩
    · rw [usart_fire_from_send_data v hs] at h
      split at h
      · simp only [Option.some.injEq] at h
        subst h
        exact Or.inr ⟨rfl, rfl, rfl⟩
      · simp only [Option.some.injEq] at h
        subst h
        exact Or.inl ⟨hs, ho, hb⟩
    · have htx : check_data_tx v = false := by simp [check_data_tx, ho]
      rw [usart_fire_from_wait_data v hs] at h
      simp only [htx, Bool.false_eq_true, if_false] at h
      split at h
      · simp only [Option.some.injEq] at h
        subst h
        exact Or.inr ⟨rfl, ho, hb⟩
      · simp only [Option.some.injEq] at h
        subst h
        exact Or.inr ⟨hs, ho, hb⟩
  | rx_interrupt DR =>
    simp only [usart_apply, Option.map_eq_some'] at h
    obtain ⟨a, ha, hv⟩ := h
    have hk := port_usart_store_data_keeps_output DR _ a ha
    subst hv
    rcases hinv with ⟨hs, ho, hb⟩ | ⟨hs, ho, hb⟩
    · exact Or.inl ⟨hs, ho, by rw [← hb]; exact hk⟩
    · exact Or.inr ⟨hs, ho, by rw [← hb]; exact hk⟩
  | tx_interrupt =>
    simp only [usart_apply, Option.map_eq_some'] at h
    obtain ⟨a, ha, hv⟩ := h
    have hk := port_usart_write_data_keeps_output _ a ha
    subst hv
    rcases hinv with ⟨hs, ho, hb⟩ | ⟨hs, ho, hb⟩
    · exact Or.inl ⟨hs, ho, by rw [← hb]; exact hk⟩
    · exact Or.inr ⟨hs, ho, by rw [← hb]; exact hk⟩
  | set_out_data p => exact absurd rfl (he p)
  | reset_input_data =>
    simp only [usart_apply, Option.some.injEq] at h
    subst h
    exact hinv

theorem usart_events_keep_dropped_message (evs : List usart_event) (v v1 : world)
    (X B : List Nat)
    (he : ∀ p, usart_event.set_out_data p ∉ evs)
    (hinv : (v.usart.current_state = FSM_USART.SEND_DATA ∧ v.usart.out_data = X ∧
        v.usart_arr.output_buffer = B) ∨
      (v.usart.current_state = FSM_USART.WAIT_DATA ∧
        v.usart.out_data = List.replicate USART_OUTPUT_BUFFER_LENGTH EMPTY_BUFFER_CONSTANT ∧
        v.usart_arr.output_buffer = _reset_buffer USART_OUTPUT_BUFFER_LENGTH))
    (h : usart_events_run evs v = some v1) :
    (v1.usart.current_state = FSM_USART.SEND_DATA ∧ v1.usart.out_data = X ∧
        v1.usart_arr.output_buffer = B) ∨
      (v1.usart.current_state = FSM_USART.WAIT_DATA ∧
        v1.usart.out_data = List.replicate USART_OUTPUT_BUFFER_LENGTH EMPTY_BUFFER_CONSTANT ∧
        v1.usart_arr.output_buffer = _reset_buffer USART_OUTPUT_BUFFER_LENGTH) := by
  induction evs generalizing v with
  | nil =>
    simp only [usart_events_run, Option.some.injEq] at h
    subst h
    exact hinv
  | cons e es ih =>
    simp only [usart_events_run, Option.bind_eq_some] at h
    obtain ⟨u, hu, hrest⟩ := h
    have he1 : ∀ p, e ≠ usart_event.set_out_data p := by
      intro p hp
      exact he p (by simp [hp])
    exact ih u (fun p hp => he p (List.mem_cons_of_mem _ hp))
      (usart_apply_keeps_dropped_message e v u X B he1 hinv hu) hrest

/-- C40: when `fsm_usart_set_out_data` stores a message while the USART FSM is in `SEND_DATA`,
a fire before the end of the transmission changes nothing, and the fire that finds
`write_complete` set is `do_tx_end`: `out_data` is zeroed, the guard `check_data_tx` is false and
the FSM is in `WAIT_DATA`. Along every sequence of fires, receive and transmit interrupts and
input resets that follows the store, either the FSM is still in `SEND_DATA` with the message in
`out_data` and the output buffer of the port as it was before the store, or it is in `WAIT_DATA`
with `out_data` and the output buffer of the port all zero: the message is never copied to the
port. -/
theorem message_during_send_is_dropped (w : world) (msg : List Nat)
    (hs : w.usart.current_state = FSM_USART.SEND_DATA) :
    (w.usart_arr.write_complete = false →
      fsm_usart_fire { w with usart := fsm_usart_set_out_data w.usart msg } =
        some { w with usart := fsm_usart_set_out_data w.usart msg }) ∧
    (w.usart_arr.write_complete = true →
      ∃ w1, fsm_usart_fire { w with usart := fsm_usart_set_out_data w.usart msg } = some w1 ∧
        w1.usart.current_state = FSM_USART.WAIT_DATA ∧
        w1.usart.out_data = List.replicate 100 0 ∧
        check_data_tx w1 = false ∧
        w1.usart_arr.output_buffer = List.replicate 100 0 ∧
        w1.usart_arr.DR_written = w.usart_arr.DR_written) ∧
    (∀ (evs : List usart_event) (w2 : world), (∀ p, usart_event.set_out_data p ∉ evs) →
      usart_events_run evs { w with usart := fsm_usart_set_out_data w.usart msg } = some w2 →
      (w2.usart.current_state = FSM_USART.SEND_DATA ∧
        w2.usart.out_data = msg.take USART_OUTPUT_BUFFER_LENGTH ∧
        w2.usart_arr.output_buffer = w.usart_arr.output_buffer) ∨
      (w2.usart.current_state = FSM_USART.WAIT_DATA ∧
        w2.usart.out_data = List.replicate 100 0 ∧ check_data_tx w2 = false ∧
        w2.usart_arr.output_buffer = List.replicate 100 0)) := by
  have hs1 : ({ w with usart := fsm_usart_set_out_data w.usart msg } : world).usart.current_state
      = FSM_USART.SEND_DATA := by simpa [fsm_usart_set_out_data] using hs
  refine ⟨fun hc => ?_, fun hc => ?_, fun evs w2 he hrun => ?_⟩
  · rw [usart_fire_from_send_data _ hs1]
    simp [check_tx_end, port_usart_tx_done, hc]
  · refine ⟨usart_set_state FSM_USART.WAIT_DATA
      (do_tx_end { w with usart := fsm_usart_set_out_data w.usart msg }), ?_, rfl, rfl, ?_, rfl,
      rfl⟩
    · rw [usart_fire_from_send_data _ hs1]
      simp [check_tx_end, port_usart_tx_done, hc]
    · simp [check_data_tx, usart_set_state, do_tx_end]
  · rcases usart_events_keep_dropped_message evs _ w2 (msg.take USART_OUTPUT_BUFFER_LENGTH)
        w.usart_arr.output_buffer he (Or.inl ⟨hs1, rfl, rfl⟩) hrun with h1 | ⟨h1, h2, h3⟩
    · exact Or.inl h1
    · exact Or.inr ⟨h1, h2, by simp [check_data_tx, h2], h3⟩

/-- C40, closed instance: the sample state is sending "ok\n" when the reply "no\n" is stored;
the transmit interrupt completes the first message and the next fire discards the second. -/
theorem message_during_send_is_dropped_witness :
    (usart_events_run [usart_event.tx_interrupt, usart_event.fire, usart_event.fire]
        { demo_sending with usart := fsm_usart_set_out_data demo_sending.usart [110, 111, 10] }).map
        (fun w2 => (w2.usart.current_state, w2.usart.out_data.take 3, w2.usart_arr.DR_written)) =
      some (FSM_USART.WAIT_DATA, [0, 0, 0], [111, 107, 10]) ∧
    ∀ w2, usart_events_run [usart_event.tx_interrupt, usart_event.fire, usart_event.fire]
        { demo_sending with usart := fsm_usart_set_out_data demo_sending.usart [110, 111, 10] } =
        some w2 →
      (w2.usart.current_state = FSM_USART.SEND_DATA ∧
        w2.usart.out_data = [110, 111, 10] ∧
        w2.usart_arr.output_buffer = [111, 107, 10] ++ List.replicate 97 0) ∨
      (w2.usart.current_state = FSM_USART.WAIT_DATA ∧
        w2.usart.out_data = List.replicate 100 0 ∧ check_data_tx w2 = false ∧
        w2.usart_arr.output_buffer = List.replicate 100 0) :=
  ⟨by decide, fun w2 hrun =>
    (message_during_send_is_dropped demo_sending [110, 111, 10] rfl).2.2
      [usart_event.tx_interrupt, usart_event.fire, usart_event.fire] w2 (by simp) hrun⟩

/-! ## The FSM engine: the row taken by a fire, and what a fire leaves unchanged -/

theorem fsm_fire_cases {S W : Type} [DecidableEq S] (get : W → S) (set : S → W → W)
    (tt : List (fsm_trans_t S W)) (w w1 : W) (h : fsm_fire get set tt w = some w1) :
    w1 = w ∨ ∃ t ∈ tt, t.orig_state = get w ∧ t.guard w = some true ∧
      row_effect set t w = some w1 := by
  induction tt with
  | nil =>
    simp only [fsm_fire, Option.some.injEq] at h
    exact Or.inl h.symm
  | cons t ts ih =>
    have hrest : fsm_fire get set ts w = some w1 →
        w1 = w ∨ ∃ u ∈ t :: ts, u.orig_state = get w ∧ u.guard w = some true ∧
          row_effect set u w = some w1 :=
      fun h1 => (ih h1).imp id (fun ⟨u, hu, he⟩ => ⟨u, List.mem_cons_of_mem _ hu, he⟩)
    simp only [fsm_fire] at h
    split at h
    · rename_i ho
      split at h
      · exact absurd h (by simp)
      · rename_i hg
        exact Or.inr ⟨t, List.mem_cons_self _ _, ho, hg, by simpa [row_effect] using h⟩
      · exact hrest h
    · exact hrest h

theorem fsm_fire_frame {S W α : Type} [DecidableEq S] (get : W → S) (set : S → W → W)
    (tt : List (fsm_trans_t S W)) (f : W → α) (hset : ∀ s x, f (set s x) = f x)
    (hact : ∀ t ∈ tt, ∀ a, t.action = some a → ∀ x y, a x = some y → f y = f x)
    (w w1 : W) (h : fsm_fire get set tt w = some w1) : f w1 = f w := by
  rcases fsm_fire_cases get set tt w w1 h with h1 | ⟨t, ht, _, _, he⟩
  · rw [h1]
  · simp only [row_effect] at he
    split at he
    · simp only [Option.some.injEq] at he
      rw [← he, hset]
    · rename_i a ha
      simp only [Option.map_eq_some'] at he
      obtain ⟨y, hy, hw1⟩ := he
      rw [← hw1, hset]
      exact hact t ht a ha w y hy

theorem button_fire_frame (v v1 : world) (h : fsm_button_fire v = some v1) :
    v1.jukebox = v.jukebox ∧ v1.buzzer = v.buzzer ∧ v1.usart = v.usart := by
  have key := fsm_fire_frame (fun w : world => w.button.current_state) button_set_state
    fsm_trans_button (fun w : world => (w.jukebox, w.buzzer, w.usart)) (fun _ _ => rfl)
    (by
      intro t ht a ha x y hxy
      simp only [fsm_trans_button, List.mem_cons, List.mem_singleton, List.not_mem_nil,
        or_false] at ht
      rcases ht with rfl | rfl | rfl | rfl <;> simp only [Option.some.injEq] at ha <;>
        first
          | exact absurd ha (by simp)
          | (subst ha
             simp only [Option.some.injEq] at hxy
             subst hxy
             rfl))
    v v1 h
  simp only [Prod.mk.injEq] at key
  exact key

theorem usart_fire_frame (v v1 : world) (h : fsm_usart_fire v = some v1) :
    v1.jukebox = v.jukebox ∧ v1.buzzer = v.buzzer ∧ v1.button = v.button := by
  have key := fsm_fire_frame (fun w : world => w.usart.current_state) usart_set_state
    fms_trans_usart (fun w : world => (w.jukebox, w.buzzer, w.button)) (fun _ _ => rfl)
    (by
      intro t ht a ha x y hxy
      simp only [fms_trans_usart, List.mem_cons, List.mem_singleton, List.not_mem_nil,
        or_false] at ht
      rcases ht with rfl | rfl | rfl <;> simp only [Option.some.injEq] at ha <;> subst ha
      · simp only [do_set_data_tx, Option.map_eq_some'] at hxy
        obtain ⟨g, _, hg⟩ := hxy
        subst hg
        rfl
      · simp only [Option.some.injEq] at hxy
        subst hxy
        rfl
      · simp only [Option.some.injEq] at hxy
        subst hxy
        rfl)
    v v1 h
  simp only [Prod.mk.injEq] at key
  exact key

theorem start_note_frame (f : ℚ) (d : Nat) (x : world) :
    (_start_note f d x).jukebox = x.jukebox ∧ (_start_note f d x).buzzer = x.buzzer ∧
    (_start_note f d x).button = x.button ∧ (_start_note f d x).usart = x.usart := by
  simp only [_start_note, port_buzzer_set_note_frequency, port_buzzer_set_note_duration]
  split <;> exact ⟨rfl, rfl, rfl, rfl⟩

theorem buzzer_fire_frame (v v1 : world) (h : fsm_buzzer_fire v = some v1) :
    v1.jukebox = v.jukebox ∧ v1.buzzer.p_melody = v.buzzer.p_melody ∧
    v1.buzzer.buzzer_id = v.buzzer.buzzer_id ∧ v1.button = v.button ∧ v1.usart = v.usart := by
  have hstart : ∀ x y : world, do_melody_start x = some y →
      (y.jukebox, y.buzzer.p_melody, y.buzzer.buzzer_id, y.button, y.usart) =
        (x.jukebox, x.buzzer.p_melody, x.buzzer.buzzer_id, x.button, x.usart) := by
    intro x y hxy
    simp only [do_melody_start] at hxy
    split at hxy
    · exact absurd hxy (by simp)
    · split at hxy
      · simp only [Option.some.injEq] at hxy
        subst hxy
        obtain ⟨h1, h2, h3, h4⟩ := start_note_frame _ _ _
        rw [h1, h2, h3, h4]
      · exact absurd hxy (by simp)
  have hplay : ∀ x y : world, do_play_note x = some y →
      (y.jukebox, y.buzzer.p_melody, y.buzzer.buzzer_id, y.button, y.usart) =
        (x.jukebox, x.buzzer.p_melody, x.buzzer.buzzer_id, x.button, x.usart) := by
    intro x y hxy
    simp only [do_play_note] at hxy
    split at hxy
    · exact absurd hxy (by simp)
    · split at hxy
      · simp only [Option.some.injEq] at hxy
        subst hxy
        obtain ⟨h1, h2, h3, h4⟩ := start_note_frame _ _ _
        rw [h1, h2, h3, h4]
      · exact absurd hxy (by simp)
  have key := fsm_fire_frame (fun w : world => w.buzzer.current_state) buzzer_set_state
    fsm_trans_buzzer
    (fun w : world => (w.jukebox, w.buzzer.p_melody, w.buzzer.buzzer_id, w.button, w.usart))
    (fun _ _ => rfl)
    (by
      intro t ht a ha x y hxy
      simp only [fsm_trans_buzzer, List.mem_cons, List.mem_singleton, List.not_mem_nil,
        or_false] at ht
      rcases ht with rfl | rfl | rfl | rfl | rfl | rfl | rfl | rfl <;>
        simp only [Option.some.injEq] at ha <;>
        first
          | exact absurd ha (by simp)
          | (subst ha
             first
               | exact hstart x y hxy
               | exact hplay x y hxy
               | (simp only [Option.some.injEq] at hxy
                  subst hxy
                  rfl)))
    v v1 h
  simp only [Prod.mk.injEq] at key
  exact key

/-! ## The buzzer FSM: reads of the melody arrays -/

theorem buzzer_fire_defined (w : world) (m : melody_t)
    (hm : w.buzzer.p_melody = some m) (hwf : melody_wf m) (hn : 1 ≤ m.melody_length)
    (hid : w.buzzer.buzzer_id = BUZZER_0_ID) :
    ∃ w1, fsm_buzzer_fire w = some w1 := by
  obtain ⟨hf0, hd0, _⟩ := melody_wf_note m hwf 0 (by omega)
  generalize m.p_notes.getD 0 0 = f0 at hf0
  generalize m.p_durations.getD 0 0 = d0 at hd0
  have hstart : ∃ w1, do_melody_start w = some w1 := by
    simp only [do_melody_start, hm, hf0, hd0]
    exact ⟨_, rfl⟩
  cases hs : w.buzzer.current_state with
  | WAIT_START =>
    rw [buzzer_fire_from_wait_start w hs]
    obtain ⟨w1, h1⟩ := hstart
    split
    · rw [do_player_start, h1]
      exact ⟨_, rfl⟩
    · exact ⟨_, rfl⟩
  | WAIT_MELODY =>
    rw [buzzer_fire_from_wait_melody w hs]
    obtain ⟨w1, h1⟩ := hstart
    split
    · rw [h1]
      exact ⟨_, rfl⟩
    · exact ⟨_, rfl⟩
  | WAIT_NOTE =>
    rw [buzzer_fire_from_wait_note w hs]
    have hc : check_note_end w = some w.buzzers_arr.note_end := by
      simp [check_note_end, port_buzzer_get_note_timeout, hid]
    rw [hc]
    cases w.buzzers_arr.note_end <;> exact ⟨_, rfl⟩
  | PAUSE_NOTE =>
    rw [buzzer_fire_from_pause_note w hs]
    exact ⟨_, rfl⟩
  | PLAY_NOTE =>
    rw [buzzer_fire_from_play_note w m hs hm]
    split
    · rename_i h
      obtain ⟨hf, hd, _⟩ := melody_wf_note m hwf w.buzzer.note_index h.1
      generalize m.p_notes.getD w.buzzer.note_index 0 = f at hf
      generalize m.p_durations.getD w.buzzer.note_index 0 = d at hd
      simp only [do_play_note, hm, hf, hd]
      exact ⟨_, rfl⟩
    · split
      · exact ⟨_, rfl⟩
      · split
        · exact ⟨_, rfl⟩
        · split <;> exact ⟨_, rfl⟩

theorem buzzer_apply_defined (e : buzzer_event) (v : world)
    (he : ∀ p, e = buzzer_event.set_melody p →
      ∃ m, p = some m ∧ melody_wf m ∧ 1 ≤ m.melody_length)
    (hid : v.buzzer.buzzer_id = BUZZER_0_ID)
    (hinv : (v.buzzer.p_melody = none ∧ v.buzzer.current_state = FSM_BUZZER.WAIT_START) ∨
      ∃ m, v.buzzer.p_melody = some m ∧ melody_wf m ∧ 1 ≤ m.melody_length) :
    ∃ v1, buzzer_apply e v = some v1 ∧ v1.buzzer.buzzer_id = BUZZER_0_ID ∧
      ((v1.buzzer.p_melody = none ∧ v1.buzzer.current_state = FSM_BUZZER.WAIT_START) ∨
        ∃ m, v1.buzzer.p_melody = some m ∧ melody_wf m ∧ 1 ≤ m.melody_length) := by
  cases e with
  | fire =>
    rcases hinv with ⟨h1, h2⟩ | ⟨m, h1, h2, h3⟩
    · refine ⟨v, ?_, hid, Or.inl ⟨h1, h2⟩⟩
      simp only [buzzer_apply]
      rw [buzzer_fire_from_wait_start v h2]
      simp [check_player_start, check_melody_start, h1]
    · obtain ⟨v1, hv1⟩ := buzzer_fire_defined v m h1 h2 h3 hid
      obtain ⟨_, hp, hi, _, _⟩ := buzzer_fire_frame v v1 hv1
      exact ⟨v1, hv1, by rw [hi]; exact hid, Or.inr ⟨m, by rw [hp]; exact h1, h2, h3⟩⟩
  | set_melody p =>
    obtain ⟨m, hp, h2, h3⟩ := he p rfl
    exact ⟨_, rfl, hid, Or.inr ⟨m, by simp [fsm_buzzer_set_melody, hp], h2, h3⟩⟩
  | set_speed s => exact ⟨_, rfl, hid, hinv⟩
  | set_action a =>
    refine ⟨_, rfl, ?_, ?_⟩
    · simp only [fsm_buzzer_set_action]
      split <;> exact hid
    · simp only [fsm_buzzer_set_action]
      split <;> exact hinv
  | timer_elapsed => exact ⟨_, rfl, hid, hinv⟩

/-- C37: when the melody of the buzzer is a record `m` whose arrays have `n = melody_length ≥ 1`
elements, `do_melody_start` (which reads index 0) is defined; the guard `check_play_note` holds
only with `note_index < n`, and then `do_play_note` (which reads index `note_index`) is defined;
a fire from `PLAY_NOTE` runs `do_play_note` under that guard and otherwise runs an action that
does not read the arrays, so a fire of buzzer 0 is defined in every such state, whatever
`note_index` is. From a buzzer fresh from `fsm_buzzer_init`, every sequence of fires, timer
interrupts and setter calls in which `fsm_buzzer_set_melody` only receives such records (of any
lengths `≥ 1`, also shorter than the melody being played) is defined. -/
theorem buzzer_reads_stay_in_melody (w : world) (m : melody_t)
    (hm : w.buzzer.p_melody = some m) (hwf : melody_wf m) (hn : 1 ≤ m.melody_length) :
    (∃ f d, m.p_notes[0]? = some f ∧ m.p_durations[0]? = some d ∧
      do_melody_start w = some (_start_note f d
        { w with buzzer := { w.buzzer with note_index := (w.buzzer.note_index + 1) % UINT32_MOD } })) ∧
    (check_play_note w = some true → w.buzzer.note_index < m.melody_length) ∧
    (w.buzzer.note_index < m.melody_length →
      ∃ f d, m.p_notes[w.buzzer.note_index]? = some f ∧
        m.p_durations[w.buzzer.note_index]? = some d ∧
        do_play_note w = some (_start_note f d
          { w with buzzer := { w.buzzer with note_index := (w.buzzer.note_index + 1) % UINT32_MOD } })) ∧
    (m.melody_length ≤ w.buzzer.note_index → do_play_note w = none) ∧
    (w.buzzer.current_state = FSM_BUZZER.PLAY_NOTE →
      fsm_buzzer_fire w =
        if w.buzzer.note_index < m.melody_length ∧ w.buzzer.user_action = USER_ACTIONS.PLAY
        then (do_play_note w).map (buzzer_set_state FSM_BUZZER.WAIT_NOTE)
        else if w.buzzer.note_index ≥ m.melody_length
        then some (buzzer_set_state FSM_BUZZER.WAIT_MELODY (do_end_melody w))
        else if w.buzzer.user_action = USER_ACTIONS.STOP
        then some (buzzer_set_state FSM_BUZZER.WAIT_START (do_player_stop w))
        else if w.buzzer.user_action = USER_ACTIONS.PAUSE
        then some (buzzer_set_state FSM_BUZZER.PAUSE_NOTE (do_pause w))
        else some w) ∧
    (w.buzzer.buzzer_id = BUZZER_0_ID → ∃ w1, fsm_buzzer_fire w = some w1) ∧
    (∀ (w0 : world) (evs : List buzzer_event), w0.buzzer = fsm_buzzer_init BUZZER_0_ID →
      (∀ p, buzzer_event.set_melody p ∈ evs →
        ∃ m1, p = some m1 ∧ melody_wf m1 ∧ 1 ≤ m1.melody_length) →
      ∃ w1, buzzer_events_run evs w0 = some w1) := by
  obtain ⟨hf0, hd0, _⟩ := melody_wf_note m hwf 0 (by omega)
  generalize m.p_notes.getD 0 0 = f0 at hf0
  generalize m.p_durations.getD 0 0 = d0 at hd0
  refine ⟨⟨f0, d0, hf0, hd0, by simp only [do_melody_start, hm, hf0, hd0]⟩, ?_, ?_, ?_,
    fun hs => buzzer_fire_from_play_note w m hs hm,
    fun hid => buzzer_fire_defined w m hm hwf hn hid, ?_⟩
  · intro hc
    simp only [check_play_note, hm, Option.some.injEq, Bool.and_eq_true, decide_eq_true_eq]
      at hc
    exact hc.1
  · intro hi
    obtain ⟨hf, hd, _⟩ := melody_wf_note m hwf w.buzzer.note_index hi
    generalize m.p_notes.getD w.buzzer.note_index 0 = f at hf
    generalize m.p_durations.getD w.buzzer.note_index 0 = d at hd
    exact ⟨f, d, hf, hd, by simp only [do_play_note, hm, hf, hd]⟩
  · intro hi
    have hlen : m.p_notes.length ≤ w.buzzer.note_index := by
      rw [hwf.1]
      exact hi
    have hnone : m.p_notes[w.buzzer.note_index]? = none := List.getElem?_eq_none hlen
    simp [do_play_note, hm, hnone]
  · intro w0 evs hinit hev
    have hgen : ∀ (es : List buzzer_event) (v : world),
        (∀ p, buzzer_event.set_melody p ∈ es →
          ∃ m1, p = some m1 ∧ melody_wf m1 ∧ 1 ≤ m1.melody_length) →
        v.buzzer.buzzer_id = BUZZER_0_ID →
        ((v.buzzer.p_melody = none ∧ v.buzzer.current_state = FSM_BUZZER.WAIT_START) ∨
          ∃ m1, v.buzzer.p_melody = some m1 ∧ melody_wf m1 ∧ 1 ≤ m1.melody_length) →
        ∃ v1, buzzer_events_run es v = some v1 := by
      intro es
      induction es with
      | nil => exact fun v _ _ _ => ⟨v, rfl⟩
      | cons e es ih =>
        intro v hes hid hinv
        obtain ⟨u, hu, hid1, hinv1⟩ := buzzer_apply_defined e v
          (fun p hp => hes p (by simp [hp])) hid hinv
        obtain ⟨v1, hv1⟩ := ih u (fun p hp => hes p (List.mem_cons_of_mem _ hp)) hid1 hinv1
        exact ⟨v1, by simp [buzzer_events_run, hu, hv1]⟩
    exact hgen evs w0 hev (by rw [hinit]; rfl) (Or.inl (by rw [hinit]; exact ⟨rfl, rfl⟩))

/-- C37, closed instance: the sample buzzer is at note 2 of the three-note sample melody, in
`PLAY_NOTE`, when the melody is replaced by the two-note one: the fire ends the melody without
reading the arrays; with the three-note melody left in place it reads note 2. -/
theorem buzzer_reads_stay_in_melody_witness :
    (fsm_buzzer_fire
        { demo_world with buzzer := ⟨.PLAY_NOTE, some demo_happy, 2, 0, .PLAY, 1⟩ }).map
        (fun v => (v.buzzer.current_state, v.buzzer.note_index)) =
      some (FSM_BUZZER.WAIT_MELODY, 0) ∧
    do_play_note { demo_world with buzzer := ⟨.PLAY_NOTE, some demo_happy, 2, 0, .PLAY, 1⟩ } =
      none ∧
    ∃ f d, demo_scale.p_notes[2]? = some f ∧ demo_scale.p_durations[2]? = some d ∧
      do_play_note { demo_world with buzzer := ⟨.PLAY_NOTE, some demo_scale, 2, 0, .PLAY, 1⟩ } =
        some (_start_note f d
          { demo_world with buzzer := ⟨.PLAY_NOTE, some demo_scale, 3 % UINT32_MOD, 0, .PLAY, 1⟩ }) :=
  ⟨by
      rw [(buzzer_reads_stay_in_melody
        { demo_world with buzzer := ⟨.PLAY_NOTE, some demo_happy, 2, 0, .PLAY, 1⟩ } demo_happy
        rfl ⟨rfl, rfl, by decide⟩ (by decide)).2.2.2.2.1 rfl]
      rfl,
    (buzzer_reads_stay_in_melody
      { demo_world with buzzer := ⟨.PLAY_NOTE, some demo_happy, 2, 0, .PLAY, 1⟩ } demo_happy
      rfl ⟨rfl, rfl, by decide⟩ (by decide)).2.2.2.1 (by decide),
    (buzzer_reads_stay_in_melody
      { demo_world with buzzer := ⟨.PLAY_NOTE, some demo_scale, 2, 0, .PLAY, 1⟩ } demo_scale
      rfl ⟨rfl, rfl, by decide⟩ (by decide)).2.2.1 (by decide)⟩

/-! ## The receive interrupt past the end of the input buffer -/

/-- C35 fails: after ten bytes other than the newline, delivered to a cleared port, `i_idx` is
10; the call for an eleventh such byte resets `i_idx` but writes at the index it read on entry,
10, which is not below the length 10 of the input buffer, so the call is undefined. In general
a call with a byte other than the newline writes at the value of `i_idx` on entry, whatever it
is, and is undefined when that value is 10 or more. -/
theorem store_data_writes_past_buffer :
    (∃ h10, port_usart_store_bytes (List.replicate 10 97)
        ⟨List.replicate 10 0, 0, false, List.replicate 100 0, 0, false, true, false, []⟩ =
        some h10 ∧
      h10.i_idx = 10 ∧
      h10.input_buffer = List.replicate 10 97 ∧
      port_usart_store_data_index 97 h10 = some 10 ∧
      ¬ (10 < USART_INPUT_BUFFER_LENGTH) ∧
      port_usart_store_data 97 h10 = none) ∧
    port_usart_store_bytes (List.replicate 11 97)
        ⟨List.replicate 10 0, 0, false, List.replicate 100 0, 0, false, true, false, []⟩ =
      none ∧
    (∀ (DR : Nat) (h : port_usart_hw_t), DR % 256 ≠ END_CHAR_CONSTANT →
      port_usart_store_data_index DR h = some h.i_idx ∧
      (USART_INPUT_BUFFER_LENGTH ≤ h.i_idx → port_usart_store_data DR h = none) ∧
      (h.i_idx < USART_INPUT_BUFFER_LENGTH → ∃ g, port_usart_store_data DR h = some g ∧
        g.input_buffer = h.input_buffer.set h.i_idx (DR % 256) ∧ g.i_idx = h.i_idx + 1)) := by
  refine ⟨⟨_, rfl, rfl, rfl, rfl, by decide, rfl⟩, rfl, ?_⟩
  intro DR h hne
  refine ⟨by simp [port_usart_store_data_index, hne], fun hge => ?_, fun hlt => ?_⟩
  · have h1 : ¬ h.i_idx < USART_INPUT_BUFFER_LENGTH := by omega
    simp [port_usart_store_data, hne, h1]
  · have h1 : ¬ h.i_idx ≥ USART_INPUT_BUFFER_LENGTH := by omega
    have h2 : h.i_idx < 10 := hlt
    have h3 : (h.i_idx + 1) % 256 = h.i_idx + 1 := Nat.mod_eq_of_lt (by omega)
    have hstep : port_usart_store_data DR h =
        some { h with input_buffer := h.input_buffer.set h.i_idx (DR % 256), i_idx := h.i_idx + 1 } := by
      simp only [port_usart_store_data, ne_eq, hne, not_false_eq_true, if_true, h1, if_false, hlt,
        h3]
    exact ⟨_, hstep, rfl, rfl⟩

/-! ## The command "select" with a parameter that is no library index -/

/-- C36 fails: `_execute_command` reads `melodies[atoi(p_param)]` without a bound check. For the
parameter "10" the index read is 10 and for "-1" it is `2 ^ 32 - 1`, outside the library of 10
slots, so the command is undefined (also as the received line "select 10"); in general the
command is undefined for every parameter whose value is not below 10. For a missing parameter
(the line "select", for which `_parse_message` leaves " " in `p_param`) and for the text "abc"
the value is 0: in the sample state with slot 2 selected, the command selects slot 0 and hands
it to the buzzer. -/
theorem select_reads_outside_library (atof : List Nat → ℚ) (garbage : Nat → Nat) :
    (melody_selected [49, 48] = 10 ∧ ¬ (melody_selected [49, 48] < MELODIES_MEMORY_SIZE) ∧
      melody_selected [45, 49] = 4294967295) ∧
    (∀ (w : world) (p : List Nat), ¬ (melody_selected p < MELODIES_MEMORY_SIZE) →
      _execute_command atof garbage w str_select p = none) ∧
    _parse_message [115, 101, 108, 101, 99, 116, 32, 49, 48, 0] =
      some (some (str_select, [49, 48])) ∧
    (do_read_command atof garbage
        (demo_received [115, 101, 108, 101, 99, 116, 32, 49, 48, 0])).isNone = true ∧
    (fsm_jukebox_fire atof garbage
        (demo_received [115, 101, 108, 101, 99, 116, 32, 49, 48, 0])).isNone = true ∧
    _parse_message [115, 101, 108, 101, 99, 116, 0, 0, 0, 0] =
      some (some (str_select, [SPACE])) ∧
    (melody_selected [SPACE] = 0 ∧ melody_selected [97, 98, 99] = 0) ∧
    (∀ p : List Nat, melody_selected p = 0 →
      (_execute_command atof garbage
          { demo_world with
            jukebox := { demo_world.jukebox with melody_idx := 2, p_melody := demo_tetris.p_name },
            buzzer := { demo_world.buzzer with p_melody := some demo_tetris } }
          str_select p).map
        (fun w1 => (w1.jukebox.melody_idx, w1.jukebox.p_melody, w1.buzzer.p_melody)) =
      some (0, demo_scale.p_name, some demo_scale)) := by
  have hsel : ∀ (w : world) (p : List Nat), ¬ (melody_selected p < MELODIES_MEMORY_SIZE) →
      _execute_command atof garbage w str_select p = none := by
    intro w p hp
    simp [_execute_command, str_select, str_play, str_stop, str_pause, str_speed, str_next, hp]
  have hparse : _parse_message [115, 101, 108, 101, 99, 116, 32, 49, 48, 0] =
      some (some (str_select, [49, 48])) := by decide
  have hread : do_read_command atof garbage
      (demo_received [115, 101, 108, 101, 99, 116, 32, 49, 48, 0]) = none := by
    rw [do_read_command_parsed atof garbage _ str_select [49, 48] hparse,
      hsel _ _ (by decide)]
    rfl
  refine ⟨⟨by decide, by decide, by decide⟩, hsel, hparse, by rw [hread]; rfl, ?_, by decide,
    ⟨by decide, by decide⟩, ?_⟩
  · have hg1 : check_off (demo_received [115, 101, 108, 101, 99, 116, 32, 49, 48, 0]) = false :=
      by decide
    have hg2 : check_next_song_button
        (demo_received [115, 101, 108, 101, 99, 116, 32, 49, 48, 0]) = false := by decide
    have hg3 : check_command_received
        (demo_received [115, 101, 108, 101, 99, 116, 32, 49, 48, 0]) = true := by decide
    have hs : (demo_received [115, 101, 108, 101, 99, 116, 32, 49, 48, 0]).jukebox.current_state =
        FSM_JUKEBOX.WAIT_COMMAND := rfl
    simp [fsm_jukebox_fire, fms_trans_jukebox, fsm_fire, hs, hg1, hg2, hg3, hread]
  · intro p hp
    have h0 : melody_selected p < MELODIES_MEMORY_SIZE := by
      rw [hp]
      decide
    have hslot : (demo_world.jukebox.melodies ⟨melody_selected p, h0⟩) = demo_scale := by
      have : (⟨melody_selected p, h0⟩ : Fin MELODIES_MEMORY_SIZE) = ⟨0, by decide⟩ :=
        Fin.ext hp
      rw [this]
      rfl
    have hlen : demo_scale.melody_length ≠ 0 := by decide
    have hs0 : demo_world.jukebox.melodies 0 = demo_scale := rfl
    simp [_execute_command, str_select, str_play, str_stop, str_pause, str_speed, str_next, h0,
      hslot, hlen, hp, hs0, fsm_buzzer_set_action, fsm_buzzer_set_melody]

/-! ## The command parser: the parameter left when there is no second token -/

theorem strtok_scan_rest (junk : List Nat) (l : List Nat) (h0 : 0 ∉ l) :
    strtok_scan (l ++ 0 :: junk) =
      some (l.takeWhile (fun c => c != SPACE),
        (l.dropWhile (fun c => c != SPACE)).tail ++ 0 :: junk) := by
  induction l with
  | nil => simp [strtok_scan]
  | cons a l ih =>
    have ha : a ≠ 0 := fun h => h0 (by simp [h])
    have hl : 0 ∉ l := fun h => h0 (List.mem_cons_of_mem a h)
    by_cases hs : a = SPACE
    · simp [strtok_scan, hs]
    · have hs1 : (a != SPACE) = true := by simpa using hs
      have hk : strtok_scan (a :: (l ++ 0 :: junk)) =
          (strtok_scan (l ++ 0 :: junk)).map (fun p => (a :: p.1, p.2)) := by
        rw [strtok_scan]
        simp [ha, hs]
      rw [List.cons_append, hk, ih hl]
      simp [List.takeWhile_cons, List.dropWhile_cons, hs1]

theorem strtok_rest (junk : List Nat) (l : List Nat) (h0 : 0 ∉ l) :
    strtok (l ++ 0 :: junk) =
      some ((first_token l).map (fun c => (c, after_first_token l ++ 0 :: junk))) := by
  induction l with
  | nil => simp [first_token, strtok, strtok_skip]
  | cons a l ih =>
    have ha : a ≠ 0 := fun h => h0 (by simp [h])
    have hl : 0 ∉ l := fun h => h0 (List.mem_cons_of_mem a h)
    by_cases hs : a = SPACE
    · subst hs
      have hk : strtok (SPACE :: l ++ 0 :: junk) = strtok (l ++ 0 :: junk) := by
        simp [strtok, strtok_skip]
      have hr : after_first_token (SPACE :: l) = after_first_token l := by
        simp [after_first_token, List.dropWhile_cons]
      rw [first_token_cons_space, hk, hr]
      exact ih hl
    · have hs0 : (a == SPACE) = false := by simpa using hs
      have hr : after_first_token (a :: l) =
          ((a :: l).dropWhile (fun c => c != SPACE)).tail := by
        simp [after_first_token, List.dropWhile_cons, hs0]
      have hk : strtok (a :: l ++ 0 :: junk) = (strtok_scan (a :: l ++ 0 :: junk)).map some := by
        simp [strtok, strtok_skip, hs, ha]
      rw [first_token_cons_other a l hs, hk, strtok_scan_rest junk (a :: l) h0, hr]
      rfl

theorem after_first_token_sublist (l : List Nat) : (after_first_token l).Sublist l :=
  ((List.tail_sublist _).trans (List.dropWhile_sublist _)).trans (List.dropWhile_sublist _)

theorem first_token_length_le (l c : List Nat) (h : first_token l = some c) :
    c.length ≤ l.length := by
  simp only [first_token] at h
  split at h
  · exact absurd h (by simp)
  · rename_i a r hd
    simp only [Option.some.injEq] at h
    rw [← h]
    have h1 : ((a :: r).takeWhile (fun c => c != SPACE)).length ≤ (a :: r).length :=
      (List.takeWhile_sublist _).length_le
    have h2 : (a :: r).length ≤ l.length := by
      rw [← hd]
      exact (List.dropWhile_sublist _).length_le
    omega

theorem parse_message_tokens (junk : List Nat) (line : List Nat) (h0 : 0 ∉ line)
    (hlen : line.length < USART_INPUT_BUFFER_LENGTH) :
    _parse_message (line ++ 0 :: junk) =
      some ((first_token line).map (fun c => (c, (second_token line).getD [SPACE]))) := by
  have hl : line.length < 10 := hlen
  have hsub := after_first_token_sublist line
  have h1 : 0 ∉ after_first_token line := fun h => h0 (hsub.subset h)
  have hlen1 : (after_first_token line).length ≤ line.length := hsub.length_le
  cases hft : first_token line with
  | none => simp [_parse_message, strtok_rest junk line h0, hft]
  | some c =>
    have hc := first_token_length_le line c hft
    have hcpy : strcpy USART_INPUT_BUFFER_LENGTH c = some c := by
      have : c.length < USART_INPUT_BUFFER_LENGTH := by
        show c.length < 10
        omega
      simp [strcpy, this]
    cases hst : second_token line with
    | none =>
      have hst1 : first_token (after_first_token line) = none := hst
      simp [_parse_message, strtok_rest junk line h0, hft, hcpy,
        strtok_rest junk (after_first_token line) h1, hst1]
    | some p =>
      have hst1 : first_token (after_first_token line) = some p := hst
      have hp := first_token_length_le _ p hst1
      have hcpy2 : strcpy USART_INPUT_BUFFER_LENGTH p = some p := by
        have : p.length < USART_INPUT_BUFFER_LENGTH := by
          show p.length < 10
          omega
        simp [strcpy, this]
      simp [_parse_message, strtok_rest junk line h0, hft, hcpy,
        strtok_rest junk (after_first_token line) h1, hst1, hcpy2]

/-- C32 fails in one point: on a message held as a terminated string of fewer than 10 bytes,
`_parse_message` returns `false` exactly when the line has no token, and otherwise returns
`true` with the first token in `p_command` and the second token in `p_param`, whatever follows
the second token; but when there is no second token it leaves the one-space string " " in
`p_param`, not the empty string of its documentation: for the line "play" the parameter is " ",
and the documented result is another one. -/
theorem parse_message_missing_parameter_is_space :
    (∀ junk line : List Nat, 0 ∉ line → line.length < USART_INPUT_BUFFER_LENGTH →
      _parse_message (line ++ 0 :: junk) =
        some ((first_token line).map (fun c => (c, (second_token line).getD [SPACE]))) ∧
      (_parse_message (line ++ 0 :: junk) = some none ↔ first_token line = none)) ∧
    (∀ junk : List Nat, _parse_message (str_play ++ 0 :: junk) = some (some (str_play, [SPACE]))) ∧
    parse_message_documented str_play = some (str_play, []) ∧
    (∀ junk : List Nat,
      _parse_message (str_play ++ 0 :: junk) ≠ some (parse_message_documented str_play)) ∧
    (∀ junk : List Nat, _parse_message ([112, 108, 97, 121, 32, 49, 32, 50] ++ 0 :: junk) =
      some (some (str_play, [49]))) := by
  refine ⟨fun junk line h0 hlen => ⟨parse_message_tokens junk line h0 hlen, ?_⟩, ?_, by decide,
    ?_, ?_⟩
  · rw [parse_message_tokens junk line h0 hlen]
    cases first_token line <;> simp
  · intro junk
    rw [parse_message_tokens junk str_play (by decide) (by decide)]
    decide
  · intro junk
    rw [parse_message_tokens junk str_play (by decide) (by decide)]
    decide
  · intro junk
    rw [parse_message_tokens junk _ (by decide) (by decide)]
    decide

/-! ## The selection of the jukebox along the events of the machine -/

theorem selection_invariant_of_same (lib : Fin MELODIES_MEMORY_SIZE → melody_t) (v v1 : world)
    (hinv : selection_invariant lib v)
    (hj : v1.jukebox.melodies = v.jukebox.melodies)
    (hidx : v1.jukebox.melody_idx = v.jukebox.melody_idx)
    (hname : v1.jukebox.p_melody = v.jukebox.p_melody)
    (hbz : v1.buzzer.p_melody = v.buzzer.p_melody)
    (hst1 : v1.jukebox.current_state = FSM_JUKEBOX.START_UP →
      v.jukebox.current_state = FSM_JUKEBOX.START_UP)
    (hst2 : v1.jukebox.current_state = FSM_JUKEBOX.WAIT_COMMAND ∨
        v1.jukebox.current_state = FSM_JUKEBOX.SLEEP_WHILE_ON →
      v.jukebox.current_state = FSM_JUKEBOX.WAIT_COMMAND ∨
        v.jukebox.current_state = FSM_JUKEBOX.SLEEP_WHILE_ON) :
    selection_invariant lib v1 := by
  obtain ⟨h1, ⟨h2, h3⟩, h4, h5⟩ := hinv
  have hat : ∀ i, melody_at v1.jukebox i = melody_at v.jukebox i := by
    intro i
    simp only [melody_at, hj]
  refine ⟨by rw [hj, h1], ⟨?_, ?_⟩, ?_, ?_⟩
  · rw [hat, hidx]
    exact h2
  · rw [hbz, hj]
    exact h3
  · intro hs
    rw [hbz]
    exact h4 (hst1 hs)
  · intro hs
    obtain ⟨m, hm1, hm2, hm3⟩ := h5 (hst2 hs)
    exact ⟨m, by rw [hat, hidx]; exact hm1, by rw [hname]; exact hm2, by rw [hbz]; exact hm3⟩

theorem selection_invariant_of_shown (lib : Fin MELODIES_MEMORY_SIZE → melody_t) (v1 : world)
    (m : melody_t) (hj : v1.jukebox.melodies = lib)
    (hat : melody_at v1.jukebox v1.jukebox.melody_idx = some m)
    (hlen : m.melody_length ≠ 0)
    (hname : v1.jukebox.p_melody = m.p_name)
    (hbz : v1.buzzer.p_melody = some m)
    (hi : ∃ i, m = lib i)
    (hst : v1.jukebox.current_state ≠ FSM_JUKEBOX.START_UP) :
    selection_invariant lib v1 := by
  refine ⟨hj, ⟨⟨m, hat, hlen⟩, ?_⟩, fun hs => absurd hs hst, fun _ => ⟨m, hat, hname, hbz⟩⟩
  intro m1 hm1
  rw [hbz] at hm1
  simp only [Option.some.injEq] at hm1
  rw [← hm1, hj]
  exact ⟨hlen, hi⟩

theorem set_next_song_selection (lib : Fin MELODIES_MEMORY_SIZE → melody_t)
    (hlib : (lib slot0).melody_length ≠ 0) (w : world) (hj : w.jukebox.melodies = lib) :
    ∃ m, melody_at (_set_next_song w).jukebox (_set_next_song w).jukebox.melody_idx = some m ∧
      m.melody_length ≠ 0 ∧
      (_set_next_song w).jukebox.p_melody = m.p_name ∧
      (_set_next_song w).buzzer.p_melody = some m ∧
      (_set_next_song w).jukebox.melodies = lib ∧
      (_set_next_song w).jukebox.current_state = w.jukebox.current_state ∧
      ∃ i, m = lib i := by
  refine ⟨lib (next_song_idx w.jukebox), ?_, ?_, ?_, ?_, hj, rfl, ⟨_, rfl⟩⟩
  · have hlt : (next_song_idx w.jukebox).val < MELODIES_MEMORY_SIZE := (next_song_idx w.jukebox).isLt
    simp only [melody_at, _set_next_song, hlt, dite_true, hj]
  · simp only [next_song_idx, hj]
    split
    · exact hlib
    · rename_i h
      omega
  · simp only [_set_next_song, hj]
  · simp [_set_next_song, fsm_buzzer_set_action, fsm_buzzer_set_melody, hj]
theorem execute_command_keeps_selection (atof : List Nat → ℚ) (garbage : Nat → Nat)
    (lib : Fin MELODIES_MEMORY_SIZE → melody_t) (hlib : (lib slot0).melody_length ≠ 0)
    (w w1 : world) (c p : List Nat)
    (hs : w.jukebox.current_state = FSM_JUKEBOX.WAIT_COMMAND)
    (hinv : selection_invariant lib w)
    (h : _execute_command atof garbage w c p = some w1) :
    selection_invariant lib w1 ∧ w1.jukebox.current_state = FSM_JUKEBOX.WAIT_COMMAND := by
  have hsame : ∀ v1 : world, v1.jukebox = w.jukebox → v1.buzzer.p_melody = w.buzzer.p_melody →
      selection_invariant lib v1 ∧ v1.jukebox.current_state = FSM_JUKEBOX.WAIT_COMMAND := by
    intro v1 hj hb
    exact ⟨selection_invariant_of_same lib w v1 hinv (by rw [hj]) (by rw [hj]) (by rw [hj]) hb
      (by rw [hj]; exact id) (by rw [hj]; exact id), by rw [hj]; exact hs⟩
  have hact : ∀ a : USER_ACTIONS,
      (fsm_buzzer_set_action w.buzzer a).p_melody = w.buzzer.p_melody := by
    intro a
    simp only [fsm_buzzer_set_action]
    split <;> rfl
  by_cases h1 : c = str_play
  · subst h1
    simp only [_execute_command, if_true, Option.some.injEq] at h
    subst h
    exact hsame _ rfl (hact _)
  by_cases h2 : c = str_stop
  · subst h2
    simp only [_execute_command, if_neg h1, if_true, Option.some.injEq] at h
    subst h
    exact hsame _ rfl (hact _)
  by_cases h3 : c = str_pause
  · subst h3
    simp only [_execute_command, if_neg h1, if_neg h2, if_true, Option.some.injEq] at h
    subst h
    exact hsame _ rfl (hact _)
  by_cases h4 : c = str_speed
  · subst h4
    simp only [_execute_command, if_neg h1, if_neg h2, if_neg h3, if_true,
      Option.some.injEq] at h
    subst h
    exact hsame _ rfl rfl
  by_cases h5 : c = str_next
  · subst h5
    simp only [_execute_command, if_neg h1, if_neg h2, if_neg h3, if_neg h4, if_true,
      Option.some.injEq] at h
    subst h
    obtain ⟨m, ha, hl, hn, hb, hj, hst, hi⟩ := set_next_song_selection lib hlib w hinv.1
    exact ⟨selection_invariant_of_shown lib _ m hj ha hl hn hb hi (by rw [hst, hs]; decide),
      by rw [hst, hs]⟩
  by_cases h6 : c = str_select
  · subst h6
    simp only [_execute_command, if_neg h1, if_neg h2, if_neg h3, if_neg h4, if_neg h5,
      if_true] at h
    split at h
    · rename_i hi
      split at h
      · rename_i hlen
        simp only [Option.some.injEq] at h
        subst h
        have hmod : melody_selected p % 256 = melody_selected p := by
          have : melody_selected p < 10 := hi
          omega
        refine ⟨selection_invariant_of_shown lib _ (lib ⟨melody_selected p, hi⟩) hinv.1 ?_ ?_ ?_
          ?_ ⟨_, rfl⟩ (by simp [hs]), hs⟩
        · simp only [melody_at, hmod, hi, dite_true, hinv.1]
        · rw [← hinv.1]
          exact hlen
        · simp only [hinv.1]
        · simp [fsm_buzzer_set_action, fsm_buzzer_set_melody, hinv.1]
      · simp only [Option.map_eq_some'] at h
        obtain ⟨msg, _, hw1⟩ := h
        subst hw1
        exact hsame _ rfl rfl
    · exact absurd h (by simp)
  by_cases h7 : c = str_info
  · subst h7
    simp only [_execute_command, if_neg h1, if_neg h2, if_neg h3, if_neg h4, if_neg h5,
      if_neg h6, if_true] at h
    split at h
    · exact absurd h (by simp)
    · simp only [Option.map_eq_some'] at h
      obtain ⟨msg, _, hw1⟩ := h
      subst hw1
      exact hsame _ rfl rfl
  · simp only [_execute_command, if_neg h1, if_neg h2, if_neg h3, if_neg h4, if_neg h5,
      if_neg h6, if_neg h7, Option.map_eq_some'] at h
    obtain ⟨msg, _, hw1⟩ := h
    subst hw1
    exact hsame _ rfl rfl

theorem jukebox_fire_keeps_selection (atof : List Nat → ℚ) (garbage : Nat → Nat)
    (lib : Fin MELODIES_MEMORY_SIZE → melody_t) (hlib : (lib slot0).melody_length ≠ 0)
    (v v1 : world) (hinv : selection_invariant lib v)
    (h : fsm_jukebox_fire atof garbage v = some v1) : selection_invariant lib v1 := by
  have hstate : ∀ (x : world) (s : FSM_JUKEBOX),
      x.jukebox = v.jukebox → x.buzzer.p_melody = v.buzzer.p_melody →
      (s = FSM_JUKEBOX.START_UP → v.jukebox.current_state = FSM_JUKEBOX.START_UP) →
      (s = FSM_JUKEBOX.WAIT_COMMAND ∨ s = FSM_JUKEBOX.SLEEP_WHILE_ON →
        v.jukebox.current_state = FSM_JUKEBOX.WAIT_COMMAND ∨
          v.jukebox.current_state = FSM_JUKEBOX.SLEEP_WHILE_ON) →
      selection_invariant lib (jukebox_set_state s x) := by
    intro x s hj hb h1 h2
    exact selection_invariant_of_same lib v _ hinv (by simp [jukebox_set_state, hj])
      (by simp [jukebox_set_state, hj]) (by simp [jukebox_set_state, hj])
      (by simpa [jukebox_set_state] using hb) (by simpa [jukebox_set_state] using h1)
      (by simpa [jukebox_set_state] using h2)
  have hact : ∀ a : USER_ACTIONS,
      (fsm_buzzer_set_action v.buzzer a).p_melody = v.buzzer.p_melody := by
    intro a
    simp only [fsm_buzzer_set_action]
    split <;> rfl
  rcases fsm_fire_cases _ _ _ v v1 h with h1 | ⟨t, ht, ho, _, he⟩
  · rw [h1]
    exact hinv
  · simp only [fms_trans_jukebox, List.mem_cons, List.mem_singleton, List.not_mem_nil,
      or_false] at ht
    rcases ht with rfl | rfl | rfl | rfl | rfl | rfl | rfl | rfl | rfl | rfl | rfl <;>
      simp only [row_effect, Option.map_some', Option.some.injEq] at he
    · -- OFF -> START_UP
      subst he
      obtain ⟨hj, ⟨hf1, _⟩, _, _⟩ := hinv
      have hb : (jukebox_set_state FSM_JUKEBOX.START_UP (do_start_up v)).buzzer.p_melody =
          some (lib slot0) := by
        simp [jukebox_set_state, do_start_up, fsm_buzzer_set_action, fsm_buzzer_set_melody,
          fsm_buzzer_set_speed, hj]
      refine ⟨hj, ⟨hf1, ?_⟩, fun _ => hb, fun hs => ?_⟩
      · intro m hm
        rw [hb] at hm
        simp only [Option.some.injEq] at hm
        rw [← hm]
        exact ⟨hlib, slot0, by rw [← hj]; rfl⟩
      · simp [jukebox_set_state] at hs
    · -- START_UP -> WAIT_COMMAND
      subst he
      obtain ⟨hj, _, hsu, _⟩ := hinv
      have hb := hsu ho.symm
      refine selection_invariant_of_shown lib _ (lib slot0) hj ?_ hlib ?_ hb ⟨_, rfl⟩
        (by simp [jukebox_set_state])
      · simp [melody_at, jukebox_set_state, do_start_jukebox, hj, slot0, MELODIES_MEMORY_SIZE]
      · simp [jukebox_set_state, do_start_jukebox, hj]
    · -- WAIT_COMMAND -> OFF
      subst he
      exact hstate _ _ rfl (hact _) (fun hs => by simp at hs) (fun hs => by simp at hs)
    · -- next-song button
      subst he
      obtain ⟨m, ha, hl, hn, hb, hj, hst, hi⟩ := set_next_song_selection lib hlib v hinv.1
      exact selection_invariant_of_shown lib _ m hj ha hl hn hb hi (by simp [jukebox_set_state])
    · -- command received
      simp only [Option.map_eq_some'] at he
      obtain ⟨y, hy, hv1⟩ := he
      subst hv1
      simp only [do_read_command] at hy
      split at hy
      · exact absurd hy (by simp)
      · simp only [Option.some.injEq] at hy
        subst hy
        exact hstate _ _ rfl rfl (fun hs => by simp at hs) (fun _ => Or.inl ho.symm)
      · simp only [Option.map_eq_some'] at hy
        obtain ⟨z, hz, hyz⟩ := hy
        subst hyz
        obtain ⟨hz1, hz2⟩ := execute_command_keeps_selection atof garbage lib hlib v z _ _
          ho.symm hinv hz
        exact selection_invariant_of_same lib z _ hz1 rfl rfl rfl rfl
          (fun hs => by simp [jukebox_set_state] at hs) (fun _ => Or.inl hz2)
    · -- WAIT_COMMAND -> SLEEP_WHILE_ON
      subst he
      exact hstate _ _ rfl rfl (fun hs => by simp at hs) (fun _ => Or.inl ho.symm)
    · -- SLEEP_WHILE_ON -> SLEEP_WHILE_ON
      subst he
      exact hstate _ _ rfl rfl (fun hs => by simp at hs) (fun _ => Or.inr ho.symm)
    · -- SLEEP_WHILE_ON -> WAIT_COMMAND
      subst he
      exact hstate _ _ rfl rfl (fun hs => by simp at hs) (fun _ => Or.inr ho.symm)
    · -- OFF -> SLEEP_WHILE_OFF
      subst he
      exact hstate _ _ rfl rfl (fun hs => by simp at hs) (fun hs => by simp at hs)
    · -- SLEEP_WHILE_OFF -> SLEEP_WHILE_OFF
      subst he
      exact hstate _ _ rfl rfl (fun hs => by simp at hs) (fun hs => by simp at hs)
    · -- SLEEP_WHILE_OFF -> OFF
      subst he
      exact hstate _ _ rfl rfl (fun hs => by simp at hs) (fun hs => by simp at hs)

theorem system_apply_keeps_selection (atof : List Nat → ℚ) (garbage : Nat → Nat)
    (lib : Fin MELODIES_MEMORY_SIZE → melody_t) (hlib : (lib slot0).melody_length ≠ 0)
    (e : system_event) (v v1 : world) (hinv : selection_invariant lib v)
    (h : system_apply atof garbage e v = some v1) : selection_invariant lib v1 := by
  have hsame : v1.jukebox = v.jukebox → v1.buzzer.p_melody = v.buzzer.p_melody →
      selection_invariant lib v1 := by
    intro hj hb
    exact selection_invariant_of_same lib v v1 hinv (by rw [hj]) (by rw [hj]) (by rw [hj]) hb
      (by rw [hj]; exact id) (by rw [hj]; exact id)
  cases e with
  | fire_button =>
    obtain ⟨h1, h2, _⟩ := button_fire_frame v v1 h
    exact hsame h1 (by rw [h2])
  | fire_usart =>
    obtain ⟨h1, h2, _⟩ := usart_fire_frame v v1 h
    exact hsame h1 (by rw [h2])
  | fire_buzzer =>
    obtain ⟨h1, h2, _⟩ := buzzer_fire_frame v v1 h
    exact hsame h1 h2
  | fire_jukebox => exact jukebox_fire_keeps_selection atof garbage lib hlib v v1 hinv h
  | systick =>
    simp only [system_apply, Option.some.injEq] at h
    subst h
    exact hsame rfl rfl
  | exti low =>
    simp only [system_apply, Option.some.injEq] at h
    subst h
    exact hsame rfl rfl
  | usart3 RXNE DR TXE =>
    simp only [system_apply, USART3_IRQHandler, Option.bind_eq_some, Option.map_eq_some'] at h
    obtain ⟨h1, _, h2, _, hv1⟩ := h
    subst hv1
    exact hsame rfl rfl
  | tim2 =>
    simp only [system_apply, Option.some.injEq] at h
    subst h
    exact hsame rfl rfl

theorem system_run_keeps_selection (atof : List Nat → ℚ) (garbage : Nat → Nat)
    (lib : Fin MELODIES_MEMORY_SIZE → melody_t) (hlib : (lib slot0).melody_length ≠ 0)
    (evs : List system_event) (v v1 : world) (hinv : selection_invariant lib v)
    (h : system_run atof garbage evs v = some v1) : selection_invariant lib v1 := by
  induction evs generalizing v with
  | nil =>
    simp only [system_run, Option.some.injEq] at h
    subst h
    exact hinv
  | cons e es ih =>
    simp only [system_run, Option.bind_eq_some] at h
    obtain ⟨u, hu, hrest⟩ := h
    exact ih u (system_apply_keeps_selection atof garbage lib hlib e v u hinv hu) hrest

theorem selection_invariant_init (p_melody0 : Option (List Nat)) (speed0 : ℚ)
    (scale_melody happy_birthday_melody tetris_melody : melody_t)
    (on_off next_song : Nat) (w0 : world)
    (hscale : scale_melody.melody_length ≠ 0)
    (hj : w0.jukebox = fsm_jukebox_init p_melody0 speed0 scale_melody happy_birthday_melody
      tetris_melody on_off next_song)
    (hb : w0.buzzer.p_melody = none) :
    selection_invariant (default_melodies scale_melody happy_birthday_melody tetris_melody) w0 ∧
    (default_melodies scale_melody happy_birthday_melody tetris_melody slot0).melody_length ≠
      0 := by
  have h0 : default_melodies scale_melody happy_birthday_melody tetris_melody slot0 =
      scale_melody := by simp [default_melodies, slot0]
  refine ⟨⟨by rw [hj]; rfl, ⟨⟨scale_melody, ?_, hscale⟩, ?_⟩, ?_, ?_⟩, by rw [h0]; exact hscale⟩
  · rw [hj]
    simp [melody_at, fsm_jukebox_init, default_melodies, MELODIES_MEMORY_SIZE]
  · intro m hm
    rw [hb] at hm
    exact absurd hm (by simp)
  · intro hs
    rw [hj] at hs
    simp [fsm_jukebox_init] at hs
  · intro hs
    rw [hj] at hs
    simp [fsm_jukebox_init] at hs

theorem upto_newline_of_no_newline (s rest : List Nat) (h : END_CHAR_CONSTANT ∉ s) :
    upto_newline (s ++ END_CHAR_CONSTANT :: rest) = s ++ [END_CHAR_CONSTANT] := by
  induction s with
  | nil => simp [upto_newline]
  | cons a s ih =>
    have ha : a ≠ END_CHAR_CONSTANT := fun hc => h (by simp [hc])
    have hs : END_CHAR_CONSTANT ∉ s := fun hc => h (List.mem_cons_of_mem a hc)
    simp [upto_newline, ha, ih hs]

/-- The selection on runs with defined behaviour: from a machine whose jukebox is as
`fsm_jukebox_init` leaves it (slot 0 of the library filled; the other slots as given, slots 3 to 9
cleared) and whose buzzer is fresh from `fsm_buzzer_init`, after every sequence of fires of the
four FSMs and of interrupts (ticks, button edges, received and sent bytes, note timer) that has
defined behaviour, the selected index is below 10, its slot has a note count other than 0, the
melody of the buzzer, if any, is a library slot with a note count other than 0, and the library is
unchanged. -/
theorem empty_slot_never_selected (atof : List Nat → ℚ) (garbage : Nat → Nat)
    (p_melody0 : Option (List Nat)) (speed0 : ℚ)
    (scale_melody happy_birthday_melody tetris_melody : melody_t)
    (on_off next_song buzzer_id : Nat) (w0 : world) (evs : List system_event) (w : world)
    (hscale : scale_melody.melody_length ≠ 0)
    (hj : w0.jukebox = fsm_jukebox_init p_melody0 speed0 scale_melody happy_birthday_melody
      tetris_melody on_off next_song)
    (hb : w0.buzzer = fsm_buzzer_init buzzer_id)
    (hrun : system_run atof garbage evs w0 = some w) :
    w.jukebox.melody_idx < MELODIES_MEMORY_SIZE ∧
    (∃ m, melody_at w.jukebox w.jukebox.melody_idx = some m ∧ m.melody_length ≠ 0) ∧
    (∀ m, w.buzzer.p_melody = some m → m.melody_length ≠ 0 ∧ ∃ i, m = w.jukebox.melodies i) ∧
    w.jukebox.melodies = default_melodies scale_melody happy_birthday_melody tetris_melody ∧
    (∀ i : Fin MELODIES_MEMORY_SIZE, 3 ≤ i.val → (w.jukebox.melodies i).melody_length = 0) := by
  obtain ⟨hinit, hlib⟩ := selection_invariant_init p_melody0 speed0 scale_melody
    happy_birthday_melody tetris_melody on_off next_song w0 hscale hj (by rw [hb]; rfl)
  obtain ⟨h1, ⟨⟨m, hm1, hm2⟩, h3⟩, _, _⟩ :=
    system_run_keeps_selection atof garbage _ hlib evs w0 w hinit hrun
  refine ⟨?_, ⟨m, hm1, hm2⟩, h3, h1, ?_⟩
  · simp only [melody_at] at hm1
    split at hm1
    · rename_i h
      exact h
    · exact absurd hm1 (by simp)
  · intro i hi
    rw [h1]
    have h0 : i.val ≠ 0 := by omega
    have h1 : i.val ≠ 1 := by omega
    have h2 : i.val ≠ 2 := by omega
    simp [default_melodies, h0, h1, h2, empty_slot]

/-- The selection, closed instance: the sample machine is switched on and receives the line "select
5" (an empty slot): the selection stays at slot 0. -/
theorem empty_slot_never_selected_witness :
    ∃ w, system_run demo_atof demo_garbage
        (demo_power_on ++ demo_line [115, 101, 108, 101, 99, 116, 32, 53]) demo_init = some w ∧
      w.jukebox.current_state = FSM_JUKEBOX.WAIT_COMMAND ∧
      w.jukebox.melody_idx = 0 ∧
      w.jukebox.melody_idx < MELODIES_MEMORY_SIZE ∧
      (∃ m, melody_at w.jukebox w.jukebox.melody_idx = some m ∧ m.melody_length ≠ 0) :=
  ⟨_, rfl, rfl, rfl,
    (empty_slot_never_selected demo_atof demo_garbage none 0 demo_scale demo_happy demo_tetris
      1001 501 0 demo_init (demo_power_on ++ demo_line [115, 101, 108, 101, 99, 116, 32, 53]) _
      (by decide) rfl rfl rfl).1,
    (empty_slot_never_selected demo_atof demo_garbage none 0 demo_scale demo_happy demo_tetris
      1001 501 0 demo_init (demo_power_on ++ demo_line [115, 101, 108, 101, 99, 116, 32, 53]) _
      (by decide) rfl rfl rfl).2.1⟩

/-- The command "info" on runs with defined behaviour: from a machine whose jukebox is as
`fsm_jukebox_init` leaves it (slot 0 of the library filled) and whose buzzer is fresh from
`fsm_buzzer_init`, after every sequence of fires and interrupts that has defined behaviour and ends
with the jukebox in `WAIT_COMMAND` or `SLEEP_WHILE_ON`, the displayed name is the name of the
library slot at the selected index and the melody of the buzzer is that slot; when that name is a
string that fits the output array, the command "info" leaves "Playing: ", the name, a newline and a
NUL at the start of `out_data` and changes nothing else in the machine. -/
theorem info_reports_buzzer_melody (atof : List Nat → ℚ) (garbage : Nat → Nat)
    (p_melody0 : Option (List Nat)) (speed0 : ℚ)
    (scale_melody happy_birthday_melody tetris_melody : melody_t)
    (on_off next_song buzzer_id : Nat) (w0 : world) (evs : List system_event) (w : world)
    (hscale : scale_melody.melody_length ≠ 0)
    (hj : w0.jukebox = fsm_jukebox_init p_melody0 speed0 scale_melody happy_birthday_melody
      tetris_melody on_off next_song)
    (hb : w0.buzzer = fsm_buzzer_init buzzer_id)
    (hrun : system_run atof garbage evs w0 = some w)
    (hs : w.jukebox.current_state = FSM_JUKEBOX.WAIT_COMMAND ∨
      w.jukebox.current_state = FSM_JUKEBOX.SLEEP_WHILE_ON) :
    ∃ m, melody_at w.jukebox w.jukebox.melody_idx = some m ∧
      w.jukebox.p_melody = m.p_name ∧
      w.buzzer.p_melody = some m ∧
      ∀ name p : List Nat, m.p_name = some name →
        (str_playing ++ name ++ [END_CHAR_CONSTANT]).length < USART_OUTPUT_BUFFER_LENGTH →
        ∃ rest w1, _execute_command atof garbage w str_info p = some w1 ∧
          w1.usart.out_data = str_playing ++ name ++ [END_CHAR_CONSTANT] ++ 0 :: rest ∧
          (END_CHAR_CONSTANT ∉ name →
            upto_newline w1.usart.out_data = str_playing ++ name ++ [END_CHAR_CONSTANT]) ∧
          w1 = { w with usart := { w.usart with out_data := w1.usart.out_data } } := by
  obtain ⟨hinit, hlib⟩ := selection_invariant_init p_melody0 speed0 scale_melody
    happy_birthday_melody tetris_melody on_off next_song w0 hscale hj (by rw [hb]; rfl)
  obtain ⟨_, _, _, h4⟩ := system_run_keeps_selection atof garbage _ hlib evs w0 w hinit hrun
  obtain ⟨m, hm1, hm2, hm3⟩ := h4 hs
  refine ⟨m, hm1, hm2, hm3, fun name p hname hfit => ?_⟩
  obtain ⟨rest, hfmt, htake⟩ := sprintf_fits garbage _ hfit
  have hpm : w.jukebox.p_melody = some name := by rw [hm2, hname]
  obtain ⟨msg, hmsg⟩ : ∃ msg, msg = str_playing ++ name ++ [END_CHAR_CONSTANT] ++ 0 :: rest :=
    ⟨_, rfl⟩
  rw [← hmsg] at hfmt htake
  have hexec : _execute_command atof garbage w str_info p =
      some { w with usart := fsm_usart_set_out_data w.usart msg } := by
    rw [List.append_assoc] at hfmt
    simp only [_execute_command, str_info, str_play, str_stop, str_pause, str_speed, str_next,
      str_select, hpm, List.append_assoc, hfmt]
    simp
  refine ⟨rest, _, hexec, ?_, ?_, ?_⟩
  · simp only [fsm_usart_set_out_data]
    rw [htake, hmsg]
  · intro hnl
    simp only [fsm_usart_set_out_data, htake]
    have hno : END_CHAR_CONSTANT ∉ str_playing ++ name := by
      intro hc
      rcases List.mem_append.mp hc with hc | hc
      · exact absurd hc (by decide)
      · exact hnl hc
    have := upto_newline_of_no_newline (str_playing ++ name) (0 :: rest) hno
    rw [hmsg]
    simpa [List.append_assoc] using this
  · simp only [fsm_usart_set_out_data]

/-- The command "info", closed instance: the sample machine is switched on and receives the line
"next"; it is in `WAIT_COMMAND` with slot 1 selected, shown and held by the buzzer, and the command
"info" answers "Playing: Happy\n". -/
theorem info_reports_buzzer_melody_witness :
    ∃ w, system_run demo_atof demo_garbage (demo_power_on ++ demo_line [110, 101, 120, 116])
        demo_init = some w ∧
      w.jukebox.melody_idx = 1 ∧
      w.jukebox.p_melody = some [72, 97, 112, 112, 121] ∧
      w.buzzer.p_melody = some demo_happy ∧
      (_execute_command demo_atof demo_garbage w str_info [SPACE]).map
        (fun w1 => upto_newline w1.usart.out_data) =
        some [80, 108, 97, 121, 105, 110, 103, 58, 32, 72, 97, 112, 112, 121, 10] :=
  ⟨_, rfl, rfl, rfl, rfl,
    ((info_reports_buzzer_melody demo_atof demo_garbage none 0 demo_scale demo_happy demo_tetris
      1001 501 0 demo_init (demo_power_on ++ demo_line [110, 101, 120, 116]) _
      (by decide) rfl rfl rfl (Or.inl rfl)).elim
      fun m hm => (hm.2.2.2 [72, 97, 112, 112, 121] [SPACE]
        (Option.some.inj (hm.2.2.1.symm.trans rfl) ▸ rfl) (by decide)).elim
        fun rest hw => hw.elim fun w1 h1 => by
          rw [h1.1]
          exact congrArg some (h1.2.2.1 (by decide)))⟩

/-! ## Received lines that fill the input array -/

/-- C5: a command token that is none of the seven command words (compared byte by byte, hence
case-sensitively) makes `_execute_command` leave "Error: Command not found\n" as the message of
the output array and change nothing in the buzzer or the jukebox, whatever the parameter; and so
does the command-received action for every received line of at most 9 bytes, which the input
array holds as a terminated string, whose first token is such a token. The received lines
"abcdefghij" and "foo 123456" have 10 bytes and fill the input array, which then holds no
terminator: their first token is no command word, but `strtok` in `_parse_message` runs past the
end of the copy of the array, and the command-received action has no defined result. -/
theorem unknown_command_full_line_undefined (atof : List Nat → ℚ) (garbage : Nat → Nat)
    (w : world) :
    (∀ c p : List Nat, c ∉ command_words →
      ∃ w1, _execute_command atof garbage w c p = some w1 ∧
        upto_newline w1.usart.out_data = str_command_not_found ∧
        w1.buzzer = w.buzzer ∧ w1.jukebox = w.jukebox) ∧
    (∀ line junk c : List Nat,
      w.usart.in_data = line ++ 0 :: junk →
      w.usart.in_data.length = USART_INPUT_BUFFER_LENGTH →
      0 ∉ line →
      first_token line = some c →
      c ∉ command_words →
      ∃ w1, do_read_command atof garbage w = some w1 ∧
        upto_newline w1.usart.out_data = str_command_not_found ∧
        w1.buzzer = w.buzzer ∧
        w1.jukebox.melody_idx = w.jukebox.melody_idx ∧
        w1.jukebox.p_melody = w.jukebox.p_melody) ∧
    [97, 98, 99, 100, 101, 102, 103, 104, 105, 106].length = USART_INPUT_BUFFER_LENGTH ∧
    first_token [97, 98, 99, 100, 101, 102, 103, 104, 105, 106] =
      some [97, 98, 99, 100, 101, 102, 103, 104, 105, 106] ∧
    [97, 98, 99, 100, 101, 102, 103, 104, 105, 106] ∉ command_words ∧
    _parse_message [97, 98, 99, 100, 101, 102, 103, 104, 105, 106] = none ∧
    do_read_command atof garbage
      { w with usart := { w.usart with in_data := [97, 98, 99, 100, 101, 102, 103, 104, 105, 106] } }
      = none ∧
    [102, 111, 111, 32, 49, 50, 51, 52, 53, 54].length = USART_INPUT_BUFFER_LENGTH ∧
    first_token [102, 111, 111, 32, 49, 50, 51, 52, 53, 54] = some [102, 111, 111] ∧
    [102, 111, 111] ∉ command_words ∧
    _parse_message [102, 111, 111, 32, 49, 50, 51, 52, 53, 54] = none ∧
    do_read_command atof garbage
      { w with usart := { w.usart with in_data := [102, 111, 111, 32, 49, 50, 51, 52, 53, 54] } }
      = none := by
  have hp1 : _parse_message [97, 98, 99, 100, 101, 102, 103, 104, 105, 106] = none := by decide
  have hp2 : _parse_message [102, 111, 111, 32, 49, 50, 51, 52, 53, 54] = none := by decide
  refine ⟨(unknown_command_reports_error atof garbage w).1,
    (unknown_command_reports_error atof garbage w).2, by decide, by decide, by decide, hp1, ?_,
    by decide, by decide, by decide, hp2, ?_⟩
  · simp [do_read_command, fsm_usart_get_in_data, hp1]
  · simp [do_read_command, fsm_usart_get_in_data, hp2]

/-- C6: when the received line has no token and at most 9 bytes (it is empty or made of up to 9
spaces), the input array holds it as a terminated string, and the command-received action parses
no command and only resets the input data: the output array, the buzzer and the jukebox are as
they were. The received line of 10 spaces fills the input array, which then holds no terminator:
`strtok` in `_parse_message` skips the spaces and runs past the end of the copy of the array, and
the command-received action has no defined result. -/
theorem blank_full_line_undefined (atof : List Nat → ℚ) (garbage : Nat → Nat) (w : world) :
    (∀ line junk : List Nat,
      w.usart.in_data = line ++ 0 :: junk →
      w.usart.in_data.length = USART_INPUT_BUFFER_LENGTH →
      0 ∉ line →
      first_token line = none →
      _parse_message w.usart.in_data = some none ∧
      ∃ w1, do_read_command atof garbage w = some w1 ∧
        w1.usart.out_data = w.usart.out_data ∧
        upto_newline w1.usart.out_data = upto_newline w.usart.out_data ∧
        w1.buzzer = w.buzzer ∧
        w1.jukebox.melody_idx = w.jukebox.melody_idx ∧
        w1.jukebox.p_melody = w.jukebox.p_melody) ∧
    [32, 32, 32, 32, 32, 32, 32, 32, 32, 32].length = USART_INPUT_BUFFER_LENGTH ∧
    first_token [32, 32, 32, 32, 32, 32, 32, 32, 32, 32] = none ∧
    _parse_message [32, 32, 32, 32, 32, 32, 32, 32, 32, 32] = none ∧
    do_read_command atof garbage
      { w with usart := { w.usart with in_data := [32, 32, 32, 32, 32, 32, 32, 32, 32, 32] } }
      = none := by
  have hp : _parse_message [32, 32, 32, 32, 32, 32, 32, 32, 32, 32] = none := by decide
  refine ⟨fun line junk hin hlen h0 htok =>
      empty_line_is_ignored atof garbage w line junk hin hlen h0 htok,
    by decide, by decide, hp, ?_⟩
  simp [do_read_command, fsm_usart_get_in_data, hp]

/-- C26: whenever the action `do_read_command` has a defined result it leaves `data_received`
false and the 10 bytes of `in_data` zero, so that the guard `check_command_received` is false
afterwards. It has one for every received line of at most 9 bytes whose command stays inside the
library and the output array (`command_received_clears_input`). The received line "play 12345"
has 10 bytes and fills the input array, which then holds no terminator: `strtok` in
`_parse_message` runs past the end of the copy of the array. The received line "select 10" makes
`_execute_command` read the library slot of index 10. For both lines the fire of the jukebox
from `WAIT_COMMAND` has no defined result. -/
theorem command_received_full_line_undefined (atof : List Nat → ℚ) (garbage : Nat → Nat) :
    (∀ w w1 : world, do_read_command atof garbage w = some w1 →
      w1.usart.data_received = false ∧ w1.usart.in_data = [0, 0, 0, 0, 0, 0, 0, 0, 0, 0] ∧
      check_command_received (jukebox_set_state FSM_JUKEBOX.WAIT_COMMAND w1) = false) ∧
    (demo_received [112, 108, 97, 121, 32, 49, 50, 51, 52, 53]).jukebox.current_state =
      FSM_JUKEBOX.WAIT_COMMAND ∧
    check_command_received (demo_received [112, 108, 97, 121, 32, 49, 50, 51, 52, 53]) = true ∧
    [112, 108, 97, 121, 32, 49, 50, 51, 52, 53].length = USART_INPUT_BUFFER_LENGTH ∧
    _parse_message [112, 108, 97, 121, 32, 49, 50, 51, 52, 53] = none ∧
    fsm_jukebox_fire atof garbage (demo_received [112, 108, 97, 121, 32, 49, 50, 51, 52, 53]) =
      none ∧
    _parse_message [115, 101, 108, 101, 99, 116, 32, 49, 48, 0] =
      some (some (str_select, [49, 48])) ∧
    melody_selected [49, 48] = 10 ∧
    fsm_jukebox_fire atof garbage (demo_received [115, 101, 108, 101, 99, 116, 32, 49, 48, 0]) =
      none := by
  refine ⟨fun w w1 h => ?_, rfl, rfl, by decide, by decide, ?_, by decide, by decide, ?_⟩
  · obtain ⟨hflag, hdata⟩ := do_read_command_resets_input atof garbage w w1 h
    refine ⟨hflag, hdata, ?_⟩
    simpa [check_command_received, fsm_usart_check_data_received, jukebox_set_state] using hflag
  · rfl
  · rfl

/-! ## The selection after a "select" outside the library -/

/-- C31: on the runs that have defined behaviour the selection stays on filled slots (first
part, `empty_slot_never_selected`). But the command "select" reads the library with no check of
the index: the sample machine is switched on and receives the line "select 10"; the line is
delivered to the jukebox in `WAIT_COMMAND`, the parameter gives the index 10, which is outside
the library of `MELODIES_MEMORY_SIZE = 10` slots, and the fire of the jukebox that executes the
command reads `melodies[10]`: the run has no defined result. -/
theorem select_out_of_range_ends_run (atof : List Nat → ℚ) (garbage : Nat → Nat) :
    (∀ (p_melody0 : Option (List Nat)) (speed0 : ℚ)
      (scale_melody happy_birthday_melody tetris_melody : melody_t)
      (on_off next_song buzzer_id : Nat) (w0 : world) (evs : List system_event) (w : world),
      scale_melody.melody_length ≠ 0 →
      w0.jukebox = fsm_jukebox_init p_melody0 speed0 scale_melody happy_birthday_melody
        tetris_melody on_off next_song →
      w0.buzzer = fsm_buzzer_init buzzer_id →
      system_run atof garbage evs w0 = some w →
      w.jukebox.melody_idx < MELODIES_MEMORY_SIZE ∧
      (∃ m, melody_at w.jukebox w.jukebox.melody_idx = some m ∧ m.melody_length ≠ 0) ∧
      (∀ m, w.buzzer.p_melody = some m → m.melody_length ≠ 0 ∧ ∃ i, m = w.jukebox.melodies i)) ∧
    (∃ v, system_run atof garbage
        (demo_power_on ++ (demo_line [115, 101, 108, 101, 99, 116, 32, 49, 48]).dropLast)
        demo_init = some v ∧
      v.jukebox.current_state = FSM_JUKEBOX.WAIT_COMMAND ∧
      v.usart.data_received = true ∧
      v.usart.in_data = [115, 101, 108, 101, 99, 116, 32, 49, 48, 0] ∧
      _execute_command atof garbage v str_select [49, 48] = none) ∧
    _parse_message [115, 101, 108, 101, 99, 116, 32, 49, 48, 0] =
      some (some (str_select, [49, 48])) ∧
    melody_selected [49, 48] = 10 ∧
    ¬ melody_selected [49, 48] < MELODIES_MEMORY_SIZE ∧
    system_run atof garbage
      (demo_power_on ++ demo_line [115, 101, 108, 101, 99, 116, 32, 49, 48]) demo_init = none := by
  refine ⟨?_, ⟨_, rfl, rfl, rfl, rfl, rfl⟩, by decide, by decide, by decide, rfl⟩
  intro p_melody0 speed0 scale_melody happy_birthday_melody tetris_melody on_off next_song
    buzzer_id w0 evs w hscale hj hb hrun
  obtain ⟨h1, h2, h3, _⟩ := empty_slot_never_selected atof garbage p_melody0 speed0 scale_melody
    happy_birthday_melody tetris_melody on_off next_song buzzer_id w0 evs w hscale hj hb hrun
  exact ⟨h1, h2, h3⟩

/-- C34: on the runs that have defined behaviour, in `WAIT_COMMAND` and `SLEEP_WHILE_ON` the
displayed name and the melody of the buzzer are those of the selected slot, and "info" answers
with that name (first part, `info_reports_buzzer_melody`). But the command "select" reads the
library with no check of the index: the sample machine is switched on and receives the lines
"select 12" and "info"; when the first line is delivered the machine is in `WAIT_COMMAND` with
slot 0 selected, shown and played; the parameter gives the index 12, outside the library, the
fire of the jukebox that executes the command reads `melodies[12]`, and from there on the run,
the answer to "info" included, has no defined result. -/
theorem info_after_select_out_of_range (atof : List Nat → ℚ) (garbage : Nat → Nat) :
    (∀ (p_melody0 : Option (List Nat)) (speed0 : ℚ)
      (scale_melody happy_birthday_melody tetris_melody : melody_t)
      (on_off next_song buzzer_id : Nat) (w0 : world) (evs : List system_event) (w : world),
      scale_melody.melody_length ≠ 0 →
      w0.jukebox = fsm_jukebox_init p_melody0 speed0 scale_melody happy_birthday_melody
        tetris_melody on_off next_song →
      w0.buzzer = fsm_buzzer_init buzzer_id →
      system_run atof garbage evs w0 = some w →
      (w.jukebox.current_state = FSM_JUKEBOX.WAIT_COMMAND ∨
        w.jukebox.current_state = FSM_JUKEBOX.SLEEP_WHILE_ON) →
      ∃ m, melody_at w.jukebox w.jukebox.melody_idx = some m ∧
        w.jukebox.p_melody = m.p_name ∧
        w.buzzer.p_melody = some m) ∧
    (∃ v, system_run atof garbage
        (demo_power_on ++ (demo_line [115, 101, 108, 101, 99, 116, 32, 49, 50]).dropLast)
        demo_init = some v ∧
      v.jukebox.current_state = FSM_JUKEBOX.WAIT_COMMAND ∧
      v.jukebox.p_melody = demo_scale.p_name ∧
      v.buzzer.p_melody = some demo_scale ∧
      v.usart.data_received = true ∧
      v.usart.in_data = [115, 101, 108, 101, 99, 116, 32, 49, 50, 0] ∧
      _execute_command atof garbage v str_select [49, 50] = none) ∧
    _parse_message [115, 101, 108, 101, 99, 116, 32, 49, 50, 0] =
      some (some (str_select, [49, 50])) ∧
    melody_selected [49, 50] = 12 ∧
    ¬ melody_selected [49, 50] < MELODIES_MEMORY_SIZE ∧
    system_run atof garbage
      (demo_power_on ++ demo_line [115, 101, 108, 101, 99, 116, 32, 49, 50] ++
        demo_line [105, 110, 102, 111]) demo_init = none := by
  refine ⟨?_, ⟨_, rfl, rfl, rfl, rfl, rfl, rfl, rfl⟩, by decide, by decide, by decide, rfl⟩
  intro p_melody0 speed0 scale_melody happy_birthday_melody tetris_melody on_off next_song
    buzzer_id w0 evs w hscale hj hb hrun hs
  obtain ⟨m, h1, h2, h3, _⟩ := info_reports_buzzer_melody atof garbage p_melody0 speed0
    scale_melody happy_birthday_melody tetris_melody on_off next_song buzzer_id w0 evs w hscale hj
    hb hrun hs
  exact ⟨m, h1, h2, h3⟩

end Stylobox
